import Mathlib

/-!
# Verification model of the `arehs` promise pool (`src/Arehs.ts`)

This file embeds the scheduler of the `Arehs<T, R>` class (the final version of
`src/Arehs.ts`, the one with `stopOnFailure` and `retryLimit`, lines 369-592)
as a small-step interpreter of the Node.js event loop, and proves the frozen
claims about it.

Modelling decisions, each tied to the source:

* A run of `mapAsync(processor)` / `_executeProcess()` is modelled as a
  configuration (`Conf`) holding the instance fields (`data`, `results`,
  `inFlightTasks`, `processedEntries`, `error`, the settlement state of
  `promiseExecution`) together with the event-loop state: the FIFO microtask
  queue, the per-task promise states, and the pending external events
  (processor settlements and `setTimeout` timers).

* The processor is abstracted by a behaviour oracle
  `beh : Nat → Nat → Nat × Except ε ρ`: invoking the processor on input item
  `i` for the `a`-th time yields a promise that settles after `(beh i a).1`
  milliseconds with outcome `(beh i a).2`.  Delay `0` models an
  already-settled promise (`Promise.resolve` / `Promise.reject`): its
  reaction is queued as a microtask at call time.  Positive delays settle
  from a macrotask once the microtask queue is drained, as in Node.

* Promise reactions are queued one microtask per `await`/`.then` hop exactly
  as the engine does: a settlement of the processor promise queues the
  `Promise.race` subscriber, which (if the race is not yet settled) queues
  the continuation of `await Promise.race(operations)` in `_executeTask`;
  in the `allowStopOnFailure` case the settlement first queues the
  continuation of `await processor(data)` inside `retryableProcessor`.

* `events.EventEmitter` with the `ProcessStatus` keys: `src/types.ts` is not
  part of the sources, so the emitter is modelled from the spec as three
  distinct internal signals (TASK_COMPLETED, ERROR, FINISH) where emitting
  with no registered listener is a no-op.  `once` listeners in play are: the
  admission gate's TASK_COMPLETED waiter (`_waitForTaskCompletion`, lines
  507-515) and the FINISH/ERROR watchers registered after the admission loop
  (`_executeProcess`, lines 580-581).

* JS numbers holding counters/settings are modelled as `Int` where they can
  go negative or are user-supplied (`inFlightTasks`, `concurrency`,
  `timeout`, `retryLimitCount`), and as `Nat` where the code keeps them
  non-negative (`processedEntries`: only reset to 0 and incremented).
-/

namespace Arehs

instance {ε σ : Type} [DecidableEq ε] [DecidableEq σ] : DecidableEq (Except ε σ) :=
  fun x y =>
    match x, y with
    | Except.ok a, Except.ok b =>
        if h : a = b then isTrue (h ▸ rfl)
        else isFalse fun hh => h (Except.ok.inj hh)
    | Except.error a, Except.error b =>
        if h : a = b then isTrue (h ▸ rfl)
        else isFalse fun hh => h (Except.error.inj hh)
    | Except.ok _, Except.error _ => isFalse fun hh => Except.noConfusion hh
    | Except.error _, Except.ok _ => isFalse fun hh => Except.noConfusion hh

/-- Errors observable from a task: an error raised by the user processor, or
the synthetic timeout error created at line 534
(`new Error("The current task has exceeded the ...ms. ")`). -/
inductive JsErr (ε : Type) where
  | procErr (e : ε)
  | timeoutErr
deriving DecidableEq, Repr

/-- Settlement of the `promiseExecution` promise (or of the promise returned
by `_executeProcess`): `resolve(this.results)` resolves it with the results
array, `reject(this.error)` rejects it with the current value of the
`this.error` slot (which is `null` = `none` until a catch block sets it). -/
inductive Settle (ε : Type) where
  | resolvedArr
  | rejectedWith (e : Option (JsErr ε))
deriving DecidableEq, Repr

/-- Runtime state of one task launched by `_executeTask` (lines 524-554).

`itemIdx` is the index of the input item the task was admitted for;
`attempts` is the `attempts` counter of `retryableProcessor` (lines 474-496;
it stays 0 for the plain processor installed when `allowStopOnFailure` is
false); `procPending`/`procAt` describe the pending settlement of the current
processor invocation; `raceSettled` records whether `Promise.race(operations)`
(line 540) has settled; `timerPending`/`timerAt` describe the `setTimeout`
timer of the timeout promise (lines 531-538); `finished` records that the
`finally` block (lines 546-553) has run. -/
structure TaskState where
  itemIdx : Nat
  attempts : Nat
  procPending : Bool
  procAt : Nat
  raceSettled : Bool
  timerPending : Bool
  timerAt : Nat
  finished : Bool
deriving DecidableEq, Repr

instance : Inhabited TaskState := ⟨⟨0, 0, false, 0, false, false, 0, false⟩⟩

/-- One entry of the microtask queue.

* `retryLoop tid out`: the continuation of `await processor(data)` inside
  `retryableProcessor` (line 478), handling outcome `out` of the current
  attempt — only ever queued when `allowStopOnFailure` is set (line 497).
* `raceReact tid out`: the subscriber of `Promise.race(operations)` reacting
  to a settlement of the processor promise or of the timeout promise.
* `taskCont tid out`: the continuation of `await Promise.race(operations)`
  in `_executeTask` (line 540): the `try` push / `catch` / `finally` code.
* `drvLaunch i`: the continuation of `await this._waitForTaskCompletion()`
  in the admission loop (lines 576-579) about to run
  `this._executeTask(element)` for the already-fetched element of index `i`
  and then advance the iteration. -/
inductive Micro (ε ρ : Type) where
  | retryLoop (tid : Nat) (out : Except ε ρ)
  | raceReact (tid : Nat) (out : Except (JsErr ε) ρ)
  | taskCont (tid : Nat) (out : Except (JsErr ε) ρ)
  | drvLaunch (i : Nat)
deriving DecidableEq, Repr

/-- Configuration parameters of one run: the behaviour oracle for the user
processor plus the instance settings as set by the builder methods. -/
structure Params (ε ρ : Type) where
  beh : Nat → Nat → Nat × Except ε ρ
  concurrency : Int
  timeout : Int
  allowStopOnFailure : Bool
  retryLimitCount : Int

/-- A configuration of the event loop during one `_executeProcess` run.

`dataArr` is `this.data` — the caller's own input array (the constructor at
line 397 stores the reference, it does not copy); the stop-on-failure abort
branch (line 487) empties this very array.  `drvWaiting = some i` means the
admission loop is suspended in `_waitForTaskCompletion` with element index
`i` already fetched, holding a `once(TASK_COMPLETED)` listener.  `watchers`
records that the loop has finished and registered the `once(FINISH)` /
`once(ERROR)` listeners (lines 580-581).  `settled` is the settlement state
of the promise returned to the caller. -/
structure Conf (α ε ρ : Type) where
  dataArr : List α
  results : List ρ
  inFlightTasks : Int
  processedEntries : Nat
  errSlot : Option (JsErr ε)
  settled : Option (Settle ε)
  watchers : Bool
  drvWaiting : Option Nat
  tasks : List TaskState
  micro : List (Micro ε ρ)
  time : Nat
deriving DecidableEq, Repr

variable {α ε ρ : Type}

/-- `this.eventEmitter.emit(ProcessStatus.TASK_COMPLETED)`: the only
listener ever registered for this signal is the admission gate's `once`
waiter (line 510); firing it resolves the gate promise and thereby queues
the continuation `drvLaunch i` of the suspended loop iteration. -/
def emitTaskCompleted (c : Conf α ε ρ) : Conf α ε ρ :=
  match c.drvWaiting with
  | some i => { c with drvWaiting := none, micro := c.micro ++ [Micro.drvLaunch i] }
  | none => c

/-- `this.eventEmitter.emit(ProcessStatus.ERROR, ...)`: when the watchers of
lines 580-581 are registered, the `once(ERROR)` listener runs
`() => reject(this.error)` synchronously, rejecting the run's promise with
the current contents of the error slot (a no-op if already settled). -/
def emitError (c : Conf α ε ρ) : Conf α ε ρ :=
  if c.watchers then
    match c.settled with
    | none => { c with settled := some (Settle.rejectedWith c.errSlot) }
    | some _ => c
  else c

/-- `this.eventEmitter.emit(ProcessStatus.FINISH)`: when the watchers are
registered, the `once(FINISH)` listener runs `() => resolve(this.results)`
(a no-op if already settled). -/
def emitFinish (c : Conf α ε ρ) : Conf α ε ρ :=
  if c.watchers then
    match c.settled with
    | none => { c with settled := some Settle.resolvedArr }
    | some _ => c
  else c

/-- The retry guard of `retryableProcessor` (line 480):
`this.retryLimitCount > 0 && attempts < this.retryLimitCount`. -/
def canRetry (P : Params ε ρ) (attempts : Nat) : Bool :=
  decide (0 < P.retryLimitCount) && decide ((attempts : Int) < P.retryLimitCount)

/-- Update task `tid` in place. -/
@[reducible] def updTask (c : Conf α ε ρ) (tid : Nat) (f : TaskState → TaskState) :
    Conf α ε ρ :=
  { c with tasks := c.tasks.set tid (f (c.tasks.getD tid default)) }

/-- Append continuations at the back of the microtask queue. -/
@[reducible] def pushMicro (c : Conf α ε ρ) (ms : List (Micro ε ρ)) : Conf α ε ρ :=
  { c with micro := c.micro ++ ms }

/-- The reaction queued at call time when the processor promise of the
first attempt on item `i` is already settled (delay 0): the `retryLoop`
continuation inside `retryableProcessor` when `allowStopOnFailure` is set,
the race subscriber for the raw processor (line 497). -/
def launchMicro (P : Params ε ρ) (tid i : Nat) : List (Micro ε ρ) :=
  if 0 < (P.beh i 0).1 then []
  else if P.allowStopOnFailure then [Micro.retryLoop tid (P.beh i 0).2]
  else [Micro.raceReact tid ((P.beh i 0).2.mapError JsErr.procErr)]

/-- The `TaskState` created by the synchronous prefix of `_executeTask` for
item `i` at time `now`: the processor promise of attempt 0 is pending iff
its delay is positive, and the timeout timer is armed iff `timeout > 0`
(line 531). -/
def launchTask (P : Params ε ρ) (now i : Nat) : TaskState :=
  { itemIdx := i, attempts := 0, procPending := decide (0 < (P.beh i 0).1),
    procAt := now + (P.beh i 0).1, raceSettled := false,
    timerPending := decide (0 < P.timeout), timerAt := now + P.timeout.toNat,
    finished := false }

/-- The continuation of `await this._waitForTaskCompletion()` for element
index `i`: run the synchronous prefix of `this._executeTask(element)`
(lines 524-540: `inFlightTasks++`, invoke the processor — which queues
`launchMicro` when its promise is already settled — build the operations
list, arm the timeout timer, subscribe to the race), then advance the
`for...of` iteration (lines 576-579): fetch the next element from the
*current* `this.data` and re-enter the admission gate, or — when the
iterator is exhausted — register the FINISH/ERROR watchers (lines
580-581). -/
def launchStep (P : Params ε ρ) (c : Conf α ε ρ) (i : Nat) : Conf α ε ρ :=
  let c1 := pushMicro
    { c with inFlightTasks := c.inFlightTasks + 1,
             tasks := c.tasks ++ [launchTask P c.time i] }
    (launchMicro P c.tasks.length i)
  let j := i + 1
  if j < c1.dataArr.length then
    if c1.inFlightTasks ≥ P.concurrency then
      { c1 with drvWaiting := some j }
    else
      pushMicro c1 [Micro.drvLaunch j]
  else
    { c1 with watchers := true }

/-- The continuation of `await processor(data)` inside `retryableProcessor`
(lines 474-496), handling the outcome of the current attempt.

On success the wrapper returns, settling its own promise, which queues the
race subscriber.  On failure, if the guard of line 480 allows it, the
attempt counter is incremented and the processor is invoked again (the
`console.error` retry report is not modelled).  Otherwise the failure is
terminal: since the wrapper is only installed when `allowStopOnFailure`
holds, the abort branch (lines 484-491) runs — it zeroes `inFlightTasks`
and `processedEntries`, pops every element of `this.data`, and emits ERROR,
TASK_COMPLETED and FINISH in that order — and then the error is re-thrown,
rejecting the wrapper's promise, which queues the race subscriber. -/
def retryLoopStep (P : Params ε ρ) (c : Conf α ε ρ) (tid : Nat) (out : Except ε ρ) :
    Conf α ε ρ :=
  match out with
  | Except.ok r =>
      pushMicro c [Micro.raceReact tid (Except.ok r)]
  | Except.error e =>
      let t := c.tasks.getD tid default
      if canRetry P t.attempts then
        let a := t.attempts + 1
        if 0 < (P.beh t.itemIdx a).1 then
          updTask c tid fun s =>
            { s with attempts := a, procPending := true,
                     procAt := c.time + (P.beh t.itemIdx a).1 }
        else
          pushMicro
            (updTask c tid fun s => { s with attempts := a, procPending := false })
            [Micro.retryLoop tid (P.beh t.itemIdx a).2]
      else
        let cAbort :=
          if P.allowStopOnFailure then
            emitFinish (emitTaskCompleted (emitError
              { c with inFlightTasks := 0, processedEntries := 0, dataArr := [] }))
          else c
        pushMicro cAbort [Micro.raceReact tid (Except.error (JsErr.procErr e))]

/-- The subscriber of `Promise.race(operations)` (line 540) reacting to a
settlement of one of the raced promises: if the race is still pending it
settles with this outcome and the `await` continuation in `_executeTask` is
queued; a later settlement of the losing promise is ignored. -/
def raceReactStep (c : Conf α ε ρ) (tid : Nat) (out : Except (JsErr ε) ρ) :
    Conf α ε ρ :=
  if (c.tasks.getD tid default).raceSettled then c
  else
    pushMicro (updTask c tid fun s => { s with raceSettled := true })
      [Micro.taskCont tid out]

/-- The continuation of `await Promise.race(operations)` in `_executeTask`:
on success `this.results.push(result)` (line 541); on failure the `catch`
block (lines 542-545) records the error in `this.error` and emits ERROR.
Then the `finally` block (lines 546-553) runs: `inFlightTasks--`,
`processedEntries++`, emit TASK_COMPLETED, and emit FINISH when
`inFlightTasks === 0 && processedEntries === this.data.length`. -/
def taskContStep (c : Conf α ε ρ) (tid : Nat) (out : Except (JsErr ε) ρ) :
    Conf α ε ρ :=
  let c0 := updTask c tid fun s => { s with finished := true }
  let c1 :=
    match out with
    | Except.ok r => { c0 with results := c0.results ++ [r] }
    | Except.error e => emitError { c0 with errSlot := some e }
  let c2 := { c1 with inFlightTasks := c1.inFlightTasks - 1,
                      processedEntries := c1.processedEntries + 1 }
  let c3 := emitTaskCompleted c2
  if c3.inFlightTasks = 0 ∧ c3.processedEntries = c3.dataArr.length then
    emitFinish c3
  else c3

/-- Run one microtask. -/
def runMicro (P : Params ε ρ) (c : Conf α ε ρ) : Micro ε ρ → Conf α ε ρ
  | Micro.drvLaunch i => launchStep P c i
  | Micro.retryLoop tid out => retryLoopStep P c tid out
  | Micro.raceReact tid out => raceReactStep c tid out
  | Micro.taskCont tid out => taskContStep c tid out

/-- The pending external events of the tasks of a list, task ids starting
at `k`: the settlement of each task's current processor invocation and the
firing of its `setTimeout` timer, tagged `(tid, isTimer, fire time)`.  A
task's processor callback is listed before its timer (it was registered
first). -/
def externalsFrom (k : Nat) : List TaskState → List (Nat × Bool × Nat)
  | [] => []
  | t :: ts =>
      ((if t.procPending then [(k, false, t.procAt)] else []) ++
       (if t.timerPending then [(k, true, t.timerAt)] else [])) ++
      externalsFrom (k + 1) ts

/-- The pending external events of a configuration. -/
def externals (c : Conf α ε ρ) : List (Nat × Bool × Nat) :=
  externalsFrom 0 c.tasks

/-- Pick the external event with the smallest fire time; on ties the one
listed first (lower task id; processor settlement before timer) wins. -/
def pickMin : List (Nat × Bool × Nat) → Option (Nat × Bool × Nat)
  | [] => none
  | x :: xs =>
      match pickMin xs with
      | none => some x
      | some y => some (if x.2.2 ≤ y.2.2 then x else y)

/-- Fire an external event (a macrotask): a timer firing rejects the timeout
promise with the synthetic timeout error, queueing the race subscriber; a
processor settlement queues the `retryLoop` continuation inside
`retryableProcessor` when `allowStopOnFailure` is set (line 497) and the
race subscriber directly for the raw processor. -/
def fireExternal (P : Params ε ρ) (c : Conf α ε ρ) (x : Nat × Bool × Nat) :
    Conf α ε ρ :=
  let tid := x.1
  let c' := { c with time := x.2.2 }
  if x.2.1 then
    pushMicro (updTask c' tid fun s => { s with timerPending := false })
      [Micro.raceReact tid (Except.error JsErr.timeoutErr)]
  else
    let t := c.tasks.getD tid default
    let out := (P.beh t.itemIdx t.attempts).2
    let c1 := updTask c' tid fun s => { s with procPending := false }
    if P.allowStopOnFailure then
      pushMicro c1 [Micro.retryLoop tid out]
    else
      pushMicro c1 [Micro.raceReact tid (out.mapError JsErr.procErr)]

/-- One step of the event loop: run the next microtask if any; otherwise
fire the earliest pending external event; `none` when fully quiescent. -/
def step (P : Params ε ρ) (c : Conf α ε ρ) : Option (Conf α ε ρ) :=
  match c.micro with
  | m :: rest => some (runMicro P { c with micro := rest } m)
  | [] =>
      match pickMin (externals c) with
      | some x => some (fireExternal P c x)
      | none => none

/-- Run `n` steps of the event loop (stay put once quiescent). -/
def runPool (P : Params ε ρ) (c : Conf α ε ρ) : Nat → Conf α ε ρ
  | 0 => c
  | n + 1 =>
      match step P c with
      | some c' => runPool P c' n
      | none => c

/-- A configuration is quiescent when the event loop has nothing left to do. -/
def Quiescent (P : Params ε ρ) (c : Conf α ε ρ) : Prop :=
  step P c = none

instance (P : Params ε ρ) (c : Conf α ε ρ) [DecidableEq α] [DecidableEq ε]
    [DecidableEq ρ] : Decidable (Quiescent P c) := by
  unfold Quiescent; infer_instance

/-- The initial configuration of `mapAsync(processor)` on a freshly
configured instance (`promiseExecution === null`), i.e. of
`_executeProcess()` (lines 563-591).

* Empty input (line 564): TASK_COMPLETED and FINISH are emitted with no
  listener registered (no-ops) and `Promise.resolve([])` is returned — the
  run is settled successfully at once and no driver ever starts.
* Otherwise the executor invokes `executeTasks()`, which runs synchronously
  up to the first `await`: it fetches element 0 and enters
  `_waitForTaskCompletion` (lines 507-515); with `inFlightTasks = 0`, the
  gate suspends on the TASK_COMPLETED listener iff `0 ≥ concurrency`,
  otherwise the continuation for element 0 is queued. -/
def initConf (P : Params ε ρ) (data : List α) : Conf α ε ρ :=
  if data.length = 0 then
    { dataArr := data, results := [], inFlightTasks := 0, processedEntries := 0,
      errSlot := none, settled := some Settle.resolvedArr, watchers := false,
      drvWaiting := none, tasks := [], micro := [], time := 0 }
  else if (0 : Int) ≥ P.concurrency then
    { dataArr := data, results := [], inFlightTasks := 0, processedEntries := 0,
      errSlot := none, settled := none, watchers := false,
      drvWaiting := some 0, tasks := [], micro := [], time := 0 }
  else
    { dataArr := data, results := [], inFlightTasks := 0, processedEntries := 0,
      errSlot := none, settled := none, watchers := false,
      drvWaiting := none, tasks := [], micro := [Micro.drvLaunch 0], time := 0 }

/-- The next step is the stop-on-failure abort: the head of the microtask
queue is a `retryLoop` continuation carrying a failure that the guard of
line 480 does not retry, with `allowStopOnFailure` set, so lines 484-491
(counter reset, emptying `this.data`, the emits) are about to run. -/
def isAbortStep (P : Params ε ρ) (c : Conf α ε ρ) : Bool :=
  match c.micro with
  | Micro.retryLoop tid (Except.error _) :: _ =>
      !(canRetry P (c.tasks.getD tid default).attempts) && P.allowStopOnFailure
  | _ => false

/-- No stop-on-failure abort fires within the first `n` steps of the run
started from `c`. -/
def NoAbortUpTo (P : Params ε ρ) (c : Conf α ε ρ) (n : Nat) : Prop :=
  ∀ k, k < n → isAbortStep P (runPool P c k) = false

instance (P : Params ε ρ) (c : Conf α ε ρ) (n : Nat) :
    Decidable (NoAbortUpTo P c n) := by
  unfold NoAbortUpTo; infer_instance

/-! ## The builder surface (lines 416-462)

The fluent configuration methods.  Each is modelled as a function from the
settings record to `Except ConfigError`, so that the presence or absence of
the argument check in the source is visible in the type: `timeoutLimit`
throws on a negative argument (lines 437-439), while `withConcurrency`
(lines 425-428), `stopOnFailure` (lines 449-452) and `retryLimit`
(lines 459-462) assign unconditionally. -/

/-- The settings fields of an `Arehs` instance touched by the builder. -/
structure BuilderState where
  concurrency : Int
  timeout : Int
  allowStopOnFailure : Bool
  retryLimitCount : Int
deriving DecidableEq, Repr

/-- The only configuration error in the source: line 438,
`new Error("The parameter for timeoutLimit must be set to a value greater than 0.")`. -/
inductive ConfigError where
  | negativeTimeout
deriving DecidableEq, Repr

/-- `static create<T>(data)` (lines 416-418): settings of
`new this(data, 10, () => Promise.resolve({}), 0)` with the constructor
defaults of lines 396-409. -/
def createSettings : BuilderState :=
  { concurrency := 10, timeout := 0, allowStopOnFailure := false, retryLimitCount := 0 }

/-- `withConcurrency(concurrency)` (lines 425-428): unconditional assignment,
no validation. -/
def withConcurrency (conc : Int) (s : BuilderState) : Except ConfigError BuilderState :=
  Except.ok { s with concurrency := conc }

/-- `timeoutLimit(ms)` (lines 436-442): throws when `ms < 0`, else assigns. -/
def timeoutLimit (ms : Int) (s : BuilderState) : Except ConfigError BuilderState :=
  if ms < 0 then Except.error ConfigError.negativeTimeout
  else Except.ok { s with timeout := ms }

/-- `stopOnFailure(stopOnFailure)` (lines 449-452): unconditional assignment. -/
def stopOnFailure (b : Bool) (s : BuilderState) : Except ConfigError BuilderState :=
  Except.ok { s with allowStopOnFailure := b }

/-- `retryLimit(retryLimit)` (lines 459-462): unconditional assignment,
no validation. -/
def retryLimit (r : Int) (s : BuilderState) : Except ConfigError BuilderState :=
  Except.ok { s with retryLimitCount := r }

/-! ## Promise identity of `_executeProcess` (lines 563-591)

JS promises are objects; "the identical outcome handle" is reference
identity.  Promise identities are modelled as numbers drawn from an
allocation counter: every `new Promise` / `Promise.resolve` creates a fresh
identity. -/

/-- The state relevant to `_executeProcess`'s memoization: the input array,
the `promiseExecution` field, and the allocator for fresh promise
identities. -/
structure ExecState (α : Type) where
  dataArr : List α
  promiseExecution : Option Nat
  nextPromiseId : Nat
deriving DecidableEq, Repr

/-- One call of `_executeProcess()` (lines 563-591), returning the identity
of the promise handed to the caller: an empty input returns a fresh
`Promise.resolve([])` *before* the memoization check (lines 564-568); a
second call with `promiseExecution !== null` returns the stored promise
(lines 569-571); otherwise a fresh promise is created and stored
(lines 573-590). -/
def executeProcessCall (s : ExecState α) : Nat × ExecState α :=
  if s.dataArr.length = 0 then
    (s.nextPromiseId, { s with nextPromiseId := s.nextPromiseId + 1 })
  else
    match s.promiseExecution with
    | some p => (p, s)
    | none =>
        (s.nextPromiseId,
         { s with promiseExecution := some s.nextPromiseId,
                  nextPromiseId := s.nextPromiseId + 1 })

/-! ## Array aliasing in the constructor (lines 396-409)

JS arrays are references into a heap; the store models the heap, an array
value is an index into it. -/

/-- A heap of JS arrays. -/
structure ArrStore (α : Type) where
  arrs : List (List α)
deriving DecidableEq, Repr

/-- The two array-valued fields of an `Arehs` instance. -/
structure ArehsArrays where
  dataRef : Nat
  resultsRef : Nat
deriving DecidableEq, Repr

/-- The constructor (lines 396-409) as far as arrays are concerned:
`this.data = data` stores the caller's reference unchanged (line 397 — no
copy is made), while `this.results = []` (line 398) allocates one fresh
empty array. -/
def arehsConstructorArrays (st : ArrStore α) (dataRef : Nat) :
    ArehsArrays × ArrStore α :=
  ({ dataRef := dataRef, resultsRef := st.arrs.length },
   ⟨st.arrs ++ [[]]⟩)

/-! ## Counting helpers over the microtask queue and the task list -/

/-- Is this entry the race continuation (`taskCont`) of task `tid`? -/
def isTCfor (tid : Nat) : Micro ε ρ → Bool
  | Micro.taskCont t _ => t == tid
  | _ => false

/-- Is this entry a driver continuation (`drvLaunch`)? -/
def isDrvE : Micro ε ρ → Bool
  | Micro.drvLaunch _ => true
  | _ => false

/-- Is this entry a `retryLoop` continuation? -/
def isRLE : Micro ε ρ → Bool
  | Micro.retryLoop _ _ => true
  | _ => false

/-- Is this entry a continuation belonging to task `tid` (of any of the
three task-owned kinds)? -/
def isForTask (tid : Nat) : Micro ε ρ → Bool
  | Micro.retryLoop t _ => t == tid
  | Micro.raceReact t _ => t == tid
  | Micro.taskCont t _ => t == tid
  | Micro.drvLaunch _ => false

/-- The task a queue entry belongs to (none for driver continuations). -/
def entryTid : Micro ε ρ → Option Nat
  | Micro.retryLoop t _ => some t
  | Micro.raceReact t _ => some t
  | Micro.taskCont t _ => some t
  | Micro.drvLaunch _ => none

/-- Number of `taskCont` entries for task `tid` in a queue. -/
def cntTC (l : List (Micro ε ρ)) (tid : Nat) : Nat := l.countP (isTCfor tid)

/-- Number of driver continuations in a queue. -/
def cntDrv (l : List (Micro ε ρ)) : Nat := l.countP isDrvE

/-- Number of entries belonging to task `tid` in a queue. -/
def cntFor (l : List (Micro ε ρ)) (tid : Nat) : Nat := l.countP (isForTask tid)

/-- Number of finished tasks. -/
def finishedCount (l : List TaskState) : Nat := l.countP (·.finished)

/-- Every task's `attempts` counter is bounded by `max retryLimitCount 0`
(the guard of line 480 never lets it pass the configured limit). -/
def attemptsLe (K : Int) (l : List TaskState) : Prop :=
  ∀ tid, (((l.getD tid default).attempts : Int)) ≤ max K 0

/-! ## Concrete scenarios used as counterexamples and demonstrations

Every scenario instantiates the value types with `Nat`; the behaviour
functions spell out, per item index and attempt number, the settle delay of
the processor's promise and its outcome. -/

/-- Items 0 succeeds slowly (5 ms), item 1 rejects immediately. -/
def behLateOkFastFail : Nat → Nat → Nat × Except Nat Nat := fun i _ =>
  if i = 0 then (5, Except.ok 100) else (0, Except.error 7)

/-- Stop-on-failure with concurrency 2 over `behLateOkFastFail`: both items
are admitted before the failure, so the abort fires with the completion
watchers already registered. -/
def prmAbortLate : Params Nat Nat :=
  { beh := behLateOkFastFail, concurrency := 2, timeout := 0,
    allowStopOnFailure := true, retryLimitCount := 0 }

/-- Item 0 rejects immediately, item 1 succeeds after 3 ms. -/
def behFastFailLateOk : Nat → Nat → Nat × Except Nat Nat := fun i _ =>
  if i = 0 then (0, Except.error 7) else (3, Except.ok 101)

/-- Stop-on-failure with concurrency 1 over `behFastFailLateOk`: the abort
fires while the admission loop is gate-blocked holding the fetched item 1. -/
def prmAbortGate : Params Nat Nat :=
  { beh := behFastFailLateOk, concurrency := 1, timeout := 0,
    allowStopOnFailure := true, retryLimitCount := 0 }

/-- Item 1 rejects immediately; items 0, 2, 3 succeed after 5-7 ms. -/
def behEarlyFail : Nat → Nat → Nat × Except Nat Nat := fun i _ =>
  if i = 0 then (5, Except.ok 100)
  else if i = 1 then (0, Except.error 7)
  else if i = 2 then (6, Except.ok 102)
  else (7, Except.ok 103)

/-- No stop-on-failure, concurrency 10, over `behEarlyFail`: item 1 fails
terminally while the admission loop is still admitting items 2 and 3, i.e.
before the completion watchers are registered. -/
def prmEarlyFail : Params Nat Nat :=
  { beh := behEarlyFail, concurrency := 10, timeout := 0,
    allowStopOnFailure := false, retryLimitCount := 0 }

/-- Item 0 rejects after 1 ms, item 1 rejects after 2 ms. -/
def behTwoFail : Nat → Nat → Nat × Except Nat Nat := fun i _ =>
  if i = 0 then (1, Except.error 3) else (2, Except.error 4)

/-- No stop-on-failure, concurrency 2, over `behTwoFail`: both failures
happen after the watchers are registered, first item 0 then item 1. -/
def prmTwoFail : Params Nat Nat :=
  { beh := behTwoFail, concurrency := 2, timeout := 0,
    allowStopOnFailure := false, retryLimitCount := 0 }

/-- One item whose processor fails on attempts 0 and 1 and succeeds on
attempt 2 (all immediately-settled promises). -/
def behFailTwice : Nat → Nat → Nat × Except Nat Nat := fun _ a =>
  if a = 0 then (0, Except.error 3)
  else if a = 1 then (0, Except.error 4)
  else (0, Except.ok 50)

/-- `retryLimit(3)` configured but `stopOnFailure` left at its default
`false`, over `behFailTwice`. -/
def prmRetryNoStop : Params Nat Nat :=
  { beh := behFailTwice, concurrency := 1, timeout := 0,
    allowStopOnFailure := false, retryLimitCount := 3 }

/-- `retryLimit(3)` together with `stopOnFailure(true)`, over
`behFailTwice`. -/
def prmRetryStop : Params Nat Nat :=
  { beh := behFailTwice, concurrency := 1, timeout := 0,
    allowStopOnFailure := true, retryLimitCount := 3 }

/-- A processor that always succeeds after 1 ms, used with concurrency 0. -/
def prmZeroConc : Params Nat Nat :=
  { beh := fun _ _ => (1, Except.ok 1), concurrency := 0, timeout := 0,
    allowStopOnFailure := false, retryLimitCount := 0 }

/-- Behaviour with one item settling at a parameter delay with a parameter
outcome: used for the timeout-race analysis. -/
def behOne (d : Nat) (out : Except Nat Nat) : Nat → Nat → Nat × Except Nat Nat :=
  fun _ _ => (d, out)

/-- A single-item run with timeout `D`, default concurrency 10, no
stop-on-failure, no retries, whose processor settles after `d` ms with
outcome `out`. -/
def prmTimeout (d : Nat) (out : Except Nat Nat) (D : Nat) : Params Nat Nat :=
  { beh := behOne d out, concurrency := 10, timeout := (D : Int),
    allowStopOnFailure := false, retryLimitCount := 0 }

/-- An `ExecState` with an empty input array. -/
def execStateEmpty : ExecState Nat := ⟨[], none, 0⟩

/-- An always-successful processor (item `i` resolves after `i % 3` ms with
value `i + 40`) at concurrency 2. -/
def prmAllOk : Params Nat Nat :=
  { beh := fun i _ => (i % 3, Except.ok (i + 40)), concurrency := 2,
    timeout := 0, allowStopOnFailure := false, retryLimitCount := 0 }

/-! ## The structural invariant of abort-free executions -/

/-- Structural invariant of every abort-free reachable configuration of a
run over a non-empty `data` with concurrency at least 1.

* `flight_eq`: `inFlightTasks` equals started minus finished tasks.
* `tc_linear`: each task has exactly one pending race continuation from the
  moment its race settles until its `finally` block runs, and none
  otherwise (also: no race continuation references a non-existing task).
* `micro_tid`: task-owned queue entries reference existing tasks.
* `drv_token`: until the watchers are registered there is exactly one
  driver continuation — queued or gate-blocked — and none afterwards.
* `drv_lt`: when the driver continuation is queued (the gate was passed or
  a completion woke it), the in-flight count is below the concurrency.
* `wait_ge`: while the driver is gate-blocked the in-flight count is at
  least the concurrency (the gate condition of line 508 held when it
  suspended and no completion has run since).
* `token_idx_wait` / `token_idx_drv`: the driver's fetched element index is
  the number of tasks started so far.
* `len_le`, `watchers_iff`: items are admitted at most once each, and the
  watchers are registered exactly when all of `data` has been admitted.
* `processed_eq`: `processedEntries` counts finished tasks. -/
structure InvA (P : Params ε ρ) (data : List α) (c : Conf α ε ρ) : Prop where
  data_pres : c.dataArr = data
  flight_eq : c.inFlightTasks = (c.tasks.length : Int) - (finishedCount c.tasks : Int)
  flight_le : c.inFlightTasks ≤ P.concurrency
  tc_linear : ∀ tid, cntTC c.micro tid
      + (if (c.tasks.getD tid default).finished then 1 else 0)
      = if (c.tasks.getD tid default).raceSettled then 1 else 0
  micro_tid : ∀ m ∈ c.micro, ∀ t, entryTid m = some t → t < c.tasks.length
  drv_token : cntDrv c.micro + (if c.drvWaiting.isSome then 1 else 0)
      = if c.watchers then 0 else 1
  drv_lt : 0 < cntDrv c.micro → c.inFlightTasks < P.concurrency
  wait_ge : c.drvWaiting.isSome = true → P.concurrency ≤ c.inFlightTasks
  token_idx_wait : ∀ i, c.drvWaiting = some i → i = c.tasks.length
  token_idx_drv : ∀ i, Micro.drvLaunch i ∈ c.micro → i = c.tasks.length
  len_le : c.tasks.length ≤ data.length
  watchers_iff : c.watchers = true ↔ c.tasks.length = data.length
  processed_eq : c.processedEntries = finishedCount c.tasks

/-- Is this entry a `retryLoop` continuation for task `tid`? -/
def isRLfor (tid : Nat) : Micro ε ρ → Bool
  | Micro.retryLoop t _ => t == tid
  | _ => false

/-- Is this entry a race subscriber (`raceReact`) for task `tid`? -/
def isRRfor (tid : Nat) : Micro ε ρ → Bool
  | Micro.raceReact t _ => t == tid
  | _ => false

/-- Number of `retryLoop` entries for task `tid` in a queue. -/
def cntRL (l : List (Micro ε ρ)) (tid : Nat) : Nat := l.countP (isRLfor tid)

/-- Number of `raceReact` entries for task `tid` in a queue. -/
def cntRR (l : List (Micro ε ρ)) (tid : Nat) : Nat := l.countP (isRRfor tid)

/-- The four phases a task walks through in a timer-free, retry-free
execution: finished (`finally` ran), race settled but the `await` in
`_executeTask` still queued, waiting for the `retryableProcessor` wrapper or
the race subscriber to run, or waiting for the processor's promise to
settle. -/
def phase (q : List (Micro ε ρ)) (t : TaskState) (tid : Nat) : Prop :=
  (t.finished = true ∧ t.procPending = false ∧
    cntRL q tid = 0 ∧ cntRR q tid = 0) ∨
  (t.finished = false ∧ t.raceSettled = true ∧ t.procPending = false ∧
    cntRL q tid = 0 ∧ cntRR q tid = 0) ∨
  (t.finished = false ∧ t.raceSettled = false ∧ t.procPending = false ∧
    ((cntRL q tid = 1 ∧ cntRR q tid = 0) ∨ (cntRL q tid = 0 ∧ cntRR q tid = 1))) ∨
  (t.finished = false ∧ t.raceSettled = false ∧ t.procPending = true ∧
    cntRL q tid = 0 ∧ cntRR q tid = 0)

/-- The secondary invariant of runs with no configured timeout whose
`retryLoop` continuations only ever carry successes (which is the case both
when the processor never fails and when the retry wrapper is not installed):
no timer is armed, and every task is in one of the four work phases. -/
structure Inv2 (P : Params ε ρ) (c : Conf α ε ρ) : Prop where
  no_timer : ∀ tid, (c.tasks.getD tid default).timerPending = false
  rl_ok : ∀ tid out, Micro.retryLoop tid out ∈ c.micro → ∃ r, out = Except.ok r
  phases : ∀ tid, tid < c.tasks.length →
    phase c.micro (c.tasks.getD tid default) tid

/-- Sufficient condition for `retryLoop` continuations to carry only
successes: either the retry wrapper is never installed
(`allowStopOnFailure = false`, line 497) or the processor never fails. -/
def RLSafe (P : Params ε ρ) : Prop :=
  P.allowStopOnFailure = false ∨ ∀ i a, ∃ r, (P.beh i a).2 = Except.ok r

/-- Remaining work of one task: 4 before its processor promise settles, 3
while its `retryLoop` continuation is queued, 2 while its race subscriber is
queued, 1 while its `await` continuation is queued, 0 once finished. -/
def weight (q : List (Micro ε ρ)) (t : TaskState) (tid : Nat) : Nat :=
  if t.finished = true then 0
  else if t.raceSettled = true then 1
  else if t.procPending = true then 4
  else if cntRL q tid = 0 then 2
  else 3

/-- Sum of the task weights, task ids starting at `k`. -/
def wsum (q : List (Micro ε ρ)) (k : Nat) : List TaskState → Nat
  | [] => 0
  | t :: ts => weight q t k + wsum q (k + 1) ts

/-- Termination measure of a configuration: 7 per not-yet-admitted item plus
the remaining work of every started task.  Every event-loop step of a
timer-free, retry-free execution strictly decreases it. -/
def muM (data : List α) (c : Conf α ε ρ) : Nat :=
  7 * (data.length - c.tasks.length) + wsum c.micro 0 c.tasks

/-- The extra invariant of runs whose processor never fails: the queued race
subscribers and `await` continuations all carry successes, the results
collection holds one entry per finished task, and the batch promise settles
successfully exactly when every one of the `N` items has finished. -/
structure Inv3 (N : Nat) (c : Conf α ε ρ) : Prop where
  rr_ok : ∀ tid out, Micro.raceReact tid out ∈ c.micro → ∃ r, out = Except.ok r
  tc_ok : ∀ tid out, Micro.taskCont tid out ∈ c.micro → ∃ r, out = Except.ok r
  results_len : c.results.length = finishedCount c.tasks
  settled_spec : c.settled
      = if finishedCount c.tasks = N then some Settle.resolvedArr else none

theorem cntTC_append (l₁ l₂ : List (Micro ε ρ)) (tid : Nat) :
    cntTC (l₁ ++ l₂) tid = cntTC l₁ tid + cntTC l₂ tid :=
  List.countP_append _ _ _

theorem cntDrv_append (l₁ l₂ : List (Micro ε ρ)) :
    cntDrv (l₁ ++ l₂) = cntDrv l₁ + cntDrv l₂ :=
  List.countP_append _ _ _

theorem cntFor_append (l₁ l₂ : List (Micro ε ρ)) (tid : Nat) :
    cntFor (l₁ ++ l₂) tid = cntFor l₁ tid + cntFor l₂ tid :=
  List.countP_append _ _ _

theorem finishedCount_append (l₁ l₂ : List TaskState) :
    finishedCount (l₁ ++ l₂) = finishedCount l₁ + finishedCount l₂ :=
  List.countP_append _ _ _

theorem countP_eq_zero_of_not_mem {τ : Type} {p : τ → Bool} :
    ∀ {l : List τ}, (∀ x ∈ l, p x = false) → l.countP p = 0
  | [], _ => rfl
  | a :: t, h => by
      rw [List.countP_cons]
      have ha := h a (List.mem_cons_self a t)
      have ht := countP_eq_zero_of_not_mem (l := t)
        fun x hx => h x (List.mem_cons_of_mem a hx)
      simp [ha, ht]

theorem mem_of_countP_pos {τ : Type} {p : τ → Bool} {l : List τ}
    (h : 0 < l.countP p) : ∃ x ∈ l, p x = true := by
  by_contra hc
  push_neg at hc
  have : l.countP p = 0 :=
    countP_eq_zero_of_not_mem fun x hx => by
      have := hc x hx
      exact Bool.eq_false_iff.2 this
  omega

/-- `List.set` and `countP`: replacing one element exchanges its
contribution. -/
theorem countP_set {τ : Type} (p : τ → Bool) (l : List τ) (i : Nat) (x d : τ)
    (h : i < l.length) :
    (l.set i x).countP p + (if p (l.getD i d) then 1 else 0)
      = l.countP p + (if p x then 1 else 0) := by
  induction l generalizing i with
  | nil => simp at h
  | cons a t ih =>
      cases i with
      | zero => simp [List.countP_cons, List.getD]; omega
      | succ j =>
          have hj : j < t.length := by simpa using h
          have := ih j hj
          simp only [List.set, List.countP_cons, List.getD_cons_succ]
          omega

/-- `List.getD` after `List.set` at the same (valid) index. -/
theorem getD_set_self {τ : Type} (l : List τ) (i : Nat) (x d : τ)
    (h : i < l.length) : (l.set i x).getD i d = x := by
  induction l generalizing i with
  | nil => simp at h
  | cons a t ih =>
      cases i with
      | zero => rfl
      | succ j => exact ih j (by simpa using h)

/-- `List.getD` after `List.set` at a different index. -/
theorem getD_set_ne {τ : Type} (l : List τ) (i j : Nat) (x d : τ)
    (h : j ≠ i) : (l.set i x).getD j d = l.getD j d := by
  induction l generalizing i j with
  | nil => rfl
  | cons a t ih =>
      cases i with
      | zero =>
          cases j with
          | zero => exact absurd rfl h
          | succ k => rfl
      | succ i' =>
          cases j with
          | zero => rfl
          | succ k => exact ih i' k (fun hh => h (by rw [hh]))

theorem getD_append_left {τ : Type} (l₁ l₂ : List τ) (i : Nat) (d : τ)
    (h : i < l₁.length) : (l₁ ++ l₂).getD i d = l₁.getD i d := by
  induction l₁ generalizing i with
  | nil => simp at h
  | cons a t ih =>
      cases i with
      | zero => rfl
      | succ j => exact ih j (by simpa using h)

theorem getD_append_right_self {τ : Type} (l₁ l₂ : List τ) (d : τ) :
    (l₁ ++ l₂).getD l₁.length d = l₂.getD 0 d := by
  induction l₁ with
  | nil => rfl
  | cons a t ih => simpa using ih

theorem getD_of_length_le {τ : Type} (l : List τ) (i : Nat) (d : τ)
    (h : l.length ≤ i) : l.getD i d = d := by
  induction l generalizing i with
  | nil => rfl
  | cons a t ih =>
      cases i with
      | zero => simp at h
      | succ j => exact ih j (by simpa using h)

/-! ## Generic lemmas about the event loop -/

theorem runPool_zero (P : Params ε ρ) (c : Conf α ε ρ) : runPool P c 0 = c := rfl

theorem runPool_succ_of_step {P : Params ε ρ} {c c' : Conf α ε ρ}
    (h : step P c = some c') (n : Nat) :
    runPool P c (n + 1) = runPool P c' n := by
  simp [runPool, h]

theorem runPool_succ_of_none {P : Params ε ρ} {c : Conf α ε ρ}
    (h : step P c = none) (n : Nat) :
    runPool P c (n + 1) = c := by
  simp [runPool, h]

theorem runPool_of_quiescent {P : Params ε ρ} {c : Conf α ε ρ}
    (h : step P c = none) : ∀ n, runPool P c n = c
  | 0 => rfl
  | _ + 1 => by simp [runPool, h]

/-- Invariant preservation along abort-free prefixes of a run. -/
theorem invariant_runPool_of_noAbort {P : Params ε ρ} {I : Conf α ε ρ → Prop}
    (hstep : ∀ c c', I c → isAbortStep P c = false → step P c = some c' → I c') :
    ∀ n (c : Conf α ε ρ), I c → NoAbortUpTo P c n → I (runPool P c n)
  | 0, _, hI, _ => hI
  | n + 1, c, hI, hab => by
      cases hs : step P c with
      | none => rw [runPool_succ_of_none hs]; exact hI
      | some c' =>
          rw [runPool_succ_of_step hs]
          refine invariant_runPool_of_noAbort hstep n c' ?_ ?_
          · exact hstep c c' hI (by simpa [runPool_zero] using hab 0 (Nat.succ_pos n)) hs
          · intro k hk
            have := hab (k + 1) (Nat.succ_lt_succ hk)
            rwa [runPool_succ_of_step hs] at this

/-- Unconditional invariant preservation along a run. -/
theorem invariant_runPool {P : Params ε ρ} {I : Conf α ε ρ → Prop}
    (hstep : ∀ c c', I c → step P c = some c' → I c') :
    ∀ n (c : Conf α ε ρ), I c → I (runPool P c n)
  | 0, _, hI => hI
  | n + 1, c, hI => by
      cases hs : step P c with
      | none => rw [runPool_succ_of_none hs]; exact hI
      | some c' =>
          rw [runPool_succ_of_step hs]
          exact invariant_runPool hstep n c' (hstep c c' hI hs)

theorem set_eq_of_length_le {τ : Type} (l : List τ) (i : Nat) (x : τ)
    (h : l.length ≤ i) : l.set i x = l := by
  induction l generalizing i with
  | nil => rfl
  | cons a t ih =>
      cases i with
      | zero => simp at h
      | succ j => simp [List.set, ih j (by simpa using h)]

/-! ## Claim C7 — empty input -/

/-- Claim C7: for an empty input sequence the run settles immediately and
successfully with an empty results collection, the processor is invoked
zero times (no task is ever created), and neither the admission gate nor
the task runner is ever entered (no driver continuation is ever queued, the
gate never holds a waiter, and the event loop is quiescent from the
start). -/
theorem c7_empty_input_settles_immediately (P : Params ε ρ) (n : Nat) :
    (initConf P ([] : List α)).settled = some Settle.resolvedArr ∧
    (initConf P ([] : List α)).results = [] ∧
    runPool P (initConf P ([] : List α)) n = initConf P ([] : List α) ∧
    (runPool P (initConf P ([] : List α)) n).tasks = [] ∧
    (runPool P (initConf P ([] : List α)) n).micro = [] ∧
    (runPool P (initConf P ([] : List α)) n).drvWaiting = none := by
  have hq : step P (initConf P ([] : List α)) = none := rfl
  have hr := runPool_of_quiescent hq n
  refine ⟨rfl, rfl, hr, ?_, ?_, ?_⟩ <;> rw [hr] <;> rfl

/-! ## Claim C10 — unvalidated builder arguments -/

/-- Claim C10: unlike `timeoutLimit`, the builder methods `withConcurrency`
and `retryLimit` perform no argument validation: for every integer `c`,
including 0 and negative values, they succeed and store the value
unchanged, while `timeoutLimit` rejects negative input; and a concurrency
of 0 or less makes the admission check `inFlightTasks >= concurrency`
suspend the driver forever: on any non-empty input the run stays frozen in
its initial configuration, with the gate waiting, nothing settled, and no
task ever started. -/
theorem c10_builder_no_validation :
    (∀ (conc : Int) (s : BuilderState),
        withConcurrency conc s = Except.ok { s with concurrency := conc }) ∧
    (∀ (r : Int) (s : BuilderState),
        retryLimit r s = Except.ok { s with retryLimitCount := r }) ∧
    (∀ (ms : Int) (s : BuilderState), ms < 0 →
        timeoutLimit ms s = Except.error ConfigError.negativeTimeout) ∧
    (∀ (α ε ρ : Type) (P : Params ε ρ) (data : List α) (n : Nat),
        P.concurrency ≤ 0 → data ≠ [] →
        runPool P (initConf P data) n = initConf P data ∧
        (initConf P data).drvWaiting = some 0 ∧
        (initConf P data).settled = none ∧
        (initConf P data).tasks = []) := by
  refine ⟨fun conc s => rfl, fun r s => rfl,
    fun ms s hms => by simp [timeoutLimit, hms], ?_⟩
  intro α ε ρ P data n hC hdata
  have hlen : ¬ data.length = 0 := by
    simpa [List.length_eq_zero] using hdata
  have hge : (0 : Int) ≥ P.concurrency := hC
  have hinit : initConf P data =
      { dataArr := data, results := [], inFlightTasks := 0, processedEntries := 0,
        errSlot := none, settled := none, watchers := false,
        drvWaiting := some 0, tasks := [], micro := [], time := 0 } := by
    unfold initConf
    rw [if_neg hlen, if_pos hge]
  have hq : step P (initConf P data) = none := by rw [hinit]; rfl
  exact ⟨runPool_of_quiescent hq n, by rw [hinit], by rw [hinit], by rw [hinit]⟩

/-- Witness for C10 at concrete inputs: `withConcurrency 0` and
`retryLimit (-2)` succeed, `timeoutLimit (-1)` errors, and with
concurrency 0 a two-element run is still frozen after 9 steps. -/
theorem c10_builder_no_validation_witness :
    withConcurrency 0 createSettings
      = Except.ok { createSettings with concurrency := 0 } ∧
    retryLimit (-2) createSettings
      = Except.ok { createSettings with retryLimitCount := (-2 : Int) } ∧
    timeoutLimit (-1) createSettings = Except.error ConfigError.negativeTimeout ∧
    runPool prmZeroConc (initConf prmZeroConc [1, 2]) 9
      = initConf prmZeroConc [1, 2] :=
  ⟨c10_builder_no_validation.1 0 createSettings,
   c10_builder_no_validation.2.1 (-2) createSettings,
   c10_builder_no_validation.2.2.1 (-1) createSettings (by decide),
   (c10_builder_no_validation.2.2.2 Nat Nat Nat prmZeroConc [1, 2] 9 (by decide)
     (by decide)).1⟩

/-! ## Claim C6 — single-flight of `_executeProcess` -/

/-- Counterexample to claim C6: for the empty input sequence the run
operation is not single-flight — each call takes the `data.length === 0`
branch before the memoization check and returns a fresh
`Promise.resolve([])`, so two calls return two distinct outcome handles
(and `promiseExecution` is never even consulted or set). -/
theorem c6_counterexample_empty_not_single_flight :
    (executeProcessCall (executeProcessCall execStateEmpty).2).1 ≠
      (executeProcessCall execStateEmpty).1 ∧
    (executeProcessCall execStateEmpty).2.promiseExecution = none := by
  decide

/-- Claim C6 amended: for every non-empty input sequence the run operation
is single-flight — a second call to `_executeProcess` while one execution
is outstanding returns the identical outcome handle and leaves the state
unchanged; for the empty input sequence, however, each call returns a
fresh already-resolved promise. -/
theorem c6_amended_single_flight_nonempty (s : ExecState α)
    (h : s.dataArr ≠ []) :
    (executeProcessCall (executeProcessCall s).2).1 = (executeProcessCall s).1 ∧
    (executeProcessCall (executeProcessCall s).2).2 = (executeProcessCall s).2 := by
  have hlen : ¬ s.dataArr.length = 0 := by
    simpa [List.length_eq_zero] using h
  cases hp : s.promiseExecution with
  | some p => constructor <;> simp [executeProcessCall, hlen, hp]
  | none => constructor <;> simp [executeProcessCall, hlen, hp]

/-- Witness for the amended C6 at a concrete state. -/
theorem c6_amended_single_flight_nonempty_witness :
    (executeProcessCall (executeProcessCall (⟨[1], none, 0⟩ : ExecState Nat)).2).1
      = (executeProcessCall (⟨[1], none, 0⟩ : ExecState Nat)).1 :=
  (c6_amended_single_flight_nonempty (⟨[1], none, 0⟩ : ExecState Nat)
    (by decide)).1

/-! ## Claim C1 — counterexample: the in-flight count goes negative -/

/-- Counterexample to claim C1: in the stop-on-failure run `prmAbortLate`
over input `[5, 6]`, the abort branch resets `inFlightTasks` to 0 while
both tasks are still outstanding; the failing task's own `finally` block
then decrements the counter to -1 (after 5 steps), and the remaining task's
completion later drives it to -2 — the in-flight count does not stay
non-negative after an abort. -/
theorem c1_counterexample_negative_inflight :
    (runPool prmAbortLate (initConf prmAbortLate [5, 6]) 5).inFlightTasks = -1 ∧
    (runPool prmAbortLate (initConf prmAbortLate [5, 6]) 12).inFlightTasks = -2 := by
  constructor <;> decide

/-! ## Claim C4 — the stop-on-failure abort, evaluated at failing inputs -/

/-- Claim C4 evaluated at its failing inputs (the code contradicts the
claim in two ways).

First run (`prmAbortLate`, input `[5, 6]`, both items admitted before the
failure, so the watchers of lines 580-581 are registered): the abort branch
emits ERROR *before* `this.error` is assigned (the assignment happens later
in `_executeTask`'s catch block, line 543), so the `once(ERROR)` listener
rejects the batch with the still-null error slot — the outcome is a
rejection carrying `null`, not the triggering task's terminal error, even
though that error is recorded in the slot afterwards.

Second run (`prmAbortGate`, input `[5, 6]`, concurrency 1, so the admission
loop is gate-blocked holding fetched item 1 when item 0 fails): after 2
steps the abort has emptied `this.data` with exactly one task ever started,
yet the abort's own TASK_COMPLETED emission wakes the gate and step 3
launches item 1 — its processor runs after the abort, and its late success
is even pushed into the results array, contradicting "no further input
items are admitted after the abort". -/
theorem c4_code_bug_abort_behaviour :
    (runPool prmAbortLate (initConf prmAbortLate [5, 6]) 12).settled
      = some (Settle.rejectedWith none) ∧
    (runPool prmAbortLate (initConf prmAbortLate [5, 6]) 12).errSlot
      = some (JsErr.procErr 7) ∧
    (runPool prmAbortGate (initConf prmAbortGate [5, 6]) 2).dataArr = [] ∧
    (runPool prmAbortGate (initConf prmAbortGate [5, 6]) 2).tasks.length = 1 ∧
    (runPool prmAbortGate (initConf prmAbortGate [5, 6]) 3).tasks.length = 2 ∧
    (runPool prmAbortGate (initConf prmAbortGate [5, 6]) 14).results = [101] ∧
    (runPool prmAbortGate (initConf prmAbortGate [5, 6]) 14).settled
      = some (Settle.rejectedWith (some (JsErr.procErr 7))) := by
  refine ⟨by decide, by decide, by decide, by decide, by decide, by decide,
    by decide⟩

/-! ## Claim C3 — counterexample: success despite a terminal failure -/

/-- Counterexample to claim C3: in the run `prmEarlyFail` over four items
with stop-on-failure disabled, item 1 fails terminally (the error slot
holds its error, and only 3 of 4 results were collected), yet the batch's
overall outcome is a successful resolution — because item 1's failure
event fired before the admission loop registered the ERROR watcher, the
recorded error is never propagated, contradicting "the outcome is a
success only if no task ever failed terminally". -/
theorem c3_counterexample_success_despite_failure :
    (runPool prmEarlyFail (initConf prmEarlyFail [1, 2, 3, 4]) 40).settled
      = some Settle.resolvedArr ∧
    (runPool prmEarlyFail (initConf prmEarlyFail [1, 2, 3, 4]) 40).errSlot
      = some (JsErr.procErr 7) ∧
    (runPool prmEarlyFail (initConf prmEarlyFail [1, 2, 3, 4]) 40).results
      = [100, 102, 103] := by
  refine ⟨by decide, by decide, by decide⟩

/-! ## Claim C5 — counterexample: retries require stop-on-failure -/

/-- Counterexample to claim C5: with `retryLimit(3)` configured but
`stopOnFailure` left at its default `false`, `mapAsync` installs the raw
processor (line 497: `this.allowStopOnFailure ? retryableProcessor :
processor`), so a task whose processor fails twice and then succeeds is
*not* retried: the processor is invoked exactly once (`attempts` stays 0),
the first error is terminal, and the run rejects — not the claimed success
after exactly 3 invocations. -/
theorem c5_counterexample_retry_needs_stop_flag :
    (runPool prmRetryNoStop (initConf prmRetryNoStop [9]) 20).settled
      = some (Settle.rejectedWith (some (JsErr.procErr 3))) ∧
    ((runPool prmRetryNoStop (initConf prmRetryNoStop [9]) 20).tasks.getD 0
        default).attempts = 0 ∧
    (runPool prmRetryNoStop (initConf prmRetryNoStop [9]) 20).results = [] := by
  refine ⟨by decide, by decide, by decide⟩

/-! ## Characterization lemmas for the step functions -/

@[simp] theorem default_taskState_finished : (default : TaskState).finished = false := rfl

@[simp] theorem default_taskState_raceSettled : (default : TaskState).raceSettled = false := rfl

@[simp] theorem pushMicro_dataArr (c : Conf α ε ρ) (ms) : (pushMicro c ms).dataArr = c.dataArr := rfl
@[simp] theorem pushMicro_results (c : Conf α ε ρ) (ms) : (pushMicro c ms).results = c.results := rfl
@[simp] theorem pushMicro_inFlightTasks (c : Conf α ε ρ) (ms) : (pushMicro c ms).inFlightTasks = c.inFlightTasks := rfl
@[simp] theorem pushMicro_processedEntries (c : Conf α ε ρ) (ms) : (pushMicro c ms).processedEntries = c.processedEntries := rfl
@[simp] theorem pushMicro_errSlot (c : Conf α ε ρ) (ms) : (pushMicro c ms).errSlot = c.errSlot := rfl
@[simp] theorem pushMicro_settled (c : Conf α ε ρ) (ms) : (pushMicro c ms).settled = c.settled := rfl
@[simp] theorem pushMicro_watchers (c : Conf α ε ρ) (ms) : (pushMicro c ms).watchers = c.watchers := rfl
@[simp] theorem pushMicro_drvWaiting (c : Conf α ε ρ) (ms) : (pushMicro c ms).drvWaiting = c.drvWaiting := rfl
@[simp] theorem pushMicro_tasks (c : Conf α ε ρ) (ms) : (pushMicro c ms).tasks = c.tasks := rfl
@[simp] theorem pushMicro_micro (c : Conf α ε ρ) (ms) : (pushMicro c ms).micro = c.micro ++ ms := rfl
@[simp] theorem pushMicro_time (c : Conf α ε ρ) (ms) : (pushMicro c ms).time = c.time := rfl

@[simp] theorem updTask_dataArr (c : Conf α ε ρ) (tid f) : (updTask c tid f).dataArr = c.dataArr := rfl
@[simp] theorem updTask_results (c : Conf α ε ρ) (tid f) : (updTask c tid f).results = c.results := rfl
@[simp] theorem updTask_inFlightTasks (c : Conf α ε ρ) (tid f) : (updTask c tid f).inFlightTasks = c.inFlightTasks := rfl
@[simp] theorem updTask_processedEntries (c : Conf α ε ρ) (tid f) : (updTask c tid f).processedEntries = c.processedEntries := rfl
@[simp] theorem updTask_errSlot (c : Conf α ε ρ) (tid f) : (updTask c tid f).errSlot = c.errSlot := rfl
@[simp] theorem updTask_settled (c : Conf α ε ρ) (tid f) : (updTask c tid f).settled = c.settled := rfl
@[simp] theorem updTask_watchers (c : Conf α ε ρ) (tid f) : (updTask c tid f).watchers = c.watchers := rfl
@[simp] theorem updTask_drvWaiting (c : Conf α ε ρ) (tid f) : (updTask c tid f).drvWaiting = c.drvWaiting := rfl
@[simp] theorem updTask_micro (c : Conf α ε ρ) (tid f) : (updTask c tid f).micro = c.micro := rfl
@[simp] theorem updTask_time (c : Conf α ε ρ) (tid f) : (updTask c tid f).time = c.time := rfl
theorem updTask_tasks (c : Conf α ε ρ) (tid f) :
    (updTask c tid f).tasks = c.tasks.set tid (f (c.tasks.getD tid default)) := rfl
@[simp] theorem updTask_tasks_length (c : Conf α ε ρ) (tid f) :
    (updTask c tid f).tasks.length = c.tasks.length := by
  rw [updTask_tasks, List.length_set]

@[simp] theorem emitTaskCompleted_dataArr (c : Conf α ε ρ) : (emitTaskCompleted c).dataArr = c.dataArr := by
  unfold emitTaskCompleted; cases c.drvWaiting <;> rfl
@[simp] theorem emitTaskCompleted_results (c : Conf α ε ρ) : (emitTaskCompleted c).results = c.results := by
  unfold emitTaskCompleted; cases c.drvWaiting <;> rfl
@[simp] theorem emitTaskCompleted_inFlightTasks (c : Conf α ε ρ) : (emitTaskCompleted c).inFlightTasks = c.inFlightTasks := by
  unfold emitTaskCompleted; cases c.drvWaiting <;> rfl
@[simp] theorem emitTaskCompleted_processedEntries (c : Conf α ε ρ) : (emitTaskCompleted c).processedEntries = c.processedEntries := by
  unfold emitTaskCompleted; cases c.drvWaiting <;> rfl
@[simp] theorem emitTaskCompleted_errSlot (c : Conf α ε ρ) : (emitTaskCompleted c).errSlot = c.errSlot := by
  unfold emitTaskCompleted; cases c.drvWaiting <;> rfl
@[simp] theorem emitTaskCompleted_settled (c : Conf α ε ρ) : (emitTaskCompleted c).settled = c.settled := by
  unfold emitTaskCompleted; cases c.drvWaiting <;> rfl
@[simp] theorem emitTaskCompleted_watchers (c : Conf α ε ρ) : (emitTaskCompleted c).watchers = c.watchers := by
  unfold emitTaskCompleted; cases c.drvWaiting <;> rfl
@[simp] theorem emitTaskCompleted_tasks (c : Conf α ε ρ) : (emitTaskCompleted c).tasks = c.tasks := by
  unfold emitTaskCompleted; cases c.drvWaiting <;> rfl
@[simp] theorem emitTaskCompleted_time (c : Conf α ε ρ) : (emitTaskCompleted c).time = c.time := by
  unfold emitTaskCompleted; cases c.drvWaiting <;> rfl
@[simp] theorem emitTaskCompleted_drvWaiting (c : Conf α ε ρ) : (emitTaskCompleted c).drvWaiting = none := by
  unfold emitTaskCompleted
  cases h : c.drvWaiting with
  | none => exact h
  | some i => rfl

@[simp] theorem emitError_dataArr (c : Conf α ε ρ) : (emitError c).dataArr = c.dataArr := by
  unfold emitError; split <;> (try split) <;> rfl
@[simp] theorem emitError_results (c : Conf α ε ρ) : (emitError c).results = c.results := by
  unfold emitError; split <;> (try split) <;> rfl
@[simp] theorem emitError_inFlightTasks (c : Conf α ε ρ) : (emitError c).inFlightTasks = c.inFlightTasks := by
  unfold emitError; split <;> (try split) <;> rfl
@[simp] theorem emitError_processedEntries (c : Conf α ε ρ) : (emitError c).processedEntries = c.processedEntries := by
  unfold emitError; split <;> (try split) <;> rfl
@[simp] theorem emitError_errSlot (c : Conf α ε ρ) : (emitError c).errSlot = c.errSlot := by
  unfold emitError; split <;> (try split) <;> rfl
@[simp] theorem emitError_watchers (c : Conf α ε ρ) : (emitError c).watchers = c.watchers := by
  unfold emitError; split <;> (try split) <;> rfl
@[simp] theorem emitError_drvWaiting (c : Conf α ε ρ) : (emitError c).drvWaiting = c.drvWaiting := by
  unfold emitError; split <;> (try split) <;> rfl
@[simp] theorem emitError_tasks (c : Conf α ε ρ) : (emitError c).tasks = c.tasks := by
  unfold emitError; split <;> (try split) <;> rfl
@[simp] theorem emitError_micro (c : Conf α ε ρ) : (emitError c).micro = c.micro := by
  unfold emitError; split <;> (try split) <;> rfl
@[simp] theorem emitError_time (c : Conf α ε ρ) : (emitError c).time = c.time := by
  unfold emitError; split <;> (try split) <;> rfl

@[simp] theorem emitFinish_dataArr (c : Conf α ε ρ) : (emitFinish c).dataArr = c.dataArr := by
  unfold emitFinish; split <;> (try split) <;> rfl
@[simp] theorem emitFinish_results (c : Conf α ε ρ) : (emitFinish c).results = c.results := by
  unfold emitFinish; split <;> (try split) <;> rfl
@[simp] theorem emitFinish_inFlightTasks (c : Conf α ε ρ) : (emitFinish c).inFlightTasks = c.inFlightTasks := by
  unfold emitFinish; split <;> (try split) <;> rfl
@[simp] theorem emitFinish_processedEntries (c : Conf α ε ρ) : (emitFinish c).processedEntries = c.processedEntries := by
  unfold emitFinish; split <;> (try split) <;> rfl
@[simp] theorem emitFinish_errSlot (c : Conf α ε ρ) : (emitFinish c).errSlot = c.errSlot := by
  unfold emitFinish; split <;> (try split) <;> rfl
@[simp] theorem emitFinish_watchers (c : Conf α ε ρ) : (emitFinish c).watchers = c.watchers := by
  unfold emitFinish; split <;> (try split) <;> rfl
@[simp] theorem emitFinish_drvWaiting (c : Conf α ε ρ) : (emitFinish c).drvWaiting = c.drvWaiting := by
  unfold emitFinish; split <;> (try split) <;> rfl
@[simp] theorem emitFinish_tasks (c : Conf α ε ρ) : (emitFinish c).tasks = c.tasks := by
  unfold emitFinish; split <;> (try split) <;> rfl
@[simp] theorem emitFinish_micro (c : Conf α ε ρ) : (emitFinish c).micro = c.micro := by
  unfold emitFinish; split <;> (try split) <;> rfl
@[simp] theorem emitFinish_time (c : Conf α ε ρ) : (emitFinish c).time = c.time := by
  unfold emitFinish; split <;> (try split) <;> rfl

theorem emitTaskCompleted_none {c : Conf α ε ρ} (h : c.drvWaiting = none) :
    emitTaskCompleted c = c := by
  unfold emitTaskCompleted; rw [h]

theorem emitTaskCompleted_some {c : Conf α ε ρ} {i : Nat} (h : c.drvWaiting = some i) :
    emitTaskCompleted c
      = { c with drvWaiting := none, micro := c.micro ++ [Micro.drvLaunch i] } := by
  unfold emitTaskCompleted; rw [h]

theorem emitError_not_watchers {c : Conf α ε ρ} (h : c.watchers = false) :
    emitError c = c := by
  simp [emitError, h]

theorem emitError_settled {c : Conf α ε ρ} {s : Settle ε} (h : c.settled = some s) :
    emitError c = c := by
  unfold emitError; rw [h]; split <;> rfl

theorem emitError_fire {c : Conf α ε ρ} (hw : c.watchers = true) (hs : c.settled = none) :
    emitError c = { c with settled := some (Settle.rejectedWith c.errSlot) } := by
  unfold emitError; rw [hw, hs]; rfl

theorem emitFinish_not_watchers {c : Conf α ε ρ} (h : c.watchers = false) :
    emitFinish c = c := by
  simp [emitFinish, h]

theorem emitFinish_settled {c : Conf α ε ρ} {s : Settle ε} (h : c.settled = some s) :
    emitFinish c = c := by
  unfold emitFinish; rw [h]; split <;> rfl

theorem emitFinish_fire {c : Conf α ε ρ} (hw : c.watchers = true) (hs : c.settled = none) :
    emitFinish c = { c with settled := some Settle.resolvedArr } := by
  unfold emitFinish; rw [hw, hs]; rfl

theorem if_true_nat {n m : Nat} : (if true = true then n else m) = n := rfl

theorem if_false_nat {n m : Nat} : (if false = true then n else m) = m := rfl

theorem cntTC_cons (m : Micro ε ρ) (l : List (Micro ε ρ)) (tid : Nat) :
    cntTC (m :: l) tid = cntTC l tid + (if isTCfor tid m then 1 else 0) := by
  simp [cntTC, List.countP_cons]

theorem cntDrv_cons (m : Micro ε ρ) (l : List (Micro ε ρ)) :
    cntDrv (m :: l) = cntDrv l + (if isDrvE m then 1 else 0) := by
  simp [cntDrv, List.countP_cons]

theorem cntTC_singleton (m : Micro ε ρ) (tid : Nat) :
    cntTC [m] tid = if isTCfor tid m then 1 else 0 := by
  simp [cntTC, List.countP_cons]

theorem cntDrv_singleton (m : Micro ε ρ) :
    cntDrv [m] = if isDrvE m then 1 else 0 := by
  simp [cntDrv, List.countP_cons]

theorem cntDrv_eq_zero_iff {l : List (Micro ε ρ)} :
    cntDrv l = 0 ↔ ∀ i, Micro.drvLaunch i ∉ l := by
  constructor
  · intro h i hmem
    have : (0 : Nat) < cntDrv l := by
      have : (isDrvE (Micro.drvLaunch i : Micro ε ρ)) = true := rfl
      exact List.countP_pos.2 ⟨_, hmem, this⟩
    omega
  · intro h
    refine countP_eq_zero_of_not_mem fun m hm => ?_
    cases m with
    | drvLaunch i => exact absurd hm (h i)
    | retryLoop t o => rfl
    | raceReact t o => rfl
    | taskCont t o => rfl

theorem cntTC_pos_of_mem {l : List (Micro ε ρ)} {tid : Nat} {out : Except (JsErr ε) ρ}
    (h : Micro.taskCont tid out ∈ l) : 0 < cntTC l tid := by
  refine List.countP_pos.2 ⟨_, h, ?_⟩
  simp [isTCfor]

theorem pickMin_mem : ∀ {l : List (Nat × Bool × Nat)} {x}, pickMin l = some x → x ∈ l
  | [], x, h => by simp [pickMin] at h
  | a :: t, x, h => by
      unfold pickMin at h
      cases hp : pickMin t with
      | none => rw [hp] at h; cases h; exact List.mem_cons_self a t
      | some y =>
          rw [hp] at h
          have hy := pickMin_mem hp
          cases h
          split
          · exact List.mem_cons_self a t
          · exact List.mem_cons_of_mem a hy

theorem mem_externalsFrom {x : Nat × Bool × Nat} :
    ∀ {k : Nat} {ts : List TaskState}, x ∈ externalsFrom k ts →
      k ≤ x.1 ∧ x.1 - k < ts.length ∧
      (x.2.1 = false → (ts.getD (x.1 - k) default).procPending = true ∧
        x.2.2 = (ts.getD (x.1 - k) default).procAt) ∧
      (x.2.1 = true → (ts.getD (x.1 - k) default).timerPending = true ∧
        x.2.2 = (ts.getD (x.1 - k) default).timerAt) := by
  intro k ts
  induction ts generalizing k with
  | nil => intro h; simp [externalsFrom] at h
  | cons t ts ih =>
      intro h
      unfold externalsFrom at h
      rw [List.mem_append, List.mem_append] at h
      rcases h with (h | h) | h
      · have hx : x = (k, false, t.procAt) ∧ t.procPending = true := by
          by_cases hp : t.procPending = true
          · rw [if_pos hp] at h; simp at h; exact ⟨h, hp⟩
          · rw [if_neg hp] at h; simp at h
        obtain ⟨hx, hp⟩ := hx
        subst hx
        refine ⟨Nat.le_refl _, ?_, ?_, ?_⟩
        · simp
        · intro _; simp [hp]
        · intro hc; simp at hc
      · have hx : x = (k, true, t.timerAt) ∧ t.timerPending = true := by
          by_cases hp : t.timerPending = true
          · rw [if_pos hp] at h; simp at h; exact ⟨h, hp⟩
          · rw [if_neg hp] at h; simp at h
        obtain ⟨hx, hp⟩ := hx
        subst hx
        refine ⟨Nat.le_refl _, ?_, ?_, ?_⟩
        · simp
        · intro hc; simp at hc
        · intro _; simp [hp]
      · obtain ⟨h1, h2, h3, h4⟩ := ih h
        have hk : k ≤ x.1 := Nat.le_of_succ_le h1
        have hsub : x.1 - k = (x.1 - (k + 1)) + 1 := by omega
        refine ⟨hk, by simpa [hsub] using Nat.succ_lt_succ h2, ?_, ?_⟩
        · intro hb
          rw [hsub]
          exact h3 hb
        · intro hb
          rw [hsub]
          exact h4 hb

/-! ## Preservation of the structural invariant, one step kind at a time -/

/-- Dropping a queue head that is neither a race continuation nor a driver
continuation preserves the structural invariant. -/
theorem invA_drop_head {P : Params ε ρ} {data : List α} {c : Conf α ε ρ}
    {m : Micro ε ρ} {rest : List (Micro ε ρ)}
    (hI : InvA P data c) (hm : c.micro = m :: rest)
    (hTC : ∀ t', isTCfor t' m = false) (hD : isDrvE m = false) :
    InvA P data { c with micro := rest } := by
  refine ⟨hI.data_pres, hI.flight_eq, hI.flight_le, ?_, ?_, ?_, ?_, hI.wait_ge,
    hI.token_idx_wait, ?_, hI.len_le, hI.watchers_iff, hI.processed_eq⟩
  · intro tid
    have h2 := hI.tc_linear tid
    rw [hm, cntTC_cons] at h2
    simpa [hTC tid] using h2
  · intro m' hm' t ht
    exact hI.micro_tid m' (by rw [hm]; exact List.mem_cons_of_mem _ hm') t ht
  · have h2 := hI.drv_token
    rw [hm, cntDrv_cons] at h2
    simpa [hD] using h2
  · intro hpos
    have hpos' : 0 < cntDrv rest := hpos
    refine hI.drv_lt ?_
    rw [hm, cntDrv_cons]
    omega
  · intro i hmem
    exact hI.token_idx_drv i (by rw [hm]; exact List.mem_cons_of_mem _ hmem)

/-- One `raceReact` microtask preserves the structural invariant. -/
theorem invA_raceReact {P : Params ε ρ} {data : List α} {c : Conf α ε ρ}
    {tid : Nat} {out : Except (JsErr ε) ρ} {rest : List (Micro ε ρ)}
    (hI : InvA P data c) (hm : c.micro = Micro.raceReact tid out :: rest) :
    InvA P data (raceReactStep { c with micro := rest } tid out) := by
  have htid : tid < c.tasks.length :=
    hI.micro_tid (Micro.raceReact tid out)
      (by rw [hm]; exact List.mem_cons_self _ _) tid rfl
  have hb : InvA P data { c with micro := rest } :=
    invA_drop_head hI hm (fun t' => rfl) rfl
  unfold raceReactStep
  split
  · exact hb
  · rename_i hrs
    have hrs' : (c.tasks.getD tid default).raceSettled = false := by
      simpa using hrs
    have hfin : (c.tasks.getD tid default).finished = false := by
      have h2 := hI.tc_linear tid
      rw [hrs'] at h2
      by_contra hf
      rw [Bool.not_eq_false] at hf
      rw [hf] at h2
      simp at h2
    have hcnt0 : cntTC c.micro tid = 0 := by
      have h2 := hI.tc_linear tid
      rw [hrs', hfin] at h2
      simpa using h2
    have hcntrest : cntTC rest tid = 0 := by
      have : cntTC c.micro tid = cntTC rest tid := by
        rw [hm, cntTC_cons]; simp [isTCfor]
      omega
    have hset := countP_set (fun t => t.finished) c.tasks tid
      ({ c.tasks.getD tid default with raceSettled := true }) default htid
    simp only at hset
    refine ⟨hb.data_pres, ?_, hb.flight_le, ?_, ?_, ?_, ?_, hb.wait_ge, ?_, ?_, ?_,
      ?_, ?_⟩
    · have hfe := hI.flight_eq
      simp only [finishedCount] at hfe ⊢
      simp only [pushMicro_inFlightTasks, updTask_inFlightTasks,
        pushMicro_tasks, updTask_tasks, List.length_set]
      omega
    · intro tid'
      by_cases he : tid' = tid
      · subst he
        have hTCtrue : isTCfor tid' (Micro.taskCont tid' out : Micro ε ρ) = true := by
          rw [show isTCfor tid' (Micro.taskCont tid' out : Micro ε ρ)
            = (tid' == tid') from rfl]
          exact beq_self_eq_true tid'
        have hfin2 : ({ c.tasks.getD tid' default with raceSettled := true }
            : TaskState).finished = false := hfin
        simp only [pushMicro_tasks, pushMicro_micro, updTask_micro, updTask_tasks]
        rw [cntTC_append, cntTC_singleton, getD_set_self _ _ _ _ htid, hTCtrue,
          hfin2, hcntrest]
        rfl
      · have h2 := hI.tc_linear tid'
        rw [hm, cntTC_cons] at h2
        have hne : isTCfor tid' (Micro.raceReact tid out : Micro ε ρ) = false := rfl
        rw [hne, if_false_nat, Nat.add_zero] at h2
        have hne2 : isTCfor tid' (Micro.taskCont tid out : Micro ε ρ) = false := by
          rw [show isTCfor tid' (Micro.taskCont tid out : Micro ε ρ)
            = (tid == tid') from rfl]
          exact beq_eq_false_iff_ne.2 fun hh => he hh.symm
        simp only [pushMicro_tasks, pushMicro_micro, updTask_micro, updTask_tasks]
        rw [cntTC_append, cntTC_singleton, getD_set_ne _ _ _ _ _ he, hne2,
          if_false_nat, Nat.add_zero]
        exact h2
    · intro m' hm' t ht
      simp only [pushMicro_tasks, pushMicro_micro, updTask_micro, updTask_tasks] at hm' ⊢
      rw [List.length_set]
      rcases List.mem_append.1 hm' with h | h
      · exact hb.micro_tid m' h t ht
      · have : m' = Micro.taskCont tid out := by simpa using h
        subst this
        cases ht
        exact htid
    · have h2 := hb.drv_token
      simp only [pushMicro_micro, updTask_micro, pushMicro_drvWaiting,
        updTask_drvWaiting, pushMicro_watchers, updTask_watchers]
      rw [cntDrv_append, cntDrv_singleton]
      simpa using h2
    · intro hpos
      refine hb.drv_lt ?_
      have hpos' : 0 < cntDrv (rest ++ [Micro.taskCont tid out]) := hpos
      rw [cntDrv_append, cntDrv_singleton,
        show isDrvE (Micro.taskCont tid out : Micro ε ρ) = false from rfl,
        if_false_nat, Nat.add_zero] at hpos'
      exact hpos'
    · intro i hw
      have h2 := hb.token_idx_wait i hw
      simp only [pushMicro_tasks, updTask_tasks, List.length_set]
      exact h2
    · intro i hmem
      simp only [pushMicro_micro, updTask_micro, pushMicro_tasks, updTask_tasks] at hmem ⊢
      rw [List.length_set]
      rcases List.mem_append.1 hmem with h | h
      · exact hb.token_idx_drv i h
      · simp at h
    · simp only [pushMicro_tasks, updTask_tasks]
      rw [List.length_set]
      exact hb.len_le
    · have h2 := hI.watchers_iff
      simp only [pushMicro_watchers, updTask_watchers, pushMicro_tasks,
        updTask_tasks, List.length_set]
      exact h2
    · have h2 := hI.processed_eq
      simp only [pushMicro_processedEntries, updTask_processedEntries,
        pushMicro_tasks, updTask_tasks]
      simp only [finishedCount] at h2 ⊢
      omega

theorem taskContStep_dataArr (c : Conf α ε ρ) (tid : Nat) (out) :
    (taskContStep c tid out).dataArr = c.dataArr := by
  unfold taskContStep
  cases out <;> (try simp only []) <;> split <;> simp

theorem taskContStep_inFlightTasks (c : Conf α ε ρ) (tid : Nat) (out) :
    (taskContStep c tid out).inFlightTasks = c.inFlightTasks - 1 := by
  unfold taskContStep
  cases out <;> (try simp only []) <;> split <;> simp

theorem taskContStep_processedEntries (c : Conf α ε ρ) (tid : Nat) (out) :
    (taskContStep c tid out).processedEntries = c.processedEntries + 1 := by
  unfold taskContStep
  cases out <;> (try simp only []) <;> split <;> simp

theorem taskContStep_watchers (c : Conf α ε ρ) (tid : Nat) (out) :
    (taskContStep c tid out).watchers = c.watchers := by
  unfold taskContStep
  cases out <;> (try simp only []) <;> split <;> simp

theorem taskContStep_tasks (c : Conf α ε ρ) (tid : Nat) (out) :
    (taskContStep c tid out).tasks
      = (updTask c tid fun s => { s with finished := true }).tasks := by
  unfold taskContStep
  cases out <;> (try simp only []) <;> split <;> simp

theorem taskContStep_drvWaiting (c : Conf α ε ρ) (tid : Nat) (out) :
    (taskContStep c tid out).drvWaiting = none := by
  unfold taskContStep
  cases out <;> (try simp only []) <;> split <;> simp

theorem taskContStep_micro_none {c : Conf α ε ρ} {tid : Nat} {out}
    (h : c.drvWaiting = none) :
    (taskContStep c tid out).micro = c.micro := by
  unfold taskContStep
  cases out <;> (try simp only []) <;> split <;> simp [emitTaskCompleted, h]

theorem taskContStep_micro_some {c : Conf α ε ρ} {tid : Nat} {out} {i : Nat}
    (h : c.drvWaiting = some i) :
    (taskContStep c tid out).micro = c.micro ++ [Micro.drvLaunch i] := by
  unfold taskContStep
  cases out <;> (try simp only []) <;> split <;> simp [emitTaskCompleted, h]

/-- One `taskCont` microtask (the push/catch and `finally` code of
`_executeTask`) preserves the structural invariant. -/
theorem invA_taskCont {P : Params ε ρ} {data : List α} {c : Conf α ε ρ}
    {tid : Nat} {out : Except (JsErr ε) ρ} {rest : List (Micro ε ρ)}
    (hI : InvA P data c) (hm : c.micro = Micro.taskCont tid out :: rest) :
    InvA P data (taskContStep { c with micro := rest } tid out) := by
  have htid : tid < c.tasks.length :=
    hI.micro_tid (Micro.taskCont tid out)
      (by rw [hm]; exact List.mem_cons_self _ _) tid rfl
  have hTCt : isTCfor tid (Micro.taskCont tid out : Micro ε ρ) = true := by
    rw [show isTCfor tid (Micro.taskCont tid out : Micro ε ρ)
      = (tid == tid) from rfl]
    exact beq_self_eq_true tid
  have h2 := hI.tc_linear tid
  rw [hm, cntTC_cons, hTCt, if_true_nat] at h2
  have hrs : (c.tasks.getD tid default).raceSettled = true := by
    by_contra hh
    rw [Bool.not_eq_true] at hh
    rw [hh, if_false_nat] at h2
    omega
  rw [hrs, if_true_nat] at h2
  have hfin : (c.tasks.getD tid default).finished = false := by
    by_contra hh
    rw [Bool.not_eq_false] at hh
    rw [hh, if_true_nat] at h2
    omega
  rw [hfin, if_false_nat] at h2
  have hcrest : cntTC rest tid = 0 := by omega
  have hset : List.countP (fun t => t.finished) (c.tasks.set tid
      ({ c.tasks.getD tid default with finished := true }))
      = List.countP (fun t => t.finished) c.tasks + 1 := by
    have hset0 := countP_set (fun t => t.finished) c.tasks tid
      ({ c.tasks.getD tid default with finished := true }) default htid
    have hXtrue : ((fun (t : TaskState) => t.finished)
        ({ c.tasks.getD tid default with finished := true })) = true := rfl
    have hXold : ((fun (t : TaskState) => t.finished)
        (c.tasks.getD tid default)) = false := hfin
    rw [hXtrue, hXold, if_false_nat, if_true_nat] at hset0
    omega
  -- the InvA-relevant projections of the result
  have rdata : (taskContStep { c with micro := rest } tid out).dataArr
      = c.dataArr := taskContStep_dataArr _ _ _
  have rflight : (taskContStep { c with micro := rest } tid out).inFlightTasks
      = c.inFlightTasks - 1 := taskContStep_inFlightTasks _ _ _
  have rproc : (taskContStep { c with micro := rest } tid out).processedEntries
      = c.processedEntries + 1 := taskContStep_processedEntries _ _ _
  have rwatch : (taskContStep { c with micro := rest } tid out).watchers
      = c.watchers := taskContStep_watchers _ _ _
  have rdrv : (taskContStep { c with micro := rest } tid out).drvWaiting
      = none := taskContStep_drvWaiting _ _ _
  have rtasks : (taskContStep { c with micro := rest } tid out).tasks
      = c.tasks.set tid ({ c.tasks.getD tid default with finished := true }) :=
    taskContStep_tasks _ _ _
  have rlen : (taskContStep { c with micro := rest } tid out).tasks.length
      = c.tasks.length := by rw [rtasks, List.length_set]
  have hfc : finishedCount (taskContStep { c with micro := rest } tid out).tasks
      = finishedCount c.tasks + 1 := by
    rw [rtasks]; exact hset
  have rmicro : ∃ ms, (taskContStep { c with micro := rest } tid out).micro
      = rest ++ ms ∧
      ((c.drvWaiting = none ∧ ms = []) ∨
        (∃ i, c.drvWaiting = some i ∧ ms = [Micro.drvLaunch i])) := by
    cases hw : c.drvWaiting with
    | none =>
        refine ⟨[], ?_, Or.inl ⟨rfl, rfl⟩⟩
        rw [List.append_nil]
        exact taskContStep_micro_none rfl
    | some i =>
        exact ⟨[Micro.drvLaunch i], taskContStep_micro_some rfl,
          Or.inr ⟨i, rfl, rfl⟩⟩
  obtain ⟨ms, hms, hwcase⟩ := rmicro
  refine ⟨?_, ?_, ?_, ?_, ?_, ?_, ?_, ?_, ?_, ?_, ?_, ?_, ?_⟩
  · rw [rdata]; exact hI.data_pres
  · rw [rflight, rlen, hfc]
    have h3 := hI.flight_eq
    simp only [finishedCount] at h3 ⊢
    push_cast
    omega
  · rw [rflight]
    have := hI.flight_le
    omega
  · intro tid'
    have hcms : cntTC ms tid' = 0 := by
      rcases hwcase with ⟨_, hmsnil⟩ | ⟨i, _, hmsone⟩
      · rw [hmsnil]; rfl
      · rw [hmsone, cntTC_singleton]; rfl
    rw [hms, rtasks, cntTC_append, hcms, Nat.add_zero]
    by_cases he : tid' = tid
    · subst he
      rw [getD_set_self _ _ _ _ htid, hcrest]
      rw [show ({ c.tasks.getD tid' default with finished := true }
        : TaskState).finished = true from rfl]
      rw [show ({ c.tasks.getD tid' default with finished := true }
        : TaskState).raceSettled = (c.tasks.getD tid' default).raceSettled from rfl]
      rw [hrs, if_true_nat]
    · rw [getD_set_ne _ _ _ _ _ he]
      have h3 := hI.tc_linear tid'
      rw [hm, cntTC_cons] at h3
      have hne : isTCfor tid' (Micro.taskCont tid out : Micro ε ρ) = false := by
        rw [show isTCfor tid' (Micro.taskCont tid out : Micro ε ρ)
          = (tid == tid') from rfl]
        exact beq_eq_false_iff_ne.2 fun hh => he hh.symm
      rw [hne, if_false_nat, Nat.add_zero] at h3
      exact h3
  · intro m' hm' t ht
    rw [hms] at hm'
    rw [rlen]
    rcases List.mem_append.1 hm' with h | h
    · exact hI.micro_tid m' (by rw [hm]; exact List.mem_cons_of_mem _ h) t ht
    · rcases hwcase with ⟨_, hmsnil⟩ | ⟨i, _, hmsone⟩
      · rw [hmsnil] at h; simp at h
      · rw [hmsone] at h
        have : m' = Micro.drvLaunch i := by simpa using h
        subst this
        cases ht
  · have hd := hI.drv_token
    rw [hm, cntDrv_cons,
      show isDrvE (Micro.taskCont tid out : Micro ε ρ) = false from rfl,
      if_false_nat, Nat.add_zero] at hd
    rw [rdrv, rwatch, hms, cntDrv_append]
    rcases hwcase with ⟨hwnone, hmsnil⟩ | ⟨i, hwsome, hmsone⟩
    · rw [hwnone] at hd
      rw [show (none : Option Nat).isSome = false from rfl, if_false_nat,
        Nat.add_zero] at hd
      rw [hmsnil, show cntDrv ([] : List (Micro ε ρ)) = 0 from rfl,
        show (none : Option Nat).isSome = false from rfl, if_false_nat]
      omega
    · rw [hwsome] at hd
      rw [show (some i).isSome = true from rfl, if_true_nat] at hd
      rw [hmsone, cntDrv_singleton,
        show isDrvE (Micro.drvLaunch i : Micro ε ρ) = true from rfl, if_true_nat,
        show (none : Option Nat).isSome = false from rfl, if_false_nat]
      omega
  · intro hpos
    rw [rflight]
    have := hI.flight_le
    omega
  · rw [rdrv]
    intro hh
    simp at hh
  · intro i hw'
    rw [rdrv] at hw'
    cases hw'
  · intro i hmem
    rw [rlen]
    rw [hms] at hmem
    rcases List.mem_append.1 hmem with h | h
    · exact hI.token_idx_drv i (by rw [hm]; exact List.mem_cons_of_mem _ h)
    · rcases hwcase with ⟨_, hmsnil⟩ | ⟨i', hwsome, hmsone⟩
      · rw [hmsnil] at h; simp at h
      · rw [hmsone] at h
        have : i = i' := by
          have h4 : Micro.drvLaunch (ε := ε) (ρ := ρ) i = Micro.drvLaunch i' := by
            simpa using h
          cases h4
          rfl
        subst this
        exact hI.token_idx_wait i hwsome
  · rw [rlen]; exact hI.len_le
  · rw [rwatch, rlen]
    exact hI.watchers_iff
  · rw [rproc, hfc]
    have h3 := hI.processed_eq
    simp only [finishedCount] at h3 ⊢
    omega

/-- Pushing entries that are neither race nor driver continuations, and
that reference existing tasks, preserves the structural invariant. -/
theorem invA_push {P : Params ε ρ} {data : List α} {c : Conf α ε ρ}
    {ms : List (Micro ε ρ)} (hI : InvA P data c)
    (hms : ∀ m' ∈ ms, (∀ t', isTCfor t' m' = false) ∧ isDrvE m' = false ∧
      (∀ t, entryTid m' = some t → t < c.tasks.length)) :
    InvA P data (pushMicro c ms) := by
  have hctc : ∀ tid, cntTC ms tid = 0 := fun tid =>
    countP_eq_zero_of_not_mem fun m' hm' => (hms m' hm').1 tid
  have hcdrv : cntDrv ms = 0 :=
    countP_eq_zero_of_not_mem fun m' hm' => (hms m' hm').2.1
  refine ⟨hI.data_pres, hI.flight_eq, hI.flight_le, ?_, ?_, ?_, ?_, hI.wait_ge,
    hI.token_idx_wait, ?_, hI.len_le, hI.watchers_iff, hI.processed_eq⟩
  · intro tid
    have h2 := hI.tc_linear tid
    show cntTC (c.micro ++ ms) tid + _ = _
    rw [cntTC_append, hctc, Nat.add_zero]
    exact h2
  · intro m' hm' t ht
    rcases List.mem_append.1 hm' with h | h
    · exact hI.micro_tid m' h t ht
    · exact (hms m' h).2.2 t ht
  · have h2 := hI.drv_token
    show cntDrv (c.micro ++ ms) + _ = _
    rw [cntDrv_append, hcdrv, Nat.add_zero]
    exact h2
  · intro hpos
    have hpos' : 0 < cntDrv (c.micro ++ ms) := hpos
    rw [cntDrv_append, hcdrv, Nat.add_zero] at hpos'
    exact hI.drv_lt hpos'
  · intro i hmem
    rcases List.mem_append.1 hmem with h | h
    · exact hI.token_idx_drv i h
    · have := (hms _ h).2.1
      simp [isDrvE] at this

/-- Updating a task's fields without touching `finished` or `raceSettled`
preserves the structural invariant. -/
theorem invA_updTask {P : Params ε ρ} {data : List α} {c : Conf α ε ρ}
    {tid : Nat} {f : TaskState → TaskState} (hI : InvA P data c)
    (hf : ∀ s, (f s).finished = s.finished ∧ (f s).raceSettled = s.raceSettled) :
    InvA P data (updTask c tid f) := by
  by_cases hlen : tid < c.tasks.length
  case neg =>
    have : c.tasks.set tid (f (c.tasks.getD tid default)) = c.tasks :=
      set_eq_of_length_le _ _ _ (Nat.le_of_not_lt hlen)
    have heq : updTask c tid f = c := by
      unfold updTask
      rw [this]
    rw [heq]
    exact hI
  case pos =>
    have hsetcnt := countP_set (fun t => t.finished) c.tasks tid
      (f (c.tasks.getD tid default)) default hlen
    have hfineq : ((fun (t : TaskState) => t.finished)
        (f (c.tasks.getD tid default)))
        = ((fun (t : TaskState) => t.finished) (c.tasks.getD tid default)) :=
      (hf _).1
    rw [hfineq] at hsetcnt
    have hfc : finishedCount (updTask c tid f).tasks = finishedCount c.tasks := by
      rw [updTask_tasks]
      show List.countP (fun t => t.finished)
          (c.tasks.set tid (f (c.tasks.getD tid default)))
        = List.countP (fun t => t.finished) c.tasks
      omega
    refine ⟨hI.data_pres, ?_, hI.flight_le, ?_, ?_, ?_, hI.drv_lt, hI.wait_ge,
      ?_, ?_, ?_, ?_, ?_⟩
    · rw [show (updTask c tid f).inFlightTasks = c.inFlightTasks from rfl, hfc,
        updTask_tasks_length]
      exact hI.flight_eq
    · intro tid'
      have h2 := hI.tc_linear tid'
      rw [show (updTask c tid f).micro = c.micro from rfl, updTask_tasks]
      by_cases he : tid' = tid
      · subst he
        rw [getD_set_self _ _ _ _ hlen, (hf _).1, (hf _).2]
        exact h2
      · rw [getD_set_ne _ _ _ _ _ he]
        exact h2
    · intro m' hm' t ht
      rw [updTask_tasks_length]
      exact hI.micro_tid m' hm' t ht
    · exact hI.drv_token
    · intro i hw'
      rw [updTask_tasks_length]
      exact hI.token_idx_wait i hw'
    · intro i hmem
      rw [updTask_tasks_length]
      exact hI.token_idx_drv i hmem
    · rw [updTask_tasks_length]
      exact hI.len_le
    · rw [updTask_tasks_length]
      exact hI.watchers_iff
    · rw [show (updTask c tid f).processedEntries = c.processedEntries from rfl,
        hfc]
      exact hI.processed_eq

/-- One non-aborting `retryLoop` microtask preserves the structural
invariant. -/
theorem invA_retryLoop {P : Params ε ρ} {data : List α} {c : Conf α ε ρ}
    {tid : Nat} {out : Except ε ρ} {rest : List (Micro ε ρ)}
    (hI : InvA P data c) (hm : c.micro = Micro.retryLoop tid out :: rest)
    (hab : isAbortStep P c = false) :
    InvA P data (retryLoopStep P { c with micro := rest } tid out) := by
  have htid : tid < c.tasks.length :=
    hI.micro_tid (Micro.retryLoop tid out)
      (by rw [hm]; exact List.mem_cons_self _ _) tid rfl
  have hb : InvA P data { c with micro := rest } :=
    invA_drop_head hI hm (fun t' => rfl) rfl
  unfold retryLoopStep
  cases out with
  | ok r =>
      show InvA P data (pushMicro { c with micro := rest }
        [Micro.raceReact tid (Except.ok r)])
      refine invA_push hb ?_
      intro m' hm'
      have : m' = Micro.raceReact tid (Except.ok r) := by simpa using hm'
      subst this
      exact ⟨fun t' => rfl, rfl, fun t ht => by cases ht; exact htid⟩
  | error e =>
      simp only []
      split
      · split
        · exact invA_updTask hb fun s => ⟨rfl, rfl⟩
        · refine invA_push (invA_updTask hb fun s => ⟨rfl, rfl⟩) ?_
          intro m' hm'
          have : m' = Micro.retryLoop tid
              (P.beh ((c.tasks.getD tid default).itemIdx)
                ((c.tasks.getD tid default).attempts + 1)).2 := by
            simpa using hm'
          subst this
          refine ⟨fun t' => rfl, rfl, fun t ht => ?_⟩
          cases ht
          rw [updTask_tasks_length]
          exact htid
      · rename_i hcr'
        have hcr : canRetry P (c.tasks.getD tid default).attempts = false := by
          simpa using hcr'
        have hstop : P.allowStopOnFailure = false := by
          unfold isAbortStep at hab
          rw [hm] at hab
          rw [show (match Micro.retryLoop tid (Except.error e) :: rest with
            | Micro.retryLoop tid' (Except.error _) :: _ =>
                !canRetry P ((c.tasks.getD tid' default).attempts)
                  && P.allowStopOnFailure
            | _ => false) = (!canRetry P ((c.tasks.getD tid default).attempts)
                  && P.allowStopOnFailure) from rfl] at hab
          rw [hcr] at hab
          simpa using hab
        rw [hstop, if_neg Bool.false_ne_true]
        refine invA_push hb ?_
        intro m' hm'
        have : m' = Micro.raceReact tid (Except.error (JsErr.procErr e)) := by
          simpa using hm'
        subst this
        exact ⟨fun t' => rfl, rfl, fun t ht => by cases ht; exact htid⟩

theorem launchMicro_no_tc (P : Params ε ρ) (tid i tid' : Nat) :
    cntTC (launchMicro P tid i) tid' = 0 := by
  unfold launchMicro
  split
  · rfl
  · split <;> rfl

theorem launchMicro_no_drv (P : Params ε ρ) (tid i : Nat) :
    cntDrv (launchMicro P tid i) = 0 := by
  unfold launchMicro
  split
  · rfl
  · split <;> rfl

theorem launchMicro_tid (P : Params ε ρ) (tid i : Nat) :
    ∀ m ∈ launchMicro P tid i, ∀ t, entryTid m = some t → t = tid := by
  unfold launchMicro
  split
  · intro m hm; simp at hm
  · split <;>
      · intro m hm t ht
        have hmm := List.eq_of_mem_singleton hm
        subst hmm
        cases ht
        rfl

theorem launchTask_finished (P : Params ε ρ) (now i : Nat) :
    (launchTask P now i).finished = false := rfl

theorem launchTask_raceSettled (P : Params ε ρ) (now i : Nat) :
    (launchTask P now i).raceSettled = false := rfl

/-- One `drvLaunch` microtask (admission of the fetched element) preserves
the structural invariant. -/
theorem invA_launch {P : Params ε ρ} {data : List α} {c : Conf α ε ρ}
    {i : Nat} {rest : List (Micro ε ρ)}
    (hI : InvA P data c) (hm : c.micro = Micro.drvLaunch i :: rest) :
    InvA P data (launchStep P { c with micro := rest } i) := by
  have hidx : i = c.tasks.length :=
    hI.token_idx_drv i (by rw [hm]; exact List.mem_cons_self _ _)
  have hdcnt : cntDrv c.micro = cntDrv rest + 1 := by
    rw [hm, cntDrv_cons, show isDrvE (Micro.drvLaunch i : Micro ε ρ) = true from rfl,
      if_true_nat]
  have htok := hI.drv_token
  rw [hdcnt] at htok
  have hwat : c.watchers = false := by
    by_contra hh
    rw [Bool.not_eq_false] at hh
    rw [hh, if_true_nat] at htok
    omega
  rw [hwat, if_false_nat] at htok
  have hdrest : cntDrv rest = 0 := by
    by_cases hdw : c.drvWaiting.isSome = true
    · rw [hdw, if_true_nat] at htok; omega
    · omega
  have hwait : c.drvWaiting = none := by
    cases hdw : c.drvWaiting with
    | none => rfl
    | some j =>
        rw [hdw, show (some j).isSome = true from rfl, if_true_nat] at htok
        omega
  rw [hwait, show (none : Option Nat).isSome = false from rfl, if_false_nat] at htok
  have hnodrv_rest : ∀ j, Micro.drvLaunch j ∉ rest := by
    intro j hj
    have : (0 : Nat) < cntDrv rest :=
      List.countP_pos.2 ⟨_, hj, rfl⟩
    omega
  have hflt : c.inFlightTasks < P.concurrency := by
    refine hI.drv_lt ?_
    rw [hdcnt]; omega
  have hlen_ne : ¬ c.tasks.length = data.length := by
    intro hh
    have := hI.watchers_iff.2 hh
    rw [hwat] at this
    cases this
  have hlen_lt : c.tasks.length < data.length :=
    Nat.lt_of_le_of_ne hI.len_le hlen_ne
  have hcntTC_ge : ∀ tid', c.tasks.length ≤ tid' → cntTC c.micro tid' = 0 := by
    intro tid' hge
    have h2 := hI.tc_linear tid'
    rw [getD_of_length_le _ _ _ hge] at h2
    simpa using h2
  -- the new task list and its finished count
  have hfc_app : finishedCount (c.tasks ++ [launchTask P c.time i])
      = finishedCount c.tasks := by
    rw [finishedCount_append,
      show finishedCount [launchTask P c.time i] = 0 from rfl, Nat.add_zero]
  have hlen_app : (c.tasks ++ [launchTask P c.time i]).length
      = c.tasks.length + 1 := by simp
  -- common facts about the pre-branch configuration c1
  unfold launchStep
  simp only []
  -- the three branches of the iteration advance
  split
  · rename_i hj
    split
    · rename_i hge
      -- gate blocked: drvWaiting := some (i+1)
      refine ⟨hI.data_pres, ?_, ?_, ?_, ?_, ?_, ?_, ?_, ?_, ?_, ?_, ?_, ?_⟩
      · show c.inFlightTasks + 1 = _
        rw [show (({ c with micro := rest } : Conf α ε ρ).tasks
            ++ [launchTask P ({ c with micro := rest } : Conf α ε ρ).time i])
          = c.tasks ++ [launchTask P c.time i] from rfl]
        rw [hfc_app, hlen_app]
        have := hI.flight_eq
        push_cast
        omega
      · show c.inFlightTasks + 1 ≤ P.concurrency
        omega
      · intro tid'
        show cntTC (rest ++ launchMicro P c.tasks.length i) tid' + _ = _
        rw [cntTC_append, launchMicro_no_tc]
        by_cases hlt : tid' < c.tasks.length
        · rw [show ((c.tasks ++ [launchTask P c.time i]).getD tid' default)
              = c.tasks.getD tid' default from getD_append_left _ _ _ _ hlt]
          have h2 := hI.tc_linear tid'
          rw [hm, cntTC_cons,
            show isTCfor tid' (Micro.drvLaunch i : Micro ε ρ) = false from rfl,
            if_false_nat, Nat.add_zero] at h2
          rw [Nat.add_zero]
          exact h2
        · have hge2 : c.tasks.length ≤ tid' := Nat.le_of_not_lt hlt
          have hz : cntTC rest tid' = 0 := by
            have h3 := hcntTC_ge tid' hge2
            rw [hm, cntTC_cons,
              show isTCfor tid' (Micro.drvLaunch i : Micro ε ρ) = false from rfl,
              if_false_nat, Nat.add_zero] at h3
            exact h3
          rw [hz]
          by_cases heq2 : tid' = c.tasks.length
          · rw [heq2,
              show ((c.tasks ++ [launchTask P c.time i]).getD c.tasks.length default)
                = launchTask P c.time i from getD_append_right_self _ _ _,
              launchTask_finished, launchTask_raceSettled]
            omega
          · have : c.tasks.length + 1 ≤ tid' := by omega
            rw [getD_of_length_le _ _ _ (by rw [hlen_app]; exact this)]
            rfl
      · intro m' hm' t ht
        rw [hlen_app]
        rcases List.mem_append.1 hm' with h | h
        · have := hI.micro_tid m' (by rw [hm]; exact List.mem_cons_of_mem _ h) t ht
          omega
        · have := launchMicro_tid P c.tasks.length i m' h t ht
          omega
      · show cntDrv (rest ++ launchMicro P c.tasks.length i) + _ = _
        rw [cntDrv_append, launchMicro_no_drv, Nat.add_zero, hdrest,
          show (some (i + 1)).isSome = true from rfl, if_true_nat, hwat,
          if_false_nat]
      · intro hpos
        have hpos' : 0 < cntDrv (rest ++ launchMicro P c.tasks.length i) := hpos
        rw [cntDrv_append, launchMicro_no_drv, Nat.add_zero, hdrest] at hpos'
        omega
      · intro _
        exact hge
      · intro j hj2
        have hj3 : some (i + 1) = some j := hj2
        have : i + 1 = j := Option.some.inj hj3
        rw [hlen_app, ← this, hidx]
      · intro j hj2
        rcases List.mem_append.1 hj2 with h | h
        · exact absurd h (hnodrv_rest j)
        · have : isDrvE (Micro.drvLaunch j : Micro ε ρ) = true := rfl
          have hz := launchMicro_no_drv P c.tasks.length i
          have : (0 : Nat) < cntDrv (launchMicro P c.tasks.length i) :=
            List.countP_pos.2 ⟨_, h, this⟩
          omega
      · rw [hlen_app]
        omega
      · rw [hlen_app]
        constructor
        · intro hh
          have hh2 : c.watchers = true := hh
          rw [hwat] at hh2
          cases hh2
        · intro hh
          have hj' : i + 1 < c.dataArr.length := hj
          rw [hI.data_pres] at hj'
          rw [hidx] at hj'
          omega
      · show c.processedEntries = _
        rw [hfc_app]
        exact hI.processed_eq
    · rename_i hge
      -- gate open: next driver continuation queued
      have hge2 : ¬ (c.inFlightTasks + 1 ≥ P.concurrency) := hge
      refine ⟨hI.data_pres, ?_, ?_, ?_, ?_, ?_, ?_, ?_, ?_, ?_, ?_, ?_, ?_⟩
      · show c.inFlightTasks + 1 = _
        rw [show (({ c with micro := rest } : Conf α ε ρ).tasks
            ++ [launchTask P ({ c with micro := rest } : Conf α ε ρ).time i])
          = c.tasks ++ [launchTask P c.time i] from rfl]
        rw [hfc_app, hlen_app]
        have := hI.flight_eq
        push_cast
        omega
      · show c.inFlightTasks + 1 ≤ P.concurrency
        omega
      · intro tid'
        show cntTC ((rest ++ launchMicro P c.tasks.length i)
          ++ [Micro.drvLaunch (i + 1)]) tid' + _ = _
        rw [cntTC_append, cntTC_append, launchMicro_no_tc, cntTC_singleton,
          show isTCfor tid' (Micro.drvLaunch (i + 1) : Micro ε ρ) = false from rfl,
          if_false_nat]
        by_cases hlt : tid' < c.tasks.length
        · rw [show ((c.tasks ++ [launchTask P c.time i]).getD tid' default)
              = c.tasks.getD tid' default from getD_append_left _ _ _ _ hlt]
          have h2 := hI.tc_linear tid'
          rw [hm, cntTC_cons,
            show isTCfor tid' (Micro.drvLaunch i : Micro ε ρ) = false from rfl,
            if_false_nat, Nat.add_zero] at h2
          exact h2
        · have hge3 : c.tasks.length ≤ tid' := Nat.le_of_not_lt hlt
          have hz : cntTC rest tid' = 0 := by
            have h3 := hcntTC_ge tid' hge3
            rw [hm, cntTC_cons,
              show isTCfor tid' (Micro.drvLaunch i : Micro ε ρ) = false from rfl,
              if_false_nat, Nat.add_zero] at h3
            exact h3
          rw [hz]
          by_cases heq2 : tid' = c.tasks.length
          · rw [heq2,
              show ((c.tasks ++ [launchTask P c.time i]).getD c.tasks.length default)
                = launchTask P c.time i from getD_append_right_self _ _ _,
              launchTask_finished, launchTask_raceSettled]
            omega
          · have : c.tasks.length + 1 ≤ tid' := by omega
            rw [getD_of_length_le _ _ _ (by rw [hlen_app]; exact this)]
            rfl
      · intro m' hm' t ht
        rw [hlen_app]
        rcases List.mem_append.1 hm' with h | h
        · rcases List.mem_append.1 h with h2 | h2
          · have := hI.micro_tid m'
              (by rw [hm]; exact List.mem_cons_of_mem _ h2) t ht
            omega
          · have := launchMicro_tid P c.tasks.length i m' h2 t ht
            omega
        · have : m' = Micro.drvLaunch (i + 1) := by simpa using h
          subst this
          cases ht
      · show cntDrv ((rest ++ launchMicro P c.tasks.length i)
          ++ [Micro.drvLaunch (i + 1)]) + _ = _
        rw [cntDrv_append, cntDrv_append, launchMicro_no_drv, cntDrv_singleton,
          show isDrvE (Micro.drvLaunch (i + 1) : Micro ε ρ) = true from rfl,
          if_true_nat, hdrest, hwait,
          show (none : Option Nat).isSome = false from rfl, if_false_nat, hwat,
          if_false_nat]
      · intro _
        show c.inFlightTasks + 1 < P.concurrency
        omega
      · intro hh
        have h2 : c.drvWaiting.isSome = true := hh
        rw [hwait] at h2
        simp at h2
      · intro j hj2
        have h3 : c.drvWaiting = some j := hj2
        rw [hwait] at h3
        cases h3
      · intro j hj2
        rw [hlen_app]
        rcases List.mem_append.1 hj2 with h | h
        · rcases List.mem_append.1 h with h2 | h2
          · exact absurd h2 (hnodrv_rest j)
          · have ht : isDrvE (Micro.drvLaunch j : Micro ε ρ) = true := rfl
            have hz := launchMicro_no_drv P c.tasks.length i
            have : (0 : Nat) < cntDrv (launchMicro P c.tasks.length i) :=
              List.countP_pos.2 ⟨_, h2, ht⟩
            omega
        · have : Micro.drvLaunch (ε := ε) (ρ := ρ) j = Micro.drvLaunch (i + 1) := by
            simpa using h
          cases this
          rw [hidx]
      · rw [hlen_app]
        have hj' : i + 1 < c.dataArr.length := hj
        rw [hI.data_pres] at hj'
        omega
      · rw [hlen_app]
        constructor
        · intro hh
          have hh2 : c.watchers = true := hh
          rw [hwat] at hh2
          cases hh2
        · intro hh
          have hj' : i + 1 < c.dataArr.length := hj
          rw [hI.data_pres] at hj'
          rw [hidx] at hj'
          omega
      · show c.processedEntries = _
        rw [hfc_app]
        exact hI.processed_eq
  · rename_i hj
    -- iterator exhausted: watchers registered
    have hN : data.length = c.tasks.length + 1 := by
      have hj' : ¬ (i + 1 < c.dataArr.length) := hj
      rw [hI.data_pres] at hj'
      rw [hidx] at hj'
      omega
    refine ⟨hI.data_pres, ?_, ?_, ?_, ?_, ?_, ?_, ?_, ?_, ?_, ?_, ?_, ?_⟩
    · show c.inFlightTasks + 1 = _
      rw [show (({ c with micro := rest } : Conf α ε ρ).tasks
          ++ [launchTask P ({ c with micro := rest } : Conf α ε ρ).time i])
        = c.tasks ++ [launchTask P c.time i] from rfl]
      rw [hfc_app, hlen_app]
      have := hI.flight_eq
      push_cast
      omega
    · show c.inFlightTasks + 1 ≤ P.concurrency
      omega
    · intro tid'
      show cntTC (rest ++ launchMicro P c.tasks.length i) tid' + _ = _
      rw [cntTC_append, launchMicro_no_tc]
      by_cases hlt : tid' < c.tasks.length
      · rw [show ((c.tasks ++ [launchTask P c.time i]).getD tid' default)
            = c.tasks.getD tid' default from getD_append_left _ _ _ _ hlt]
        have h2 := hI.tc_linear tid'
        rw [hm, cntTC_cons,
          show isTCfor tid' (Micro.drvLaunch i : Micro ε ρ) = false from rfl,
          if_false_nat, Nat.add_zero] at h2
        rw [Nat.add_zero]
        exact h2
      · have hge3 : c.tasks.length ≤ tid' := Nat.le_of_not_lt hlt
        have hz : cntTC rest tid' = 0 := by
          have h3 := hcntTC_ge tid' hge3
          rw [hm, cntTC_cons,
            show isTCfor tid' (Micro.drvLaunch i : Micro ε ρ) = false from rfl,
            if_false_nat, Nat.add_zero] at h3
          exact h3
        rw [hz]
        by_cases heq2 : tid' = c.tasks.length
        · rw [heq2,
            show ((c.tasks ++ [launchTask P c.time i]).getD c.tasks.length default)
              = launchTask P c.time i from getD_append_right_self _ _ _,
            launchTask_finished, launchTask_raceSettled]
          omega
        · have : c.tasks.length + 1 ≤ tid' := by omega
          rw [getD_of_length_le _ _ _ (by rw [hlen_app]; exact this)]
          rfl
    · intro m' hm' t ht
      rw [hlen_app]
      rcases List.mem_append.1 hm' with h | h
      · have := hI.micro_tid m' (by rw [hm]; exact List.mem_cons_of_mem _ h) t ht
        omega
      · have := launchMicro_tid P c.tasks.length i m' h t ht
        omega
    · show cntDrv (rest ++ launchMicro P c.tasks.length i) + _ = _
      rw [cntDrv_append, launchMicro_no_drv, Nat.add_zero, hdrest, hwait,
        show (none : Option Nat).isSome = false from rfl, if_false_nat]
      rfl
    · intro hpos
      have hpos' : 0 < cntDrv (rest ++ launchMicro P c.tasks.length i) := hpos
      rw [cntDrv_append, launchMicro_no_drv, Nat.add_zero, hdrest] at hpos'
      omega
    · intro hh
      have h2 : c.drvWaiting.isSome = true := hh
      rw [hwait] at h2
      simp at h2
    · intro j hj2
      have h3 : c.drvWaiting = some j := hj2
      rw [hwait] at h3
      cases h3
    · intro j hj2
      rw [hlen_app]
      rcases List.mem_append.1 hj2 with h | h
      · exact absurd h (hnodrv_rest j)
      · have ht : isDrvE (Micro.drvLaunch j : Micro ε ρ) = true := rfl
        have hz := launchMicro_no_drv P c.tasks.length i
        have : (0 : Nat) < cntDrv (launchMicro P c.tasks.length i) :=
          List.countP_pos.2 ⟨_, h, ht⟩
        omega
    · rw [hlen_app]
      omega
    · rw [hlen_app]
      constructor
      · intro _
        omega
      · intro _
        rfl
    · show c.processedEntries = _
      rw [hfc_app]
      exact hI.processed_eq

/-- Changing only the clock preserves the structural invariant. -/
theorem invA_time {P : Params ε ρ} {data : List α} {c : Conf α ε ρ} {t : Nat}
    (hI : InvA P data c) : InvA P data { c with time := t } :=
  ⟨hI.data_pres, hI.flight_eq, hI.flight_le, hI.tc_linear, hI.micro_tid,
   hI.drv_token, hI.drv_lt, hI.wait_ge, hI.token_idx_wait, hI.token_idx_drv,
   hI.len_le, hI.watchers_iff, hI.processed_eq⟩

/-- Full case analysis of one event-loop step. -/
theorem step_cases {P : Params ε ρ} {c c' : Conf α ε ρ} (h : step P c = some c') :
    (∃ m rest, c.micro = m :: rest ∧ c' = runMicro P { c with micro := rest } m) ∨
    (c.micro = [] ∧ ∃ x, pickMin (externals c) = some x ∧ x ∈ externals c ∧
      c' = fireExternal P c x) := by
  cases hm : c.micro with
  | cons m rest =>
      left
      refine ⟨m, rest, rfl, ?_⟩
      unfold step at h
      rw [hm] at h
      exact (Option.some.inj h).symm
  | nil =>
      right
      unfold step at h
      rw [hm] at h
      cases hx : pickMin (externals c) with
      | none => rw [hx] at h; cases h
      | some x =>
          rw [hx] at h
          exact ⟨rfl, x, rfl, pickMin_mem hx, (Option.some.inj h).symm⟩

/-- Firing an external event (with an empty microtask queue) preserves the
structural invariant. -/
theorem invA_fire {P : Params ε ρ} {data : List α} {c : Conf α ε ρ}
    {x : Nat × Bool × Nat} (hI : InvA P data c) (hx : x ∈ externals c) :
    InvA P data (fireExternal P c x) := by
  have hxt := @mem_externalsFrom x 0 c.tasks hx
  have htid : x.1 < c.tasks.length := by
    have := hxt.2.1
    simpa using this
  unfold fireExternal
  split
  · refine invA_push (invA_updTask (invA_time hI) fun s => ⟨rfl, rfl⟩) ?_
    intro m' hm'
    have : m' = Micro.raceReact x.1 (Except.error JsErr.timeoutErr) := by
      simpa using hm'
    subst this
    refine ⟨fun t' => rfl, rfl, fun t ht => ?_⟩
    cases ht
    rw [updTask_tasks_length]
    exact htid
  · simp only []
    split
    · refine invA_push (invA_updTask (invA_time hI) fun s => ⟨rfl, rfl⟩) ?_
      intro m' hm'
      have : m' = Micro.retryLoop x.1
          (P.beh ((c.tasks.getD x.1 default).itemIdx)
            ((c.tasks.getD x.1 default).attempts)).2 := by
        simpa using hm'
      subst this
      refine ⟨fun t' => rfl, rfl, fun t ht => ?_⟩
      cases ht
      rw [updTask_tasks_length]
      exact htid
    · refine invA_push (invA_updTask (invA_time hI) fun s => ⟨rfl, rfl⟩) ?_
      intro m' hm'
      have : m' = Micro.raceReact x.1
          ((P.beh ((c.tasks.getD x.1 default).itemIdx)
            ((c.tasks.getD x.1 default).attempts)).2.mapError JsErr.procErr) := by
        simpa using hm'
      subst this
      refine ⟨fun t' => rfl, rfl, fun t ht => ?_⟩
      cases ht
      rw [updTask_tasks_length]
      exact htid

/-- Any single non-aborting step preserves the structural invariant. -/
theorem invA_step {P : Params ε ρ} {data : List α} {c c' : Conf α ε ρ}
    (hI : InvA P data c) (hab : isAbortStep P c = false)
    (hs : step P c = some c') : InvA P data c' := by
  rcases step_cases hs with ⟨m, rest, hm, hceq⟩ | ⟨hnil, x, hpick, hmem, hceq⟩
  · subst hceq
    cases m with
    | drvLaunch i => exact invA_launch hI hm
    | retryLoop tid out => exact invA_retryLoop hI hm hab
    | raceReact tid out => exact invA_raceReact hI hm
    | taskCont tid out => exact invA_taskCont hI hm
  · subst hceq
    exact invA_fire hI hmem

/-- The initial configuration of a non-empty run with concurrency at least 1
satisfies the structural invariant. -/
theorem invA_init {P : Params ε ρ} {data : List α}
    (hC : 1 ≤ P.concurrency) (hd : data ≠ []) :
    InvA P data (initConf P data) := by
  have hlen : ¬ data.length = 0 := by
    simpa [List.length_eq_zero] using hd
  have hcneg : ¬ ((0 : Int) ≥ P.concurrency) := by omega
  have hinit : initConf P data =
      { dataArr := data, results := [], inFlightTasks := 0, processedEntries := 0,
        errSlot := none, settled := none, watchers := false,
        drvWaiting := none, tasks := [], micro := [Micro.drvLaunch 0], time := 0 } := by
    unfold initConf
    rw [if_neg hlen, if_neg hcneg]
  rw [hinit]
  refine ⟨rfl, by simp [finishedCount], ?_, fun tid => rfl, ?_, rfl, ?_,
    ?_, ?_, ?_, Nat.zero_le _, ?_, rfl⟩
  · show (0 : Int) ≤ P.concurrency
    omega
  · intro m hmm t ht
    have : m = Micro.drvLaunch 0 := by simpa using hmm
    subst this
    cases ht
  · intro _
    show (0 : Int) < P.concurrency
    omega
  · intro hh
    simp at hh
  · intro i hh
    cases hh
  · intro i hmm
    have : i = 0 := by
      have h3 : Micro.drvLaunch (ε := ε) (ρ := ρ) i = Micro.drvLaunch 0 := by
        simpa using hmm
      cases h3
      rfl
    rw [this]
    rfl
  · constructor
    · intro hh; cases hh
    · intro hh
      exact absurd hh.symm hlen

/-! ## Frame lemmas: what a step does to the shared input array -/

/-- A non-aborting step never mutates `this.data`. -/
theorem dataArr_preserved_step {P : Params ε ρ} {c c' : Conf α ε ρ}
    (hab : isAbortStep P c = false) (hs : step P c = some c') :
    c'.dataArr = c.dataArr := by
  rcases step_cases hs with ⟨m, rest, hm, hceq⟩ | ⟨hnil, x, hpick, hmem, hceq⟩
  · subst hceq
    cases m with
    | drvLaunch i =>
        show (launchStep P { c with micro := rest } i).dataArr = c.dataArr
        unfold launchStep
        simp only []
        split
        · split
          · rfl
          · rfl
        · rfl
    | retryLoop tid out =>
        show (retryLoopStep P { c with micro := rest } tid out).dataArr = c.dataArr
        unfold retryLoopStep
        cases out with
        | ok r => rfl
        | error e =>
            simp only []
            split
            · split
              · rfl
              · rfl
            · rename_i hcr'
              have hcr : canRetry P ((c.tasks.getD tid default).attempts) = false := by
                simpa using hcr'
              have hstop : P.allowStopOnFailure = false := by
                unfold isAbortStep at hab
                rw [hm] at hab
                rw [show (match Micro.retryLoop tid (Except.error e) :: rest with
                  | Micro.retryLoop tid' (Except.error _) :: _ =>
                      !canRetry P ((c.tasks.getD tid' default).attempts)
                        && P.allowStopOnFailure
                  | _ => false) = (!canRetry P ((c.tasks.getD tid default).attempts)
                        && P.allowStopOnFailure) from rfl] at hab
                rw [hcr] at hab
                simpa using hab
              rw [hstop, if_neg Bool.false_ne_true]
    | raceReact tid out =>
        show (raceReactStep { c with micro := rest } tid out).dataArr = c.dataArr
        unfold raceReactStep
        split
        · rfl
        · rfl
    | taskCont tid out =>
        exact taskContStep_dataArr _ _ _
  · subst hceq
    show (fireExternal P c x).dataArr = c.dataArr
    unfold fireExternal
    split
    · rfl
    · simp only []
      split <;> rfl

/-- Along an abort-free prefix the input array is never mutated. -/
theorem dataArr_preserved_run (P : Params ε ρ) (c : Conf α ε ρ) (n : Nat)
    (hab : NoAbortUpTo P c n) : (runPool P c n).dataArr = c.dataArr :=
  invariant_runPool_of_noAbort
    (I := fun x => x.dataArr = c.dataArr)
    (fun c1 c2 h1 habc hs => (dataArr_preserved_step habc hs).trans h1)
    n c rfl hab

/-- The abort step pops every element of `this.data` (line 487): right after
it the shared array is empty. -/
theorem abort_step_empties_dataArr {P : Params ε ρ} {c c' : Conf α ε ρ}
    (hab : isAbortStep P c = true) (hs : step P c = some c') :
    c'.dataArr = [] := by
  cases hm : c.micro with
  | nil =>
      unfold isAbortStep at hab
      rw [hm] at hab
      exact absurd hab Bool.false_ne_true
  | cons m rest =>
      cases m with
      | drvLaunch i =>
          unfold isAbortStep at hab
          rw [hm] at hab
          exact absurd hab Bool.false_ne_true
      | raceReact tid out =>
          unfold isAbortStep at hab
          rw [hm] at hab
          exact absurd hab Bool.false_ne_true
      | taskCont tid out =>
          unfold isAbortStep at hab
          rw [hm] at hab
          exact absurd hab Bool.false_ne_true
      | retryLoop tid out =>
          cases out with
          | ok r =>
              unfold isAbortStep at hab
              rw [hm] at hab
              exact absurd hab Bool.false_ne_true
          | error e =>
              unfold isAbortStep at hab
              rw [hm] at hab
              rw [show (match Micro.retryLoop tid (Except.error e) :: rest with
                | Micro.retryLoop tid' (Except.error _) :: _ =>
                    !canRetry P ((c.tasks.getD tid' default).attempts)
                      && P.allowStopOnFailure
                | _ => false) = (!canRetry P ((c.tasks.getD tid default).attempts)
                      && P.allowStopOnFailure) from rfl] at hab
              rw [Bool.and_eq_true] at hab
              obtain ⟨h1, hstop⟩ := hab
              have hcr : canRetry P ((c.tasks.getD tid default).attempts) = false := by
                cases hcc : canRetry P ((c.tasks.getD tid default).attempts)
                · rfl
                · rw [hcc] at h1; exact absurd h1 (by decide)
              have hc' : c' = retryLoopStep P { c with micro := rest } tid
                  (Except.error e) := by
                unfold step at hs
                rw [hm] at hs
                exact (Option.some.inj hs).symm
              subst hc'
              unfold retryLoopStep
              simp only []
              rw [if_neg (by rw [hcr]; exact Bool.false_ne_true), if_pos hstop]
              simp

/-! ## Claim C9 — the instance aliases the caller's input array -/

/-- Claim C9: the constructor stores the caller's array reference for
`this.data` without copying (it allocates only the fresh `this.results`
array); on abort-free prefixes of a run the pool never mutates the input
array; the abort branch pops every element of that very array; and in a
concrete aborted run the caller's aliased array ends with length 0. -/
theorem c9_input_array_aliasing :
    (∀ (τ : Type) (st : ArrStore τ) (r : Nat),
        (arehsConstructorArrays st r).1.dataRef = r ∧
        (arehsConstructorArrays st r).2.arrs = st.arrs ++ [[]]) ∧
    (∀ (α ε ρ : Type) (P : Params ε ρ) (c : Conf α ε ρ) (n : Nat),
        NoAbortUpTo P c n → (runPool P c n).dataArr = c.dataArr) ∧
    (∀ (α ε ρ : Type) (P : Params ε ρ) (c c' : Conf α ε ρ),
        isAbortStep P c = true → step P c = some c' → c'.dataArr = []) ∧
    (runPool prmAbortGate (initConf prmAbortGate [5, 6]) 2).dataArr = [] ∧
    (runPool prmAbortLate (initConf prmAbortLate [5, 6]) 12).dataArr = [] := by
  refine ⟨fun τ st r => ⟨rfl, rfl⟩,
    fun α ε ρ P c n hab => dataArr_preserved_run P c n hab,
    fun α ε ρ P c c' hab hs => abort_step_empties_dataArr hab hs,
    by decide, by decide⟩

/-- Witness for C9 at concrete inputs: an abort-free 10-step run leaves the
input array untouched, and the abort step of the gate-blocked scenario
empties it. -/
theorem c9_input_array_aliasing_witness :
    (arehsConstructorArrays (⟨[[7, 8]]⟩ : ArrStore Nat) 0).1.dataRef = 0 ∧
    (runPool prmEarlyFail (initConf prmEarlyFail [1, 2, 3, 4]) 10).dataArr
      = (initConf prmEarlyFail [1, 2, 3, 4]).dataArr ∧
    (runPool prmAbortGate (initConf prmAbortGate [5, 6]) 2).dataArr = [] :=
  ⟨(c9_input_array_aliasing.1 Nat ⟨[[7, 8]]⟩ 0).1,
   c9_input_array_aliasing.2.1 Nat Nat Nat prmEarlyFail
     (initConf prmEarlyFail [1, 2, 3, 4]) 10 (by decide),
   c9_input_array_aliasing.2.2.2.1⟩

/-! ## Claim C1 — amended in-flight bounds -/

/-- Claim C1 amended: for every run with concurrency limit `C >= 1` and any
processor behaviour, the in-flight task count stays between 0 and `C`
inclusive at every point of the execution *as long as no stop-on-failure
abort has fired*; once an abort resets the counters while tasks are still
outstanding, the outstanding `finally` blocks drive the count negative
(see the counterexample for the original claim). -/
theorem c1_amended_inflight_bounds (P : Params ε ρ) (data : List α)
    (hC : 1 ≤ P.concurrency) (n : Nat)
    (hab : NoAbortUpTo P (initConf P data) n) :
    0 ≤ (runPool P (initConf P data) n).inFlightTasks ∧
    (runPool P (initConf P data) n).inFlightTasks ≤ P.concurrency := by
  by_cases hd : data = []
  · subst hd
    have hq : step P (initConf P ([] : List α)) = none := rfl
    rw [runPool_of_quiescent hq]
    constructor
    · show (0 : Int) ≤ 0
      omega
    · show (0 : Int) ≤ P.concurrency
      omega
  · have hIn : InvA P data (runPool P (initConf P data) n) :=
      invariant_runPool_of_noAbort
        (fun c c' hIc habc hs => invA_step hIc habc hs) n
        (initConf P data) (invA_init hC hd) hab
    have h1 := hIn.flight_eq
    have h2 := hIn.flight_le
    refine ⟨?_, h2⟩
    rw [h1]
    have h3 : finishedCount (runPool P (initConf P data) n).tasks
        ≤ (runPool P (initConf P data) n).tasks.length :=
      List.countP_le_length _
    omega

/-- Witness for the amended C1: a concrete abort-free run (stop-on-failure
disabled) keeps the in-flight count within bounds. -/
theorem c1_amended_inflight_bounds_witness :
    0 ≤ (runPool prmEarlyFail (initConf prmEarlyFail [1, 2, 3, 4]) 10).inFlightTasks ∧
    (runPool prmEarlyFail (initConf prmEarlyFail [1, 2, 3, 4]) 10).inFlightTasks
      ≤ prmEarlyFail.concurrency :=
  c1_amended_inflight_bounds prmEarlyFail [1, 2, 3, 4] (by decide) 10 (by decide)

/-! ## The retry-attempt bound enforced by the guard of line 480 -/

theorem attemptsLe_set {K : Int} {l : List TaskState} {tid : Nat} {x : TaskState}
    (h : attemptsLe K l) (hx : ((x.attempts : Int)) ≤ max K 0) :
    attemptsLe K (l.set tid x) := by
  intro j
  by_cases hlen : tid < l.length
  · by_cases hej : j = tid
    · rw [hej, getD_set_self _ _ _ _ hlen]
      exact hx
    · rw [getD_set_ne _ _ _ _ _ hej]
      exact h j
  · rw [set_eq_of_length_le _ _ _ (Nat.le_of_not_lt hlen)]
    exact h j

theorem attemptsLe_append_one {K : Int} {l : List TaskState} {x : TaskState}
    (h : attemptsLe K l) (hx : ((x.attempts : Int)) ≤ max K 0) :
    attemptsLe K (l ++ [x]) := by
  intro j
  by_cases hlt : j < l.length
  · rw [getD_append_left _ _ _ _ hlt]
    exact h j
  · by_cases hej : j = l.length
    · rw [hej, getD_append_right_self]
      exact hx
    · have hge : (l ++ [x]).length ≤ j := by
        rw [List.length_append]
        simp only [List.length_cons, List.length_nil]
        omega
      rw [getD_of_length_le _ _ _ hge]
      have h0 : (default : TaskState).attempts = 0 := rfl
      rw [h0]
      exact_mod_cast le_max_right K 0

theorem attemptsLe_nil (K : Int) : attemptsLe K [] := by
  intro j
  rw [getD_of_length_le ([] : List TaskState) j default (Nat.zero_le j)]
  have h0 : (default : TaskState).attempts = 0 := rfl
  rw [h0]
  exact_mod_cast le_max_right K 0

/-- The synchronous prefix of `_executeTask` (lines 524-540) starts a task
at attempt 0. -/
theorem launchStep_tasks (P : Params ε ρ) (c : Conf α ε ρ) (i : Nat) :
    (launchStep P c i).tasks = c.tasks ++ [launchTask P c.time i] := by
  unfold launchStep
  simp only []
  split
  · split <;> rfl
  · rfl

/-- One step of the event loop never pushes a task's `attempts` counter past
`max retryLimitCount 0`: the only increment sits behind the guard
`retryCount < this.retryLimitCount` of line 480 (this also covers the abort
branch, which leaves the task records untouched). -/
theorem attemptsLe_step {P : Params ε ρ} {c c' : Conf α ε ρ}
    (h : attemptsLe P.retryLimitCount c.tasks) (hs : step P c = some c') :
    attemptsLe P.retryLimitCount c'.tasks := by
  have hpm : ∀ (X : Conf α ε ρ) (ms : List (Micro ε ρ)),
      (pushMicro X ms).tasks = X.tasks := fun _ _ => rfl
  rcases step_cases hs with ⟨m, rest, hm, hc'⟩ | ⟨hnil, x, hx, hxmem, hc'⟩
  · subst hc'
    cases m with
    | drvLaunch i =>
        show attemptsLe P.retryLimitCount
          (launchStep P { c with micro := rest } i).tasks
        rw [launchStep_tasks]
        refine attemptsLe_append_one h ?_
        have h0 : (launchTask P ({ c with micro := rest } : Conf α ε ρ).time
            i).attempts = 0 := rfl
        rw [h0]
        exact_mod_cast le_max_right P.retryLimitCount 0
    | retryLoop tid out =>
        show attemptsLe P.retryLimitCount
          (retryLoopStep P { c with micro := rest } tid out).tasks
        unfold retryLoopStep
        cases out with
        | ok r => exact h
        | error e =>
            simp only []
            split
            · rename_i hcr
              unfold canRetry at hcr
              rw [Bool.and_eq_true] at hcr
              obtain ⟨h1, h2⟩ := hcr
              rw [decide_eq_true_eq] at h1
              rw [decide_eq_true_eq] at h2
              have hmx : P.retryLimitCount ≤ max P.retryLimitCount 0 :=
                le_max_left _ _
              split
              · refine attemptsLe_set h ?_
                show ((((c.tasks.getD tid default).attempts + 1 : Nat) : Int))
                  ≤ max P.retryLimitCount 0
                omega
              · refine attemptsLe_set h ?_
                show ((((c.tasks.getD tid default).attempts + 1 : Nat) : Int))
                  ≤ max P.retryLimitCount 0
                omega
            · split
              · rw [hpm, emitFinish_tasks, emitTaskCompleted_tasks,
                  emitError_tasks]
                exact h
              · exact h
    | raceReact tid out =>
        show attemptsLe P.retryLimitCount
          (raceReactStep { c with micro := rest } tid out).tasks
        unfold raceReactStep
        split
        · exact h
        · refine attemptsLe_set h ?_
          show (((c.tasks.getD tid default).attempts : Nat) : Int)
            ≤ max P.retryLimitCount 0
          exact h tid
    | taskCont tid out =>
        show attemptsLe P.retryLimitCount
          (taskContStep { c with micro := rest } tid out).tasks
        rw [taskContStep_tasks, updTask_tasks]
        refine attemptsLe_set h ?_
        show (((c.tasks.getD tid default).attempts : Nat) : Int)
          ≤ max P.retryLimitCount 0
        exact h tid
  · subst hc'
    show attemptsLe P.retryLimitCount (fireExternal P c x).tasks
    unfold fireExternal
    simp only []
    split
    · refine attemptsLe_set h ?_
      show (((c.tasks.getD x.1 default).attempts : Nat) : Int)
        ≤ max P.retryLimitCount 0
      exact h x.1
    · split
      · refine attemptsLe_set h ?_
        show (((c.tasks.getD x.1 default).attempts : Nat) : Int)
          ≤ max P.retryLimitCount 0
        exact h x.1
      · refine attemptsLe_set h ?_
        show (((c.tasks.getD x.1 default).attempts : Nat) : Int)
          ≤ max P.retryLimitCount 0
        exact h x.1

theorem attemptsLe_runPool (P : Params ε ρ) :
    ∀ (n : Nat) (c : Conf α ε ρ), attemptsLe P.retryLimitCount c.tasks →
      attemptsLe P.retryLimitCount (runPool P c n).tasks
  | 0, _, h => h
  | n + 1, c, h => by
      cases hs : step P c with
      | none => rw [runPool_succ_of_none hs]; exact h
      | some c' =>
          rw [runPool_succ_of_step hs]
          exact attemptsLe_runPool P n c' (attemptsLe_step h hs)

theorem initConf_tasks (P : Params ε ρ) (data : List α) :
    (initConf P data : Conf α ε ρ).tasks = [] := by
  unfold initConf
  split
  · rfl
  · split <;> rfl

/-! ## Claim C5 — amended: retries require the stop-on-failure flag -/

/-- Claim C5 amended: when a retry limit `K > 0` is configured *and
stop-on-failure is enabled* (without it the retry wrapper of line 497 is
never installed — see the counterexample for the original claim), the
processor is re-invoked on a failing input up to `K` additional times before
the error is terminal.  Concretely, with `retryLimit(3)`, `stopOnFailure(true)`
and a processor failing twice then succeeding, the run settles successfully
with the success value in the results and the task's attempt counter at 2
(three invocations: attempts 0, 1 and 2); and universally, in every run the
attempt counter of every task never exceeds `max retryLimitCount 0`, so the
processor is invoked at most `1 + max K 0` times per input. -/
theorem c5_amended_retry_with_stop_flag :
    ((runPool prmRetryStop (initConf prmRetryStop [9]) 10).settled
        = some Settle.resolvedArr ∧
      (runPool prmRetryStop (initConf prmRetryStop [9]) 10).results = [50] ∧
      ((runPool prmRetryStop (initConf prmRetryStop [9]) 10).tasks.getD 0
        default).attempts = 2) ∧
    ∀ (α ε ρ : Type) (P : Params ε ρ) (data : List α) (n tid : Nat),
      ((((runPool P (initConf P data) n).tasks.getD tid default).attempts : Int))
        ≤ max P.retryLimitCount 0 := by
  constructor
  · exact ⟨by decide, by decide, by decide⟩
  · intro α ε ρ P data n tid
    have h0 : attemptsLe P.retryLimitCount (initConf P data : Conf α ε ρ).tasks := by
      rw [initConf_tasks]
      exact attemptsLe_nil _
    exact attemptsLe_runPool P n (initConf P data) h0 tid

/-! ## Counting and weight lemmas for the termination measure -/

theorem cntRL_append (l₁ l₂ : List (Micro ε ρ)) (tid : Nat) :
    cntRL (l₁ ++ l₂) tid = cntRL l₁ tid + cntRL l₂ tid :=
  List.countP_append _ _ _

theorem cntRR_append (l₁ l₂ : List (Micro ε ρ)) (tid : Nat) :
    cntRR (l₁ ++ l₂) tid = cntRR l₁ tid + cntRR l₂ tid :=
  List.countP_append _ _ _

theorem cntRL_cons (m : Micro ε ρ) (l : List (Micro ε ρ)) (tid : Nat) :
    cntRL (m :: l) tid = cntRL l tid + (if isRLfor tid m then 1 else 0) := by
  simp [cntRL, List.countP_cons]

theorem cntRR_cons (m : Micro ε ρ) (l : List (Micro ε ρ)) (tid : Nat) :
    cntRR (m :: l) tid = cntRR l tid + (if isRRfor tid m then 1 else 0) := by
  simp [cntRR, List.countP_cons]

theorem cntRL_singleton (m : Micro ε ρ) (tid : Nat) :
    cntRL [m] tid = if isRLfor tid m then 1 else 0 := by
  simp [cntRL, List.countP_cons]

theorem cntRR_singleton (m : Micro ε ρ) (tid : Nat) :
    cntRR [m] tid = if isRRfor tid m then 1 else 0 := by
  simp [cntRR, List.countP_cons]

theorem cntRL_pos_of_mem {l : List (Micro ε ρ)} {tid : Nat} {out : Except ε ρ}
    (h : Micro.retryLoop tid out ∈ l) : 0 < cntRL l tid := by
  refine List.countP_pos.2 ⟨_, h, ?_⟩
  simp [isRLfor]

theorem cntRR_pos_of_mem {l : List (Micro ε ρ)} {tid : Nat}
    {out : Except (JsErr ε) ρ}
    (h : Micro.raceReact tid out ∈ l) : 0 < cntRR l tid := by
  refine List.countP_pos.2 ⟨_, h, ?_⟩
  simp [isRRfor]

/-- A queue whose task-owned entries all reference tasks below `n` has no
`retryLoop` entry for task `n`. -/
theorem cntRL_eq_zero_of_lt {l : List (Micro ε ρ)} {n : Nat}
    (h : ∀ m ∈ l, ∀ t, entryTid m = some t → t < n) : cntRL l n = 0 := by
  refine countP_eq_zero_of_not_mem fun m hm => ?_
  cases m with
  | retryLoop t o =>
      have ht := h _ hm t rfl
      show (t == n) = false
      exact beq_eq_false_iff_ne.2 (by omega)
  | raceReact t o => rfl
  | taskCont t o => rfl
  | drvLaunch i => rfl

/-- A queue whose task-owned entries all reference tasks below `n` has no
`raceReact` entry for task `n`. -/
theorem cntRR_eq_zero_of_lt {l : List (Micro ε ρ)} {n : Nat}
    (h : ∀ m ∈ l, ∀ t, entryTid m = some t → t < n) : cntRR l n = 0 := by
  refine countP_eq_zero_of_not_mem fun m hm => ?_
  cases m with
  | retryLoop t o => rfl
  | raceReact t o =>
      have ht := h _ hm t rfl
      show (t == n) = false
      exact beq_eq_false_iff_ne.2 (by omega)
  | taskCont t o => rfl
  | drvLaunch i => rfl

theorem weight_finished {q : List (Micro ε ρ)} {t : TaskState} {tid : Nat}
    (h : t.finished = true) : weight q t tid = 0 := by
  unfold weight
  rw [h]
  rfl

theorem weight_settled {q : List (Micro ε ρ)} {t : TaskState} {tid : Nat}
    (h1 : t.finished = false) (h2 : t.raceSettled = true) :
    weight q t tid = 1 := by
  unfold weight
  rw [h1, h2]
  rfl

theorem weight_pending {q : List (Micro ε ρ)} {t : TaskState} {tid : Nat}
    (h1 : t.finished = false) (h2 : t.raceSettled = false)
    (h3 : t.procPending = true) : weight q t tid = 4 := by
  unfold weight
  rw [h1, h2, h3]
  rfl

theorem weight_waitRL {q : List (Micro ε ρ)} {t : TaskState} {tid : Nat}
    (h1 : t.finished = false) (h2 : t.raceSettled = false)
    (h3 : t.procPending = false) (h4 : cntRL q tid = 1) :
    weight q t tid = 3 := by
  unfold weight
  rw [h1, h2, h3, h4]
  rfl

theorem weight_waitRR {q : List (Micro ε ρ)} {t : TaskState} {tid : Nat}
    (h1 : t.finished = false) (h2 : t.raceSettled = false)
    (h3 : t.procPending = false) (h4 : cntRL q tid = 0) :
    weight q t tid = 2 := by
  unfold weight
  rw [h1, h2, h3, h4]
  rfl

theorem weight_le_four (q : List (Micro ε ρ)) (t : TaskState) (tid : Nat) :
    weight q t tid ≤ 4 := by
  unfold weight
  split
  · omega
  · split
    · omega
    · split
      · omega
      · split <;> omega

/-- The weight of a task depends on the queue only through its own
`retryLoop` count. -/
theorem wsum_congr {q q' : List (Micro ε ρ)} :
    ∀ (l : List TaskState) (k : Nat),
      (∀ j, k ≤ j → j < k + l.length → cntRL q j = cntRL q' j) →
      wsum q k l = wsum q' k l
  | [], _, _ => rfl
  | t :: ts, k, h => by
      show weight q t k + wsum q (k + 1) ts = weight q' t k + wsum q' (k + 1) ts
      have hw : weight q t k = weight q' t k := by
        unfold weight
        rw [h k (Nat.le_refl k) (by rw [List.length_cons]; omega)]
      have hrest := wsum_congr ts (k + 1)
        fun j h1 h2 => h j (by omega) (by rw [List.length_cons]; omega)
      rw [hw, hrest]

/-- Exchanging one task's record exchanges its weight contribution. -/
theorem wsum_set {q : List (Micro ε ρ)} {x : TaskState} :
    ∀ (l : List TaskState) (j k : Nat), j < l.length →
      wsum q k (l.set j x) + weight q (l.getD j default) (k + j)
        = wsum q k l + weight q x (k + j)
  | [], j, k, h => by simp at h
  | t :: ts, 0, k, h => by
      rw [Nat.add_zero]
      show weight q x k + wsum q (k + 1) ts
          + weight q ((t :: ts).getD 0 default) k
        = weight q t k + wsum q (k + 1) ts + weight q x k
      rw [show (t :: ts).getD 0 default = t from rfl]
      omega
  | t :: ts, j + 1, k, h => by
      have hj : j < ts.length := by
        rw [List.length_cons] at h
        omega
      have ih : wsum q (k + 1) (ts.set j x)
            + weight q (ts.getD j default) ((k + 1) + j)
          = wsum q (k + 1) ts + weight q x ((k + 1) + j) :=
        wsum_set ts j (k + 1) hj
      show weight q t k + wsum q (k + 1) (ts.set j x)
          + weight q ((t :: ts).getD (j + 1) default) (k + (j + 1))
        = weight q t k + wsum q (k + 1) ts + weight q x (k + (j + 1))
      rw [show (t :: ts).getD (j + 1) default = ts.getD j default from rfl]
      have hkj : k + (j + 1) = (k + 1) + j := by omega
      rw [hkj]
      omega

/-- Appending one task appends its weight. -/
theorem wsum_append_one {q : List (Micro ε ρ)} {x : TaskState} :
    ∀ (l : List TaskState) (k : Nat),
      wsum q k (l ++ [x]) = wsum q k l + weight q x (k + l.length)
  | [], k => by
      show weight q x k + 0 = 0 + weight q x k
      omega
  | t :: ts, k => by
      show weight q t k + wsum q (k + 1) (ts ++ [x])
        = weight q t k + wsum q (k + 1) ts + weight q x (k + (t :: ts).length)
      rw [wsum_append_one ts (k + 1)]
      have hlen : (k + 1) + ts.length = k + (t :: ts).length := by
        rw [List.length_cons]
        omega
      rw [hlen]
      omega

/-- A queue change that touches only the `retryLoop` count of one (started)
task shifts the weight sum by that task's weight difference. -/
theorem wsum_queue_change (q q' : List (Micro ε ρ)) (tid : Nat) :
    ∀ (l : List TaskState) (k : Nat), k ≤ tid → tid < k + l.length →
      (∀ j, j ≠ tid → cntRL q j = cntRL q' j) →
      wsum q' k l + weight q (l.getD (tid - k) default) tid
        = wsum q k l + weight q' (l.getD (tid - k) default) tid
  | [], k, h1, h2, _ => by
      simp only [List.length_nil, Nat.add_zero] at h2
      omega
  | t :: ts, k, h1, h2, hq => by
      by_cases he : tid = k
      · subst he
        have h0 : tid - tid = 0 := Nat.sub_self tid
        rw [h0]
        show wsum q' tid (t :: ts) + weight q ((t :: ts).getD 0 default) tid
          = wsum q tid (t :: ts) + weight q' ((t :: ts).getD 0 default) tid
        rw [show (t :: ts).getD 0 default = t from rfl]
        show weight q' t tid + wsum q' (tid + 1) ts + weight q t tid
          = weight q t tid + wsum q (tid + 1) ts + weight q' t tid
        have hw : wsum q' (tid + 1) ts = wsum q (tid + 1) ts :=
          wsum_congr ts (tid + 1) fun j hj1 _ => (hq j (by omega)).symm
        rw [hw]
        omega
      · have hk : k < tid := Nat.lt_of_le_of_ne h1 fun hh => he hh.symm
        have hsub : tid - k = (tid - (k + 1)) + 1 := by omega
        have hw : weight q t k = weight q' t k := by
          unfold weight
          rw [hq k (by omega)]
        have ih := wsum_queue_change q q' tid ts (k + 1) (by omega)
          (by rw [List.length_cons] at h2; omega) hq
        rw [hsub]
        show weight q' t k + wsum q' (k + 1) ts
            + weight q ((t :: ts).getD ((tid - (k + 1)) + 1) default) tid
          = weight q t k + wsum q (k + 1) ts
            + weight q' ((t :: ts).getD ((tid - (k + 1)) + 1) default) tid
        rw [show (t :: ts).getD ((tid - (k + 1)) + 1) default
          = ts.getD (tid - (k + 1)) default from rfl]
        rw [hw]
        omega

/-! ## Evaluation lemmas for the entry classifiers -/

theorem isRLfor_retryLoop (j t : Nat) (o : Except ε ρ) :
    isRLfor j (Micro.retryLoop t o) = (t == j) := rfl

theorem isRLfor_raceReact (j t : Nat) (o : Except (JsErr ε) ρ) :
    isRLfor j (Micro.raceReact t o) = false := rfl

theorem isRLfor_taskCont (j t : Nat) (o : Except (JsErr ε) ρ) :
    isRLfor j (Micro.taskCont t o) = false := rfl

theorem isRLfor_drvLaunch (j i : Nat) :
    isRLfor j (Micro.drvLaunch i : Micro ε ρ) = false := rfl

theorem isRRfor_retryLoop (j t : Nat) (o : Except ε ρ) :
    isRRfor j (Micro.retryLoop t o) = false := rfl

theorem isRRfor_raceReact (j t : Nat) (o : Except (JsErr ε) ρ) :
    isRRfor j (Micro.raceReact t o) = (t == j) := rfl

theorem isRRfor_taskCont (j t : Nat) (o : Except (JsErr ε) ρ) :
    isRRfor j (Micro.taskCont t o) = false := rfl

theorem isRRfor_drvLaunch (j i : Nat) :
    isRRfor j (Micro.drvLaunch i : Micro ε ρ) = false := rfl

/-! ## Phase extraction lemmas -/

/-- The phase of a task only reads the queue through its own entry counts. -/
theorem phase_congr {q q' : List (Micro ε ρ)} {t : TaskState} {tid : Nat}
    (hRL : cntRL q tid = cntRL q' tid) (hRR : cntRR q tid = cntRR q' tid)
    (h : phase q t tid) : phase q' t tid := by
  unfold phase at h ⊢
  rw [hRL, hRR] at h
  exact h

/-- A task with a queued `retryLoop` continuation is in the waiting-for-RL
phase. -/
theorem phase_rl {q : List (Micro ε ρ)} {t : TaskState} {tid : Nat}
    (h : phase q t tid) (hpos : 0 < cntRL q tid) :
    t.finished = false ∧ t.raceSettled = false ∧ t.procPending = false ∧
      cntRL q tid = 1 ∧ cntRR q tid = 0 := by
  rcases h with ⟨_, _, h3, _⟩ | ⟨_, _, _, h4, _⟩
    | ⟨h1, h2, h3, ⟨h4, h5⟩ | ⟨h4, h5⟩⟩ | ⟨_, _, _, h4, _⟩
  · omega
  · omega
  · exact ⟨h1, h2, h3, h4, h5⟩
  · omega
  · omega

/-- A task with a queued race subscriber is in the waiting-for-RR phase. -/
theorem phase_rr {q : List (Micro ε ρ)} {t : TaskState} {tid : Nat}
    (h : phase q t tid) (hpos : 0 < cntRR q tid) :
    t.finished = false ∧ t.raceSettled = false ∧ t.procPending = false ∧
      cntRL q tid = 0 ∧ cntRR q tid = 1 := by
  rcases h with ⟨_, _, _, h4⟩ | ⟨_, _, _, _, h5⟩
    | ⟨h1, h2, h3, ⟨h4, h5⟩ | ⟨h4, h5⟩⟩ | ⟨_, _, _, _, h5⟩
  · omega
  · omega
  · omega
  · exact ⟨h1, h2, h3, h4, h5⟩
  · omega

/-- A task with a pending processor promise is in the pending phase. -/
theorem phase_pp {q : List (Micro ε ρ)} {t : TaskState} {tid : Nat}
    (h : phase q t tid) (hpp : t.procPending = true) :
    t.finished = false ∧ t.raceSettled = false ∧
      cntRL q tid = 0 ∧ cntRR q tid = 0 := by
  rcases h with ⟨_, h2, _, _⟩ | ⟨_, _, h3, _, _⟩
    | ⟨_, _, h3, _⟩ | ⟨h1, h2, _, h4, h5⟩
  · rw [hpp] at h2; exact Bool.noConfusion h2
  · rw [hpp] at h3; exact Bool.noConfusion h3
  · rw [hpp] at h3; exact Bool.noConfusion h3
  · exact ⟨h1, h2, h4, h5⟩

/-- A settled-but-unfinished task is in the waiting-for-`finally` phase. -/
theorem phase_C_of {q : List (Micro ε ρ)} {t : TaskState} {tid : Nat}
    (h : phase q t tid) (hfin : t.finished = false) (hrs : t.raceSettled = true) :
    t.procPending = false ∧ cntRL q tid = 0 ∧ cntRR q tid = 0 := by
  rcases h with ⟨h1, _, _, _⟩ | ⟨_, _, h3, h4, h5⟩
    | ⟨_, h2, _, _⟩ | ⟨_, h2, _, _, _⟩
  · rw [hfin] at h1; exact Bool.noConfusion h1
  · exact ⟨h3, h4, h5⟩
  · rw [hrs] at h2; exact Bool.noConfusion h2
  · rw [hrs] at h2; exact Bool.noConfusion h2

/-! ## Timer-freeness helpers -/

theorem timer_free_set {l : List TaskState} {tid : Nat} {x : TaskState}
    (h : ∀ j, (l.getD j default).timerPending = false)
    (hx : x.timerPending = false) :
    ∀ j, ((l.set tid x).getD j default).timerPending = false := by
  intro j
  by_cases hlen : tid < l.length
  · by_cases he : j = tid
    · rw [he, getD_set_self _ _ _ _ hlen]
      exact hx
    · rw [getD_set_ne _ _ _ _ _ he]
      exact h j
  · rw [set_eq_of_length_le _ _ _ (Nat.le_of_not_lt hlen)]
    exact h j

theorem timer_free_append {l : List TaskState} {x : TaskState}
    (h : ∀ j, (l.getD j default).timerPending = false)
    (hx : x.timerPending = false) :
    ∀ j, ((l ++ [x]).getD j default).timerPending = false := by
  intro j
  by_cases hlt : j < l.length
  · rw [getD_append_left _ _ _ _ hlt]
    exact h j
  · by_cases hej : j = l.length
    · rw [hej, getD_append_right_self]
      exact hx
    · have hge : (l ++ [x]).length ≤ j := by
        rw [List.length_append]
        simp only [List.length_cons, List.length_nil]
        omega
      rw [getD_of_length_le _ _ _ hge]
      rfl

/-- The queue left by `launchStep`: the remaining queue, then the reaction
queued at processor-call time, then possibly the next driver continuation. -/
theorem launchStep_micro (P : Params ε ρ) (c : Conf α ε ρ) (i : Nat) :
    (launchStep P c i).micro = c.micro ++ launchMicro P c.tasks.length i ∨
    (launchStep P c i).micro
      = c.micro ++ launchMicro P c.tasks.length i ++ [Micro.drvLaunch (i + 1)] := by
  unfold launchStep
  simp only []
  split
  · split
    · left; rfl
    · right; rfl
  · left; rfl

/-! ## Preservation of the secondary invariant -/

/-- A `retryLoop` microtask (necessarily carrying a success) preserves the
secondary invariant. -/
theorem inv2_retryLoop {P : Params ε ρ} {data : List α} {c : Conf α ε ρ}
    {tid : Nat} {out : Except ε ρ} {rest : List (Micro ε ρ)}
    (hIA : InvA P data c) (hI : Inv2 P c)
    (hm : c.micro = Micro.retryLoop tid out :: rest) :
    Inv2 P (retryLoopStep P { c with micro := rest } tid out) := by
  have htid : tid < c.tasks.length :=
    hIA.micro_tid (Micro.retryLoop tid out)
      (by rw [hm]; exact List.mem_cons_self _ _) tid rfl
  obtain ⟨r, hr⟩ := hI.rl_ok tid out (by rw [hm]; exact List.mem_cons_self _ _)
  subst hr
  obtain ⟨hfin, hrs, hpp, hrl1, hrr0⟩ :=
    phase_rl (hI.phases tid htid)
      (cntRL_pos_of_mem (by rw [hm]; exact List.mem_cons_self _ _))
  have hRLrest : cntRL rest tid = 0 := by
    rw [hm, cntRL_cons, isRLfor_retryLoop, beq_self_eq_true, if_true_nat] at hrl1
    omega
  have hRRrest : cntRR rest tid = 0 := by
    rw [hm, cntRR_cons, isRRfor_retryLoop, if_false_nat] at hrr0
    omega
  show Inv2 P (pushMicro { c with micro := rest }
    [Micro.raceReact tid (Except.ok r)])
  refine ⟨?_, ?_, ?_⟩
  · exact hI.no_timer
  · intro j o hmem
    have hmem' : Micro.retryLoop j o
        ∈ rest ++ [Micro.raceReact tid (Except.ok r)] := hmem
    rcases List.mem_append.1 hmem' with h | h
    · exact hI.rl_ok j o (by rw [hm]; exact List.mem_cons_of_mem _ h)
    · simp at h
  · intro j hj
    have hj' : j < c.tasks.length := hj
    by_cases he : j = tid
    · rw [he]
      refine Or.inr (Or.inr (Or.inl ⟨hfin, hrs, hpp, Or.inr ⟨?_, ?_⟩⟩))
      · show cntRL (rest ++ [Micro.raceReact tid (Except.ok r)]) tid = 0
        rw [cntRL_append, cntRL_singleton, isRLfor_raceReact, hRLrest]
        rfl
      · show cntRR (rest ++ [Micro.raceReact tid (Except.ok r)]) tid = 1
        rw [cntRR_append, cntRR_singleton, isRRfor_raceReact, beq_self_eq_true,
          hRRrest]
        rfl
    · have hbne : (tid == j) = false := beq_eq_false_iff_ne.2 fun hh => he hh.symm
      refine phase_congr ?_ ?_ (hI.phases j hj')
      · rw [hm, cntRL_cons, isRLfor_retryLoop, hbne]
        show cntRL rest j + 0
          = cntRL (rest ++ [Micro.raceReact tid (Except.ok r)]) j
        rw [cntRL_append, cntRL_singleton, isRLfor_raceReact]
        rfl
      · rw [hm, cntRR_cons, isRRfor_retryLoop]
        show cntRR rest j + 0
          = cntRR (rest ++ [Micro.raceReact tid (Except.ok r)]) j
        rw [cntRR_append, cntRR_singleton, isRRfor_raceReact, hbne]
        rfl

/-- A race-subscriber microtask preserves the secondary invariant. -/
theorem inv2_raceReact {P : Params ε ρ} {data : List α} {c : Conf α ε ρ}
    {tid : Nat} {out : Except (JsErr ε) ρ} {rest : List (Micro ε ρ)}
    (hIA : InvA P data c) (hI : Inv2 P c)
    (hm : c.micro = Micro.raceReact tid out :: rest) :
    Inv2 P (raceReactStep { c with micro := rest } tid out) := by
  have htid : tid < c.tasks.length :=
    hIA.micro_tid (Micro.raceReact tid out)
      (by rw [hm]; exact List.mem_cons_self _ _) tid rfl
  obtain ⟨hfin, hrs, hpp, hrl0, hrr1⟩ :=
    phase_rr (hI.phases tid htid)
      (cntRR_pos_of_mem (by rw [hm]; exact List.mem_cons_self _ _))
  have hRLrest : cntRL rest tid = 0 := by
    rw [hm, cntRL_cons, isRLfor_raceReact, if_false_nat] at hrl0
    omega
  have hRRrest : cntRR rest tid = 0 := by
    rw [hm, cntRR_cons, isRRfor_raceReact, beq_self_eq_true, if_true_nat] at hrr1
    omega
  unfold raceReactStep
  split
  · rename_i hset
    have hset' : (c.tasks.getD tid default).raceSettled = true := hset
    rw [hrs] at hset'
    exact Bool.noConfusion hset'
  · refine ⟨?_, ?_, ?_⟩
    · intro j
      exact timer_free_set hI.no_timer
        (show ({ c.tasks.getD tid default with raceSettled := true }
          : TaskState).timerPending = false from hI.no_timer tid) j
    · intro j o hmem
      have hmem' : Micro.retryLoop j o
          ∈ rest ++ [Micro.taskCont tid out] := hmem
      rcases List.mem_append.1 hmem' with h | h
      · exact hI.rl_ok j o (by rw [hm]; exact List.mem_cons_of_mem _ h)
      · simp at h
    · intro j hj
      have hj' : j < c.tasks.length := by
        rw [List.length_set] at hj
        exact hj
      by_cases he : j = tid
      · rw [he, getD_set_self _ _ _ _ htid]
        refine Or.inr (Or.inl ⟨hfin, rfl, hpp, ?_, ?_⟩)
        · show cntRL (rest ++ [Micro.taskCont tid out]) tid = 0
          rw [cntRL_append, cntRL_singleton, isRLfor_taskCont, hRLrest]
          rfl
        · show cntRR (rest ++ [Micro.taskCont tid out]) tid = 0
          rw [cntRR_append, cntRR_singleton, isRRfor_taskCont, hRRrest]
          rfl
      · have hbne : (tid == j) = false :=
          beq_eq_false_iff_ne.2 fun hh => he hh.symm
        rw [getD_set_ne _ _ _ _ _ he]
        refine phase_congr ?_ ?_ (hI.phases j hj')
        · rw [hm, cntRL_cons, isRLfor_raceReact]
          show cntRL rest j + 0
            = cntRL (rest ++ [Micro.taskCont tid out]) j
          rw [cntRL_append, cntRL_singleton, isRLfor_taskCont]
          rfl
        · rw [hm, cntRR_cons, isRRfor_raceReact, hbne]
          show cntRR rest j + 0
            = cntRR (rest ++ [Micro.taskCont tid out]) j
          rw [cntRR_append, cntRR_singleton, isRRfor_taskCont]
          rfl

/-- An `await`-continuation microtask (the `finally` block) preserves the
secondary invariant. -/
theorem inv2_taskCont {P : Params ε ρ} {data : List α} {c : Conf α ε ρ}
    {tid : Nat} {out : Except (JsErr ε) ρ} {rest : List (Micro ε ρ)}
    (hIA : InvA P data c) (hI : Inv2 P c)
    (hm : c.micro = Micro.taskCont tid out :: rest) :
    Inv2 P (taskContStep { c with micro := rest } tid out) := by
  have htid : tid < c.tasks.length :=
    hIA.micro_tid (Micro.taskCont tid out)
      (by rw [hm]; exact List.mem_cons_self _ _) tid rfl
  have hTCt : isTCfor tid (Micro.taskCont tid out : Micro ε ρ) = true := by
    rw [show isTCfor tid (Micro.taskCont tid out : Micro ε ρ)
      = (tid == tid) from rfl]
    exact beq_self_eq_true tid
  have h2 := hIA.tc_linear tid
  rw [hm, cntTC_cons, hTCt, if_true_nat] at h2
  have hrs : (c.tasks.getD tid default).raceSettled = true := by
    by_contra hh
    rw [Bool.not_eq_true] at hh
    rw [hh, if_false_nat] at h2
    omega
  rw [hrs, if_true_nat] at h2
  have hfin : (c.tasks.getD tid default).finished = false := by
    by_contra hh
    rw [Bool.not_eq_false] at hh
    rw [hh, if_true_nat] at h2
    omega
  obtain ⟨hpp, hrl0, hrr0⟩ := phase_C_of (hI.phases tid htid) hfin hrs
  have rtasks : (taskContStep { c with micro := rest } tid out).tasks
      = c.tasks.set tid ({ c.tasks.getD tid default with finished := true }) :=
    taskContStep_tasks _ _ _
  have rmicro : ∃ ms, (taskContStep { c with micro := rest } tid out).micro
      = rest ++ ms ∧ (ms = [] ∨ ∃ i, ms = [Micro.drvLaunch i]) := by
    cases hw : c.drvWaiting with
    | none =>
        refine ⟨[], ?_, Or.inl rfl⟩
        rw [List.append_nil]
        exact taskContStep_micro_none rfl
    | some i =>
        exact ⟨[Micro.drvLaunch i], taskContStep_micro_some rfl, Or.inr ⟨i, rfl⟩⟩
  obtain ⟨ms, hms, hmscase⟩ := rmicro
  have hqRL : ∀ j, cntRL ((taskContStep { c with micro := rest } tid out).micro) j
      = cntRL c.micro j := by
    intro j
    have hmsz : cntRL ms j = 0 := by
      rcases hmscase with h | ⟨i, h⟩
      · rw [h]; rfl
      · rw [h, cntRL_singleton, isRLfor_drvLaunch]; rfl
    rw [hms, cntRL_append, hmsz, hm, cntRL_cons, isRLfor_taskCont]
    rfl
  have hqRR : ∀ j, cntRR ((taskContStep { c with micro := rest } tid out).micro) j
      = cntRR c.micro j := by
    intro j
    have hmsz : cntRR ms j = 0 := by
      rcases hmscase with h | ⟨i, h⟩
      · rw [h]; rfl
      · rw [h, cntRR_singleton, isRRfor_drvLaunch]; rfl
    rw [hms, cntRR_append, hmsz, hm, cntRR_cons, isRRfor_taskCont]
    rfl
  refine ⟨?_, ?_, ?_⟩
  · intro j
    rw [rtasks]
    exact timer_free_set hI.no_timer
      (show ({ c.tasks.getD tid default with finished := true }
        : TaskState).timerPending = false from hI.no_timer tid) j
  · intro j o hmem
    rw [hms] at hmem
    rcases List.mem_append.1 hmem with h | h
    · exact hI.rl_ok j o (by rw [hm]; exact List.mem_cons_of_mem _ h)
    · rcases hmscase with hnil2 | ⟨i, hone⟩
      · rw [hnil2] at h; simp at h
      · rw [hone] at h; simp at h
  · intro j hj
    rw [rtasks, List.length_set] at hj
    rw [rtasks]
    by_cases he : j = tid
    · subst he
      rw [getD_set_self _ _ _ _ htid]
      refine Or.inl ⟨rfl, hpp, ?_, ?_⟩
      · rw [hqRL]; exact hrl0
      · rw [hqRR]; exact hrr0
    · rw [getD_set_ne _ _ _ _ _ he]
      exact phase_congr (hqRL j).symm (hqRR j).symm (hI.phases j hj)

/-- A `drvLaunch` microtask (admission of the fetched element) preserves the
secondary invariant when no timeout is configured. -/
theorem inv2_launch {P : Params ε ρ} {data : List α} {c : Conf α ε ρ}
    {i : Nat} {rest : List (Micro ε ρ)}
    (ht0 : P.timeout = 0) (hsafe : RLSafe P)
    (hIA : InvA P data c) (hI : Inv2 P c)
    (hm : c.micro = Micro.drvLaunch i :: rest) :
    Inv2 P (launchStep P { c with micro := rest } i) := by
  have htasks : (launchStep P { c with micro := rest } i).tasks
      = c.tasks ++ [launchTask P c.time i] := launchStep_tasks P _ i
  have hmic2 : (launchStep P { c with micro := rest } i).micro
        = rest ++ launchMicro P c.tasks.length i ∨
      (launchStep P { c with micro := rest } i).micro
        = rest ++ launchMicro P c.tasks.length i ++ [Micro.drvLaunch (i + 1)] :=
    launchStep_micro P _ i
  have hrest_tid : ∀ m ∈ rest, ∀ t, entryTid m = some t → t < c.tasks.length :=
    fun m hmm t ht =>
      hIA.micro_tid m (by rw [hm]; exact List.mem_cons_of_mem _ hmm) t ht
  have hLMrl : ∀ j, j ≠ c.tasks.length →
      cntRL (launchMicro P c.tasks.length i) j = 0 := by
    intro j hne
    unfold launchMicro
    split
    · rfl
    · split
      · rw [cntRL_singleton, isRLfor_retryLoop,
          show (c.tasks.length == j) = false from
            beq_eq_false_iff_ne.2 fun hh => hne hh.symm]
        rfl
      · rw [cntRL_singleton, isRLfor_raceReact]
        rfl
  have hLMrr : ∀ j, j ≠ c.tasks.length →
      cntRR (launchMicro P c.tasks.length i) j = 0 := by
    intro j hne
    unfold launchMicro
    split
    · rfl
    · split
      · rw [cntRR_singleton, isRRfor_retryLoop]
        rfl
      · rw [cntRR_singleton, isRRfor_raceReact,
          show (c.tasks.length == j) = false from
            beq_eq_false_iff_ne.2 fun hh => hne hh.symm]
        rfl
  have hqRL : ∀ j, j ≠ c.tasks.length →
      cntRL ((launchStep P { c with micro := rest } i).micro) j
        = cntRL c.micro j := by
    intro j hne
    rcases hmic2 with h | h
    · rw [h, cntRL_append, hLMrl j hne, hm, cntRL_cons, isRLfor_drvLaunch]
      rfl
    · rw [h, cntRL_append, cntRL_append, hLMrl j hne, cntRL_singleton,
        isRLfor_drvLaunch, hm, cntRL_cons, isRLfor_drvLaunch]
      rfl
  have hqRR : ∀ j, j ≠ c.tasks.length →
      cntRR ((launchStep P { c with micro := rest } i).micro) j
        = cntRR c.micro j := by
    intro j hne
    rcases hmic2 with h | h
    · rw [h, cntRR_append, hLMrr j hne, hm, cntRR_cons, isRRfor_drvLaunch]
      rfl
    · rw [h, cntRR_append, cntRR_append, hLMrr j hne, cntRR_singleton,
        isRRfor_drvLaunch, hm, cntRR_cons, isRRfor_drvLaunch]
      rfl
  have hrestRL : cntRL rest c.tasks.length = 0 :=
    cntRL_eq_zero_of_lt hrest_tid
  have hrestRR : cntRR rest c.tasks.length = 0 :=
    cntRR_eq_zero_of_lt hrest_tid
  refine ⟨?_, ?_, ?_⟩
  · intro j
    rw [htasks]
    refine timer_free_append hI.no_timer ?_ j
    show decide ((0 : Int) < P.timeout) = false
    rw [ht0]
    decide
  · intro j o hmem
    have hmem' : Micro.retryLoop j o ∈ rest ++ launchMicro P c.tasks.length i ∨
        Micro.retryLoop j o
          ∈ rest ++ launchMicro P c.tasks.length i ++ [Micro.drvLaunch (i + 1)] := by
      rcases hmic2 with h | h
      · left; rw [h] at hmem; exact hmem
      · right; rw [h] at hmem; exact hmem
    have hmem2 : Micro.retryLoop j o ∈ rest ++ launchMicro P c.tasks.length i := by
      rcases hmem' with h | h
      · exact h
      · rcases List.mem_append.1 h with h1 | h1
        · exact h1
        · simp at h1
    rcases List.mem_append.1 hmem2 with h1 | h1
    · exact hI.rl_ok j o (by rw [hm]; exact List.mem_cons_of_mem _ h1)
    · revert h1
      unfold launchMicro
      split
      · intro h1; simp at h1
      · split
        · rename_i hstop
          intro h1
          simp at h1
          obtain ⟨hj, ho⟩ := h1
          rcases hsafe with hf | hok
          · rw [hf] at hstop; exact Bool.noConfusion hstop
          · rw [ho]; exact hok i 0
        · intro h1; simp at h1
  · intro j hj
    rw [htasks] at hj ⊢
    rw [List.length_append] at hj
    simp only [List.length_cons, List.length_nil] at hj
    by_cases he : j = c.tasks.length
    · rw [he, getD_append_right_self]
      by_cases hd0 : 0 < (P.beh i 0).1
      · have hLM_nil : launchMicro P c.tasks.length i = [] := by
          unfold launchMicro
          rw [if_pos hd0]
        refine Or.inr (Or.inr (Or.inr ⟨rfl, rfl, ?_, ?_, ?_⟩))
        · show decide (0 < (P.beh i 0).1) = true
          exact decide_eq_true hd0
        · rcases hmic2 with h | h
          · rw [h, hLM_nil, List.append_nil]
            exact hrestRL
          · rw [h, hLM_nil, List.append_nil, cntRL_append, cntRL_singleton,
              isRLfor_drvLaunch, hrestRL]
            rfl
        · rcases hmic2 with h | h
          · rw [h, hLM_nil, List.append_nil]
            exact hrestRR
          · rw [h, hLM_nil, List.append_nil, cntRR_append, cntRR_singleton,
              isRRfor_drvLaunch, hrestRR]
            rfl
      · have hppf : (launchTask P c.time i).procPending = false := by
          show decide (0 < (P.beh i 0).1) = false
          exact decide_eq_false hd0
        refine Or.inr (Or.inr (Or.inl ⟨rfl, rfl, hppf, ?_⟩))
        by_cases hstop : P.allowStopOnFailure = true
        · have hLM : launchMicro P c.tasks.length i
              = [Micro.retryLoop c.tasks.length (P.beh i 0).2] := by
            unfold launchMicro
            rw [if_neg hd0, if_pos hstop]
          left
          constructor
          · rcases hmic2 with h | h
            · rw [h, cntRL_append, hLM, cntRL_singleton, isRLfor_retryLoop,
                beq_self_eq_true, hrestRL]
              rfl
            · rw [h, cntRL_append, cntRL_append, hLM, cntRL_singleton,
                cntRL_singleton, isRLfor_retryLoop, beq_self_eq_true,
                isRLfor_drvLaunch, hrestRL]
              rfl
          · rcases hmic2 with h | h
            · rw [h, cntRR_append, hLM, cntRR_singleton, isRRfor_retryLoop,
                hrestRR]
              rfl
            · rw [h, cntRR_append, cntRR_append, hLM, cntRR_singleton,
                cntRR_singleton, isRRfor_retryLoop, isRRfor_drvLaunch, hrestRR]
              rfl
        · have hstopf : P.allowStopOnFailure = false := Bool.eq_false_iff.2 hstop
          have hLM : launchMicro P c.tasks.length i
              = [Micro.raceReact c.tasks.length
                  ((P.beh i 0).2.mapError JsErr.procErr)] := by
            unfold launchMicro
            rw [if_neg hd0, hstopf]
            rfl
          right
          constructor
          · rcases hmic2 with h | h
            · rw [h, cntRL_append, hLM, cntRL_singleton, isRLfor_raceReact,
                hrestRL]
              rfl
            · rw [h, cntRL_append, cntRL_append, hLM, cntRL_singleton,
                cntRL_singleton, isRLfor_raceReact, isRLfor_drvLaunch, hrestRL]
              rfl
          · rcases hmic2 with h | h
            · rw [h, cntRR_append, hLM, cntRR_singleton, isRRfor_raceReact,
                beq_self_eq_true, hrestRR]
              rfl
            · rw [h, cntRR_append, cntRR_append, hLM, cntRR_singleton,
                cntRR_singleton, isRRfor_raceReact, beq_self_eq_true,
                isRRfor_drvLaunch, hrestRR]
              rfl
    · have hjlt : j < c.tasks.length := by omega
      rw [getD_append_left _ _ _ _ hjlt]
      exact phase_congr (hqRL j he).symm (hqRR j he).symm (hI.phases j hjlt)

/-- Firing an external event (necessarily a processor settlement in a
timer-free run) preserves the secondary invariant. -/
theorem inv2_fire {P : Params ε ρ} {data : List α} {c : Conf α ε ρ}
    {x : Nat × Bool × Nat}
    (hsafe : RLSafe P) (hIA : InvA P data c) (hI : Inv2 P c)
    (hnil : c.micro = []) (hx : x ∈ externals c) :
    Inv2 P (fireExternal P c x) := by
  have hxt := @mem_externalsFrom x 0 c.tasks hx
  have htid : x.1 < c.tasks.length := by
    have := hxt.2.1
    simpa using this
  cases hb : x.2.1 with
  | true =>
      have htp : (c.tasks.getD x.1 default).timerPending = true := by
        have := (hxt.2.2.2 hb).1
        simpa using this
      have h0 := hI.no_timer x.1
      rw [h0] at htp
      exact Bool.noConfusion htp
  | false =>
      have hpp : (c.tasks.getD x.1 default).procPending = true := by
        have := (hxt.2.2.1 hb).1
        simpa using this
      obtain ⟨hfin, hrs, _, _⟩ := phase_pp (hI.phases x.1 htid) hpp
      unfold fireExternal
      split
      · rename_i hT
        rw [hb] at hT
        exact Bool.noConfusion hT
      · simp only []
        split
        · rename_i hstop
          refine ⟨?_, ?_, ?_⟩
          · intro j
            exact timer_free_set hI.no_timer
              (show ({ c.tasks.getD x.1 default with procPending := false }
                : TaskState).timerPending = false from hI.no_timer x.1) j
          · intro j o hmem
            have hmem' : Micro.retryLoop j o ∈ c.micro
                ++ [Micro.retryLoop x.1
                    ((P.beh (c.tasks.getD x.1 default).itemIdx
                      (c.tasks.getD x.1 default).attempts).2)] := hmem
            rw [hnil] at hmem'
            simp at hmem'
            obtain ⟨hj, ho⟩ := hmem'
            rcases hsafe with hf | hok
            · rw [hf] at hstop; exact Bool.noConfusion hstop
            · rw [ho]; exact hok _ _
          · intro j hj
            have hj' : j < c.tasks.length := by
              rw [List.length_set] at hj
              exact hj
            by_cases he : j = x.1
            · rw [he, getD_set_self _ _ _ _ htid]
              refine Or.inr (Or.inr (Or.inl ⟨hfin, hrs, rfl, Or.inl ⟨?_, ?_⟩⟩))
              · show cntRL (c.micro
                    ++ [Micro.retryLoop x.1
                        ((P.beh (c.tasks.getD x.1 default).itemIdx
                          (c.tasks.getD x.1 default).attempts).2)]) x.1 = 1
                rw [hnil, cntRL_append, cntRL_singleton, isRLfor_retryLoop,
                  beq_self_eq_true]
                rfl
              · show cntRR (c.micro
                    ++ [Micro.retryLoop x.1
                        ((P.beh (c.tasks.getD x.1 default).itemIdx
                          (c.tasks.getD x.1 default).attempts).2)]) x.1 = 0
                rw [hnil, cntRR_append, cntRR_singleton, isRRfor_retryLoop]
                rfl
            · rw [getD_set_ne _ _ _ _ _ he]
              have hbne : (x.1 == j) = false :=
                beq_eq_false_iff_ne.2 fun hh => he hh.symm
              refine phase_congr ?_ ?_ (hI.phases j hj')
              · show cntRL c.micro j = cntRL (c.micro
                    ++ [Micro.retryLoop x.1
                        ((P.beh (c.tasks.getD x.1 default).itemIdx
                          (c.tasks.getD x.1 default).attempts).2)]) j
                rw [cntRL_append, cntRL_singleton, isRLfor_retryLoop, hbne]
                rfl
              · show cntRR c.micro j = cntRR (c.micro
                    ++ [Micro.retryLoop x.1
                        ((P.beh (c.tasks.getD x.1 default).itemIdx
                          (c.tasks.getD x.1 default).attempts).2)]) j
                rw [cntRR_append, cntRR_singleton, isRRfor_retryLoop]
                rfl
        · refine ⟨?_, ?_, ?_⟩
          · intro j
            exact timer_free_set hI.no_timer
              (show ({ c.tasks.getD x.1 default with procPending := false }
                : TaskState).timerPending = false from hI.no_timer x.1) j
          · intro j o hmem
            have hmem' : Micro.retryLoop j o ∈ c.micro
                ++ [Micro.raceReact x.1
                    ((P.beh (c.tasks.getD x.1 default).itemIdx
                      (c.tasks.getD x.1 default).attempts).2.mapError
                      JsErr.procErr)] := hmem
            rw [hnil] at hmem'
            simp at hmem'
          · intro j hj
            have hj' : j < c.tasks.length := by
              rw [List.length_set] at hj
              exact hj
            by_cases he : j = x.1
            · rw [he, getD_set_self _ _ _ _ htid]
              refine Or.inr (Or.inr (Or.inl ⟨hfin, hrs, rfl, Or.inr ⟨?_, ?_⟩⟩))
              · show cntRL (c.micro
                    ++ [Micro.raceReact x.1
                        ((P.beh (c.tasks.getD x.1 default).itemIdx
                          (c.tasks.getD x.1 default).attempts).2.mapError
                          JsErr.procErr)]) x.1 = 0
                rw [hnil, cntRL_append, cntRL_singleton, isRLfor_raceReact]
                rfl
              · show cntRR (c.micro
                    ++ [Micro.raceReact x.1
                        ((P.beh (c.tasks.getD x.1 default).itemIdx
                          (c.tasks.getD x.1 default).attempts).2.mapError
                          JsErr.procErr)]) x.1 = 1
                rw [hnil, cntRR_append, cntRR_singleton, isRRfor_raceReact,
                  beq_self_eq_true]
                rfl
            · rw [getD_set_ne _ _ _ _ _ he]
              have hbne : (x.1 == j) = false :=
                beq_eq_false_iff_ne.2 fun hh => he hh.symm
              refine phase_congr ?_ ?_ (hI.phases j hj')
              · show cntRL c.micro j = cntRL (c.micro
                    ++ [Micro.raceReact x.1
                        ((P.beh (c.tasks.getD x.1 default).itemIdx
                          (c.tasks.getD x.1 default).attempts).2.mapError
                          JsErr.procErr)]) j
                rw [cntRL_append, cntRL_singleton, isRLfor_raceReact]
                rfl
              · show cntRR c.micro j = cntRR (c.micro
                    ++ [Micro.raceReact x.1
                        ((P.beh (c.tasks.getD x.1 default).itemIdx
                          (c.tasks.getD x.1 default).attempts).2.mapError
                          JsErr.procErr)]) j
                rw [cntRR_append, cntRR_singleton, isRRfor_raceReact, hbne]
                rfl

/-- The secondary invariant rules out the stop-on-failure abort: the head of
the queue is never a `retryLoop` continuation carrying an error. -/
theorem noAbort_of_inv2 {P : Params ε ρ} {c : Conf α ε ρ} (hI : Inv2 P c) :
    isAbortStep P c = false := by
  unfold isAbortStep
  cases hm : c.micro with
  | nil => rfl
  | cons m rest =>
      cases m with
      | retryLoop t o =>
          cases o with
          | ok r => rfl
          | error e =>
              obtain ⟨r, hr⟩ := hI.rl_ok t (Except.error e)
                (by rw [hm]; exact List.mem_cons_self _ _)
              cases hr
      | raceReact t o => rfl
      | taskCont t o => rfl
      | drvLaunch j => rfl

/-- Any single step of a timer-free, retry-free run preserves the secondary
invariant. -/
theorem inv2_step {P : Params ε ρ} {data : List α} {c c' : Conf α ε ρ}
    (ht0 : P.timeout = 0) (hsafe : RLSafe P)
    (hIA : InvA P data c) (hI : Inv2 P c) (hs : step P c = some c') :
    Inv2 P c' := by
  rcases step_cases hs with ⟨m, rest, hm, hc'⟩ | ⟨hnil, x, hpick, hmem, hc'⟩
  · subst hc'
    cases m with
    | drvLaunch i => exact inv2_launch ht0 hsafe hIA hI hm
    | retryLoop tid out => exact inv2_retryLoop hIA hI hm
    | raceReact tid out => exact inv2_raceReact hIA hI hm
    | taskCont tid out => exact inv2_taskCont hIA hI hm
  · subst hc'
    exact inv2_fire hsafe hIA hI hnil hmem

/-- The initial configuration satisfies the secondary invariant. -/
theorem inv2_init (P : Params ε ρ) (data : List α) :
    Inv2 P (initConf P data : Conf α ε ρ) := by
  refine ⟨?_, ?_, ?_⟩
  · intro j
    rw [initConf_tasks]
    rw [getD_of_length_le ([] : List TaskState) j default (Nat.zero_le j)]
    rfl
  · intro j o hmem
    unfold initConf at hmem
    split at hmem
    · simp at hmem
    · split at hmem
      · simp at hmem
      · simp at hmem
  · intro j hj
    rw [initConf_tasks] at hj
    simp at hj

/-! ## Strict decrease of the termination measure -/

/-- A `retryLoop` microtask decreases the measure. -/
theorem mu_retryLoop {P : Params ε ρ} {data : List α} {c : Conf α ε ρ}
    {tid : Nat} {out : Except ε ρ} {rest : List (Micro ε ρ)}
    (hIA : InvA P data c) (hI : Inv2 P c)
    (hm : c.micro = Micro.retryLoop tid out :: rest) :
    muM data (retryLoopStep P { c with micro := rest } tid out) < muM data c := by
  have htid : tid < c.tasks.length :=
    hIA.micro_tid (Micro.retryLoop tid out)
      (by rw [hm]; exact List.mem_cons_self _ _) tid rfl
  obtain ⟨r, hr⟩ := hI.rl_ok tid out (by rw [hm]; exact List.mem_cons_self _ _)
  subst hr
  obtain ⟨hfin, hrs, hpp, hrl1, hrr0⟩ :=
    phase_rl (hI.phases tid htid)
      (cntRL_pos_of_mem (by rw [hm]; exact List.mem_cons_self _ _))
  have hRLrest : cntRL rest tid = 0 := by
    rw [hm, cntRL_cons, isRLfor_retryLoop, beq_self_eq_true, if_true_nat] at hrl1
    omega
  have hqq : ∀ j, j ≠ tid → cntRL c.micro j
      = cntRL (rest ++ [Micro.raceReact tid (Except.ok r)]) j := by
    intro j hne
    have hbne : (tid == j) = false := beq_eq_false_iff_ne.2 fun hh => hne hh.symm
    rw [hm, cntRL_cons, isRLfor_retryLoop, hbne, cntRL_append, cntRL_singleton,
      isRLfor_raceReact]
  have hch := wsum_queue_change c.micro
    (rest ++ [Micro.raceReact tid (Except.ok r)]) tid c.tasks 0
    (Nat.zero_le tid) (by omega) hqq
  have hw_old : weight c.micro (c.tasks.getD (tid - 0) default) tid = 3 :=
    weight_waitRL hfin hrs hpp hrl1
  have hw_new : weight (rest ++ [Micro.raceReact tid (Except.ok r)])
      (c.tasks.getD (tid - 0) default) tid = 2 := by
    refine weight_waitRR hfin hrs hpp ?_
    rw [cntRL_append, cntRL_singleton, isRLfor_raceReact, hRLrest]
    rfl
  rw [hw_old, hw_new] at hch
  show 7 * (data.length - c.tasks.length)
      + wsum (rest ++ [Micro.raceReact tid (Except.ok r)]) 0 c.tasks
    < 7 * (data.length - c.tasks.length) + wsum c.micro 0 c.tasks
  omega

/-- A race-subscriber microtask decreases the measure. -/
theorem mu_raceReact {P : Params ε ρ} {data : List α} {c : Conf α ε ρ}
    {tid : Nat} {out : Except (JsErr ε) ρ} {rest : List (Micro ε ρ)}
    (hIA : InvA P data c) (hI : Inv2 P c)
    (hm : c.micro = Micro.raceReact tid out :: rest) :
    muM data (raceReactStep { c with micro := rest } tid out) < muM data c := by
  have htid : tid < c.tasks.length :=
    hIA.micro_tid (Micro.raceReact tid out)
      (by rw [hm]; exact List.mem_cons_self _ _) tid rfl
  obtain ⟨hfin, hrs, hpp, hrl0, hrr1⟩ :=
    phase_rr (hI.phases tid htid)
      (cntRR_pos_of_mem (by rw [hm]; exact List.mem_cons_self _ _))
  have hRLrest : cntRL rest tid = 0 := by
    rw [hm, cntRL_cons, isRLfor_raceReact, if_false_nat] at hrl0
    omega
  unfold raceReactStep
  split
  · rename_i hset
    have hset' : (c.tasks.getD tid default).raceSettled = true := hset
    rw [hrs] at hset'
    exact Bool.noConfusion hset'
  · have hqq : ∀ j, j ≠ tid → cntRL c.micro j
        = cntRL (rest ++ [Micro.taskCont tid out]) j := by
      intro j hne
      rw [hm, cntRL_cons, isRLfor_raceReact, cntRL_append, cntRL_singleton,
        isRLfor_taskCont]
    have hch := wsum_queue_change c.micro (rest ++ [Micro.taskCont tid out]) tid
      c.tasks 0 (Nat.zero_le tid) (by omega) hqq
    have hqRLnew : cntRL (rest ++ [Micro.taskCont tid out]) tid = 0 := by
      rw [cntRL_append, cntRL_singleton, isRLfor_taskCont, hRLrest]
      rfl
    have hw_old : weight c.micro (c.tasks.getD (tid - 0) default) tid = 2 :=
      weight_waitRR hfin hrs hpp hrl0
    have hw_new : weight (rest ++ [Micro.taskCont tid out])
        (c.tasks.getD (tid - 0) default) tid = 2 :=
      weight_waitRR hfin hrs hpp hqRLnew
    rw [hw_old, hw_new] at hch
    have hst : wsum (rest ++ [Micro.taskCont tid out]) 0
          (c.tasks.set tid
            ({ c.tasks.getD tid default with raceSettled := true }))
          + weight (rest ++ [Micro.taskCont tid out])
            (c.tasks.getD tid default) (0 + tid)
        = wsum (rest ++ [Micro.taskCont tid out]) 0 c.tasks
          + weight (rest ++ [Micro.taskCont tid out])
            ({ c.tasks.getD tid default with raceSettled := true }) (0 + tid) :=
      wsum_set c.tasks tid 0 htid
    rw [Nat.zero_add] at hst
    have hw_mid : weight (rest ++ [Micro.taskCont tid out])
        (c.tasks.getD tid default) tid = 2 := hw_new
    have hw_rs : weight (rest ++ [Micro.taskCont tid out])
        ({ c.tasks.getD tid default with raceSettled := true }) tid = 1 :=
      weight_settled hfin rfl
    rw [hw_mid, hw_rs] at hst
    show 7 * (data.length
          - (c.tasks.set tid
              ({ c.tasks.getD tid default with raceSettled := true })).length)
        + wsum (rest ++ [Micro.taskCont tid out]) 0
          (c.tasks.set tid
            ({ c.tasks.getD tid default with raceSettled := true }))
      < 7 * (data.length - c.tasks.length) + wsum c.micro 0 c.tasks
    rw [List.length_set]
    omega

/-- An `await`-continuation microtask decreases the measure. -/
theorem mu_taskCont {P : Params ε ρ} {data : List α} {c : Conf α ε ρ}
    {tid : Nat} {out : Except (JsErr ε) ρ} {rest : List (Micro ε ρ)}
    (hIA : InvA P data c) (hI : Inv2 P c)
    (hm : c.micro = Micro.taskCont tid out :: rest) :
    muM data (taskContStep { c with micro := rest } tid out) < muM data c := by
  have htid : tid < c.tasks.length :=
    hIA.micro_tid (Micro.taskCont tid out)
      (by rw [hm]; exact List.mem_cons_self _ _) tid rfl
  have hTCt : isTCfor tid (Micro.taskCont tid out : Micro ε ρ) = true := by
    rw [show isTCfor tid (Micro.taskCont tid out : Micro ε ρ)
      = (tid == tid) from rfl]
    exact beq_self_eq_true tid
  have h2 := hIA.tc_linear tid
  rw [hm, cntTC_cons, hTCt, if_true_nat] at h2
  have hrs : (c.tasks.getD tid default).raceSettled = true := by
    by_contra hh
    rw [Bool.not_eq_true] at hh
    rw [hh, if_false_nat] at h2
    omega
  have hfin : (c.tasks.getD tid default).finished = false := by
    by_contra hh
    rw [Bool.not_eq_false] at hh
    rw [hrs, if_true_nat, hh, if_true_nat] at h2
    omega
  have rtasks : (taskContStep { c with micro := rest } tid out).tasks
      = c.tasks.set tid ({ c.tasks.getD tid default with finished := true }) :=
    taskContStep_tasks _ _ _
  have rmicro : ∃ ms, (taskContStep { c with micro := rest } tid out).micro
      = rest ++ ms ∧ (ms = [] ∨ ∃ i, ms = [Micro.drvLaunch i]) := by
    cases hw : c.drvWaiting with
    | none =>
        refine ⟨[], ?_, Or.inl rfl⟩
        rw [List.append_nil]
        exact taskContStep_micro_none rfl
    | some i =>
        exact ⟨[Micro.drvLaunch i], taskContStep_micro_some rfl, Or.inr ⟨i, rfl⟩⟩
  obtain ⟨ms, hms, hmscase⟩ := rmicro
  have hqRL : ∀ j, cntRL (rest ++ ms) j = cntRL c.micro j := by
    intro j
    have hmsz : cntRL ms j = 0 := by
      rcases hmscase with h | ⟨i, h⟩
      · rw [h]; rfl
      · rw [h, cntRL_singleton, isRLfor_drvLaunch]; rfl
    rw [cntRL_append, hmsz, hm, cntRL_cons, isRLfor_taskCont]
    rfl
  have hmu : muM data (taskContStep { c with micro := rest } tid out)
      = 7 * (data.length
          - (c.tasks.set tid
              ({ c.tasks.getD tid default with finished := true })).length)
        + wsum (rest ++ ms) 0
          (c.tasks.set tid
            ({ c.tasks.getD tid default with finished := true })) := by
    unfold muM
    rw [rtasks, hms]
  rw [hmu, List.length_set]
  have hst : wsum (rest ++ ms) 0
        (c.tasks.set tid
          ({ c.tasks.getD tid default with finished := true }))
        + weight (rest ++ ms) (c.tasks.getD tid default) (0 + tid)
      = wsum (rest ++ ms) 0 c.tasks
        + weight (rest ++ ms)
          ({ c.tasks.getD tid default with finished := true }) (0 + tid) :=
    wsum_set c.tasks tid 0 htid
  rw [Nat.zero_add] at hst
  have hw_old : weight (rest ++ ms) (c.tasks.getD tid default) tid = 1 :=
    weight_settled hfin hrs
  have hw_new : weight (rest ++ ms)
      ({ c.tasks.getD tid default with finished := true }) tid = 0 :=
    weight_finished rfl
  rw [hw_old, hw_new] at hst
  have hcong : wsum (rest ++ ms) 0 c.tasks = wsum c.micro 0 c.tasks :=
    wsum_congr c.tasks 0 fun j _ _ => hqRL j
  rw [hcong] at hst
  show 7 * (data.length - c.tasks.length)
      + wsum (rest ++ ms) 0
        (c.tasks.set tid
          ({ c.tasks.getD tid default with finished := true }))
    < muM data c
  show 7 * (data.length - c.tasks.length)
      + wsum (rest ++ ms) 0
        (c.tasks.set tid
          ({ c.tasks.getD tid default with finished := true }))
    < 7 * (data.length - c.tasks.length) + wsum c.micro 0 c.tasks
  omega

/-- A `drvLaunch` microtask decreases the measure (by at least 3). -/
theorem mu_launch {P : Params ε ρ} {data : List α} {c : Conf α ε ρ}
    {i : Nat} {rest : List (Micro ε ρ)}
    (hIA : InvA P data c) (hI : Inv2 P c)
    (hm : c.micro = Micro.drvLaunch i :: rest) :
    muM data (launchStep P { c with micro := rest } i) < muM data c := by
  have hdcnt : cntDrv c.micro = cntDrv rest + 1 := by
    rw [hm, cntDrv_cons,
      show isDrvE (Micro.drvLaunch i : Micro ε ρ) = true from rfl, if_true_nat]
  have htok := hIA.drv_token
  rw [hdcnt] at htok
  have hwat : c.watchers = false := by
    by_contra hh
    rw [Bool.not_eq_false] at hh
    rw [hh, if_true_nat] at htok
    omega
  have hlen_ne : ¬ c.tasks.length = data.length := by
    intro hh
    have h5 := hIA.watchers_iff.2 hh
    rw [hwat] at h5
    cases h5
  have hlen_lt : c.tasks.length < data.length :=
    Nat.lt_of_le_of_ne hIA.len_le hlen_ne
  have htasks : (launchStep P { c with micro := rest } i).tasks
      = c.tasks ++ [launchTask P c.time i] := launchStep_tasks P _ i
  have hmic2 : (launchStep P { c with micro := rest } i).micro
        = rest ++ launchMicro P c.tasks.length i ∨
      (launchStep P { c with micro := rest } i).micro
        = rest ++ launchMicro P c.tasks.length i ++ [Micro.drvLaunch (i + 1)] :=
    launchStep_micro P _ i
  have hrest_tid : ∀ m ∈ rest, ∀ t, entryTid m = some t → t < c.tasks.length :=
    fun m hmm t ht =>
      hIA.micro_tid m (by rw [hm]; exact List.mem_cons_of_mem _ hmm) t ht
  have hLMrl : ∀ j, j ≠ c.tasks.length →
      cntRL (launchMicro P c.tasks.length i) j = 0 := by
    intro j hne
    unfold launchMicro
    split
    · rfl
    · split
      · rw [cntRL_singleton, isRLfor_retryLoop,
          show (c.tasks.length == j) = false from
            beq_eq_false_iff_ne.2 fun hh => hne hh.symm]
        rfl
      · rw [cntRL_singleton, isRLfor_raceReact]
        rfl
  rcases hmic2 with h | h <;>
  · have hmu : muM data (launchStep P { c with micro := rest } i)
        = 7 * (data.length - (c.tasks ++ [launchTask P c.time i]).length)
          + wsum ((launchStep P { c with micro := rest } i).micro) 0
            (c.tasks ++ [launchTask P c.time i]) := by
      unfold muM
      rw [htasks]
    rw [hmu, h]
    rw [List.length_append]
    simp only [List.length_cons, List.length_nil]
    rw [wsum_append_one]
    have hcong : wsum (rest ++ launchMicro P c.tasks.length i
          ++ [Micro.drvLaunch (i + 1)]) 0 c.tasks
        = wsum c.micro 0 c.tasks ∧
        wsum (rest ++ launchMicro P c.tasks.length i) 0 c.tasks
        = wsum c.micro 0 c.tasks := by
      constructor <;>
        refine wsum_congr c.tasks 0 fun j hj1 hj2 => ?_
      · have hne : j ≠ c.tasks.length := by omega
        rw [cntRL_append, cntRL_append, hLMrl j hne, cntRL_singleton,
          isRLfor_drvLaunch, hm, cntRL_cons, isRLfor_drvLaunch]
        rfl
      · have hne : j ≠ c.tasks.length := by omega
        rw [cntRL_append, hLMrl j hne, hm, cntRL_cons, isRLfor_drvLaunch]
        rfl
    have hwb := weight_le_four ((launchStep P { c with micro := rest } i).micro)
      (launchTask P c.time i) (0 + c.tasks.length)
    rw [h] at hwb
    show 7 * (data.length - (c.tasks.length + (0 + 1)))
        + (wsum _ 0 c.tasks + weight _ (launchTask P c.time i)
            (0 + c.tasks.length))
      < 7 * (data.length - c.tasks.length) + wsum c.micro 0 c.tasks
    first
      | (rw [hcong.1]; omega)
      | (rw [hcong.2]; omega)

/-- Firing a processor settlement decreases the measure. -/
theorem mu_fire {P : Params ε ρ} {data : List α} {c : Conf α ε ρ}
    {x : Nat × Bool × Nat}
    (hIA : InvA P data c) (hI : Inv2 P c)
    (hnil : c.micro = []) (hx : x ∈ externals c) :
    muM data (fireExternal P c x) < muM data c := by
  have hxt := @mem_externalsFrom x 0 c.tasks hx
  have htid : x.1 < c.tasks.length := by
    have := hxt.2.1
    simpa using this
  cases hb : x.2.1 with
  | true =>
      have htp : (c.tasks.getD x.1 default).timerPending = true := by
        have := (hxt.2.2.2 hb).1
        simpa using this
      have h0 := hI.no_timer x.1
      rw [h0] at htp
      exact Bool.noConfusion htp
  | false =>
      have hpp : (c.tasks.getD x.1 default).procPending = true := by
        have := (hxt.2.2.1 hb).1
        simpa using this
      obtain ⟨hfin, hrs, hrl0, hrr0⟩ := phase_pp (hI.phases x.1 htid) hpp
      unfold fireExternal
      split
      · rename_i hT
        rw [hb] at hT
        exact Bool.noConfusion hT
      · simp only []
        split
        · -- retry wrapper installed: RL queued, new per-task RL count 1
          have hqq : ∀ j, j ≠ x.1 → cntRL c.micro j
              = cntRL (c.micro
                  ++ [Micro.retryLoop x.1
                      ((P.beh (c.tasks.getD x.1 default).itemIdx
                        (c.tasks.getD x.1 default).attempts).2)]) j := by
            intro j hne
            have hbne : (x.1 == j) = false :=
              beq_eq_false_iff_ne.2 fun hh => hne hh.symm
            rw [cntRL_append, cntRL_singleton, isRLfor_retryLoop, hbne]
            rfl
          have hch := wsum_queue_change c.micro
            (c.micro
              ++ [Micro.retryLoop x.1
                  ((P.beh (c.tasks.getD x.1 default).itemIdx
                    (c.tasks.getD x.1 default).attempts).2)]) x.1 c.tasks 0
            (Nat.zero_le x.1) (by omega) hqq
          have hw_old : weight c.micro (c.tasks.getD (x.1 - 0) default) x.1 = 4 :=
            weight_pending hfin hrs hpp
          have hw_new : weight (c.micro
              ++ [Micro.retryLoop x.1
                  ((P.beh (c.tasks.getD x.1 default).itemIdx
                    (c.tasks.getD x.1 default).attempts).2)])
              (c.tasks.getD (x.1 - 0) default) x.1 = 4 :=
            weight_pending hfin hrs hpp
          rw [hw_old, hw_new] at hch
          have hst : wsum (c.micro
                ++ [Micro.retryLoop x.1
                    ((P.beh (c.tasks.getD x.1 default).itemIdx
                      (c.tasks.getD x.1 default).attempts).2)]) 0
                (c.tasks.set x.1
                  ({ c.tasks.getD x.1 default with procPending := false }))
                + weight (c.micro
                  ++ [Micro.retryLoop x.1
                      ((P.beh (c.tasks.getD x.1 default).itemIdx
                        (c.tasks.getD x.1 default).attempts).2)])
                  (c.tasks.getD x.1 default) (0 + x.1)
              = wsum (c.micro
                  ++ [Micro.retryLoop x.1
                      ((P.beh (c.tasks.getD x.1 default).itemIdx
                        (c.tasks.getD x.1 default).attempts).2)]) 0 c.tasks
                + weight (c.micro
                  ++ [Micro.retryLoop x.1
                      ((P.beh (c.tasks.getD x.1 default).itemIdx
                        (c.tasks.getD x.1 default).attempts).2)])
                  ({ c.tasks.getD x.1 default with procPending := false })
                  (0 + x.1) :=
            wsum_set c.tasks x.1 0 htid
          rw [Nat.zero_add] at hst
          have hw_mid : weight (c.micro
              ++ [Micro.retryLoop x.1
                  ((P.beh (c.tasks.getD x.1 default).itemIdx
                    (c.tasks.getD x.1 default).attempts).2)])
              (c.tasks.getD x.1 default) x.1 = 4 := hw_new
          have hw_rl : weight (c.micro
              ++ [Micro.retryLoop x.1
                  ((P.beh (c.tasks.getD x.1 default).itemIdx
                    (c.tasks.getD x.1 default).attempts).2)])
              ({ c.tasks.getD x.1 default with procPending := false }) x.1
              = 3 := by
            refine weight_waitRL hfin hrs rfl ?_
            rw [cntRL_append, cntRL_singleton, isRLfor_retryLoop,
              beq_self_eq_true, hnil]
            rfl
          rw [hw_mid, hw_rl] at hst
          show 7 * (data.length
                - (c.tasks.set x.1
                    ({ c.tasks.getD x.1 default with procPending := false })).length)
              + wsum (c.micro
                  ++ [Micro.retryLoop x.1
                      ((P.beh (c.tasks.getD x.1 default).itemIdx
                        (c.tasks.getD x.1 default).attempts).2)]) 0
                (c.tasks.set x.1
                  ({ c.tasks.getD x.1 default with procPending := false }))
            < 7 * (data.length - c.tasks.length) + wsum c.micro 0 c.tasks
          rw [List.length_set]
          omega
        · -- raw processor: race subscriber queued directly
          have hqq : ∀ j, j ≠ x.1 → cntRL c.micro j
              = cntRL (c.micro
                  ++ [Micro.raceReact x.1
                      ((P.beh (c.tasks.getD x.1 default).itemIdx
                        (c.tasks.getD x.1 default).attempts).2.mapError
                        JsErr.procErr)]) j := by
            intro j hne
            rw [cntRL_append, cntRL_singleton, isRLfor_raceReact]
            rfl
          have hch := wsum_queue_change c.micro
            (c.micro
              ++ [Micro.raceReact x.1
                  ((P.beh (c.tasks.getD x.1 default).itemIdx
                    (c.tasks.getD x.1 default).attempts).2.mapError
                    JsErr.procErr)]) x.1 c.tasks 0
            (Nat.zero_le x.1) (by omega) hqq
          have hw_old : weight c.micro (c.tasks.getD (x.1 - 0) default) x.1 = 4 :=
            weight_pending hfin hrs hpp
          have hw_new : weight (c.micro
              ++ [Micro.raceReact x.1
                  ((P.beh (c.tasks.getD x.1 default).itemIdx
                    (c.tasks.getD x.1 default).attempts).2.mapError
                    JsErr.procErr)])
              (c.tasks.getD (x.1 - 0) default) x.1 = 4 :=
            weight_pending hfin hrs hpp
          rw [hw_old, hw_new] at hch
          have hst : wsum (c.micro
                ++ [Micro.raceReact x.1
                    ((P.beh (c.tasks.getD x.1 default).itemIdx
                      (c.tasks.getD x.1 default).attempts).2.mapError
                      JsErr.procErr)]) 0
                (c.tasks.set x.1
                  ({ c.tasks.getD x.1 default with procPending := false }))
                + weight (c.micro
                  ++ [Micro.raceReact x.1
                      ((P.beh (c.tasks.getD x.1 default).itemIdx
                        (c.tasks.getD x.1 default).attempts).2.mapError
                        JsErr.procErr)])
                  (c.tasks.getD x.1 default) (0 + x.1)
              = wsum (c.micro
                  ++ [Micro.raceReact x.1
                      ((P.beh (c.tasks.getD x.1 default).itemIdx
                        (c.tasks.getD x.1 default).attempts).2.mapError
                        JsErr.procErr)]) 0 c.tasks
                + weight (c.micro
                  ++ [Micro.raceReact x.1
                      ((P.beh (c.tasks.getD x.1 default).itemIdx
                        (c.tasks.getD x.1 default).attempts).2.mapError
                        JsErr.procErr)])
                  ({ c.tasks.getD x.1 default with procPending := false })
                  (0 + x.1) :=
            wsum_set c.tasks x.1 0 htid
          rw [Nat.zero_add] at hst
          have hw_mid : weight (c.micro
              ++ [Micro.raceReact x.1
                  ((P.beh (c.tasks.getD x.1 default).itemIdx
                    (c.tasks.getD x.1 default).attempts).2.mapError
                    JsErr.procErr)])
              (c.tasks.getD x.1 default) x.1 = 4 := hw_new
          have hw_rr : weight (c.micro
              ++ [Micro.raceReact x.1
                  ((P.beh (c.tasks.getD x.1 default).itemIdx
                    (c.tasks.getD x.1 default).attempts).2.mapError
                    JsErr.procErr)])
              ({ c.tasks.getD x.1 default with procPending := false }) x.1
              = 2 := by
            refine weight_waitRR hfin hrs rfl ?_
            rw [cntRL_append, cntRL_singleton, isRLfor_raceReact, hnil]
            rfl
          rw [hw_mid, hw_rr] at hst
          show 7 * (data.length
                - (c.tasks.set x.1
                    ({ c.tasks.getD x.1 default with procPending := false })).length)
              + wsum (c.micro
                  ++ [Micro.raceReact x.1
                      ((P.beh (c.tasks.getD x.1 default).itemIdx
                        (c.tasks.getD x.1 default).attempts).2.mapError
                        JsErr.procErr)]) 0
                (c.tasks.set x.1
                  ({ c.tasks.getD x.1 default with procPending := false }))
            < 7 * (data.length - c.tasks.length) + wsum c.micro 0 c.tasks
          rw [List.length_set]
          omega

/-- Every event-loop step of a timer-free, retry-free run strictly decreases
the termination measure. -/
theorem muM_decreases {P : Params ε ρ} {data : List α} {c c' : Conf α ε ρ}
    (hIA : InvA P data c) (hI : Inv2 P c) (hs : step P c = some c') :
    muM data c' < muM data c := by
  rcases step_cases hs with ⟨m, rest, hm, hc'⟩ | ⟨hnil, x, hpick, hmem, hc'⟩
  · subst hc'
    cases m with
    | drvLaunch i => exact mu_launch hIA hI hm
    | retryLoop tid out => exact mu_retryLoop hIA hI hm
    | raceReact tid out => exact mu_raceReact hIA hI hm
    | taskCont tid out => exact mu_taskCont hIA hI hm
  · subst hc'
    exact mu_fire hIA hI hnil hmem

/-! ## Reaching quiescence, and what a quiescent configuration looks like -/

theorem pickMin_eq_none : ∀ {l : List (Nat × Bool × Nat)},
    pickMin l = none → l = []
  | [], _ => rfl
  | x :: xs, h => by
      unfold pickMin at h
      cases hp : pickMin xs with
      | none => rw [hp] at h; cases h
      | some y => rw [hp] at h; cases h

theorem externalsFrom_eq_nil : ∀ {k : Nat} {ts : List TaskState},
    externalsFrom k ts = [] →
    ∀ t ∈ ts, t.procPending = false ∧ t.timerPending = false
  | _, [], _ => by intro t ht; simp at ht
  | k, t :: ts, h => by
      unfold externalsFrom at h
      obtain ⟨hab, hc⟩ := List.append_eq_nil.mp h
      obtain ⟨ha, hb⟩ := List.append_eq_nil.mp hab
      intro t' ht'
      rcases List.mem_cons.mp ht' with he | hmem
      · subst he
        constructor
        · by_contra hp
          rw [Bool.not_eq_false] at hp
          rw [hp] at ha
          simp at ha
        · by_contra hp
          rw [Bool.not_eq_false] at hp
          rw [hp] at hb
          simp at hb
      · exact externalsFrom_eq_nil hc t' hmem

/-- A quiescent configuration has an empty microtask queue and no pending
external events. -/
theorem quiescent_no_micro_no_ext {P : Params ε ρ} {c : Conf α ε ρ}
    (hq : step P c = none) : c.micro = [] ∧ externals c = [] := by
  unfold step at hq
  cases hm : c.micro with
  | cons m rest => rw [hm] at hq; cases hq
  | nil =>
      rw [hm] at hq
      refine ⟨rfl, ?_⟩
      cases hx : pickMin (externals c) with
      | some y => rw [hx] at hq; cases hq
      | none => exact pickMin_eq_none hx

theorem getD_mem {τ : Type} :
    ∀ (l : List τ) (i : Nat) (d : τ), i < l.length → l.getD i d ∈ l
  | [], i, d, h => by simp at h
  | a :: t, 0, d, _ => List.mem_cons_self _ _
  | a :: t, i + 1, d, h =>
      List.mem_cons_of_mem a (getD_mem t i d (by simpa using h))

theorem countP_eq_length_of {τ : Type} {p : τ → Bool} :
    ∀ {l : List τ}, (∀ x ∈ l, p x = true) → l.countP p = l.length
  | [], _ => rfl
  | a :: t, h => by
      have ht : t.countP p = t.length :=
        countP_eq_length_of fun x hx => h x (List.mem_cons_of_mem a hx)
      rw [List.countP_cons, ht, h a (List.mem_cons_self a t), List.length_cons,
        if_true_nat]

/-- At quiescence of a timer-free, retry-free run with concurrency at least
1, every item of the input has been admitted and has finished, and the
bookkeeping agrees. -/
theorem quiescent_all_finished {P : Params ε ρ} {data : List α}
    {c : Conf α ε ρ}
    (hIA : InvA P data c) (hI : Inv2 P c) (hC : 1 ≤ P.concurrency)
    (hq : step P c = none) :
    c.tasks.length = data.length ∧
    finishedCount c.tasks = data.length ∧
    c.processedEntries = data.length ∧
    c.inFlightTasks = 0 ∧
    (∀ tid, tid < data.length → (c.tasks.getD tid default).finished = true) := by
  obtain ⟨hmic, hext⟩ := quiescent_no_micro_no_ext hq
  have hppall : ∀ t ∈ c.tasks, t.procPending = false ∧ t.timerPending = false :=
    externalsFrom_eq_nil hext
  have hppidx : ∀ tid, tid < c.tasks.length →
      (c.tasks.getD tid default).procPending = false := by
    intro tid htid
    exact (hppall _ (getD_mem c.tasks tid default htid)).1
  have hfinidx : ∀ tid, tid < c.tasks.length →
      (c.tasks.getD tid default).finished = true := by
    intro tid htid
    rcases hI.phases tid htid with ⟨h1, _, _, _⟩ | ⟨h1, h2, _, _, _⟩
      | ⟨_, _, _, ⟨h4, _⟩ | ⟨_, h5⟩⟩ | ⟨_, _, h3, _, _⟩
    · exact h1
    · have htc := hIA.tc_linear tid
      rw [hmic, h1, h2, if_false_nat, if_true_nat] at htc
      have hz : cntTC ([] : List (Micro ε ρ)) tid = 0 := rfl
      omega
    · rw [hmic] at h4
      have hz : cntRL ([] : List (Micro ε ρ)) tid = 0 := rfl
      omega
    · rw [hmic] at h5
      have hz : cntRR ([] : List (Micro ε ρ)) tid = 0 := rfl
      omega
    · have hpf := hppidx tid htid
      rw [hpf] at h3
      exact Bool.noConfusion h3
  have hfc : finishedCount c.tasks = c.tasks.length := by
    refine countP_eq_length_of fun t ht => ?_
    obtain ⟨i, hi, hgi⟩ := List.mem_iff_getElem.mp ht
    have hfi := hfinidx i hi
    rw [List.getD_eq_getElem c.tasks default hi, hgi] at hfi
    exact hfi
  have hlen : c.tasks.length = data.length := by
    by_contra hne
    have hlt : c.tasks.length < data.length :=
      Nat.lt_of_le_of_ne hIA.len_le hne
    have hwat : c.watchers = false := by
      cases hw : c.watchers
      · rfl
      · have := hIA.watchers_iff.1 hw
        omega
    have htok := hIA.drv_token
    rw [hwat, hmic, if_false_nat] at htok
    have hcd : cntDrv ([] : List (Micro ε ρ)) = 0 := rfl
    rw [hcd] at htok
    have hsome : c.drvWaiting.isSome = true := by
      cases hw2 : c.drvWaiting with
      | none => rw [hw2] at htok; simp at htok
      | some j => rfl
    have hge := hIA.wait_ge hsome
    have hfe := hIA.flight_eq
    rw [hfc] at hfe
    omega
  refine ⟨hlen, ?_, ?_, ?_, ?_⟩
  · rw [hfc, hlen]
  · rw [hIA.processed_eq, hfc, hlen]
  · have hfe := hIA.flight_eq
    rw [hfc] at hfe
    omega
  · intro tid htid
    exact hfinidx tid (by omega)

/-- Within `muM` steps, a timer-free, retry-free run reaches quiescence,
with both invariants intact. -/
theorem exists_quiescent {P : Params ε ρ} {data : List α}
    (ht0 : P.timeout = 0) (hsafe : RLSafe P) :
    ∀ (k : Nat) (c : Conf α ε ρ), muM data c ≤ k →
      InvA P data c → Inv2 P c →
      ∃ n, step P (runPool P c n) = none ∧ InvA P data (runPool P c n) ∧
        Inv2 P (runPool P c n)
  | 0, c, hmu, hIA, hI2 => by
      cases hs : step P c with
      | none => exact ⟨0, hs, hIA, hI2⟩
      | some c' =>
          have := muM_decreases hIA hI2 hs
          omega
  | k + 1, c, hmu, hIA, hI2 => by
      cases hs : step P c with
      | none => exact ⟨0, hs, hIA, hI2⟩
      | some c' =>
          have hlt := muM_decreases hIA hI2 hs
          obtain ⟨n, hn, hA, h2⟩ := exists_quiescent ht0 hsafe k c' (by omega)
            (invA_step hIA (noAbort_of_inv2 hI2) hs)
            (inv2_step ht0 hsafe hIA hI2 hs)
          refine ⟨n + 1, ?_, ?_, ?_⟩ <;> rw [runPool_succ_of_step hs]
          · exact hn
          · exact hA
          · exact h2

/-! ## The all-success invariant -/

theorem launchStep_results (P : Params ε ρ) (c : Conf α ε ρ) (i : Nat) :
    (launchStep P c i).results = c.results := by
  unfold launchStep
  simp only []
  split
  · split <;> rfl
  · rfl

theorem launchStep_settled (P : Params ε ρ) (c : Conf α ε ρ) (i : Nat) :
    (launchStep P c i).settled = c.settled := by
  unfold launchStep
  simp only []
  split
  · split <;> rfl
  · rfl

/-- Replacing a task record without touching its `finished` flag keeps the
finished count. -/
theorem finishedCount_set_eq {l : List TaskState} {tid : Nat} {x : TaskState}
    (h : x.finished = (l.getD tid default).finished) :
    finishedCount (l.set tid x) = finishedCount l := by
  by_cases htid : tid < l.length
  · have hcs := countP_set (fun t => t.finished) l tid x default htid
    have h2 : ((fun (t : TaskState) => t.finished) x)
        = ((fun (t : TaskState) => t.finished) (l.getD tid default)) := h
    rw [h2] at hcs
    unfold finishedCount
    omega
  · rw [set_eq_of_length_le _ _ _ (Nat.le_of_not_lt htid)]

theorem taskContStep_results_ok (c : Conf α ε ρ) (tid : Nat) (r : ρ) :
    (taskContStep c tid (Except.ok r)).results = c.results ++ [r] := by
  unfold taskContStep
  simp only []
  split <;> simp

/-- When the `finally` block of a successful task is not the last one, the
FINISH check of line 550 fails and the batch promise is untouched. -/
theorem taskContStep_settled_ok_noFinish (c : Conf α ε ρ) (tid : Nat) (r : ρ)
    (h : ¬(c.inFlightTasks - 1 = 0
      ∧ c.processedEntries + 1 = c.dataArr.length)) :
    (taskContStep c tid (Except.ok r)).settled = c.settled := by
  unfold taskContStep
  simp only []
  split
  · rename_i hcond
    exfalso
    refine h ⟨?_, ?_⟩
    · have h1 := hcond.1
      rw [emitTaskCompleted_inFlightTasks] at h1
      exact h1
    · have h2 := hcond.2
      rw [emitTaskCompleted_processedEntries, emitTaskCompleted_dataArr] at h2
      exact h2
  · rw [emitTaskCompleted_settled]

/-- The `finally` block of the last task fires FINISH, which settles the
batch promise successfully when the watchers are registered and it is still
pending. -/
theorem taskContStep_settled_ok_finish (c : Conf α ε ρ) (tid : Nat) (r : ρ)
    (h1 : c.inFlightTasks - 1 = 0)
    (h2 : c.processedEntries + 1 = c.dataArr.length)
    (hw : c.watchers = true) (hs : c.settled = none) :
    (taskContStep c tid (Except.ok r)).settled = some Settle.resolvedArr := by
  unfold taskContStep
  simp only []
  split
  · rw [emitFinish_fire (by rw [emitTaskCompleted_watchers]; exact hw)
      (by rw [emitTaskCompleted_settled]; exact hs)]
  · rename_i hcond
    exfalso
    refine hcond ⟨?_, ?_⟩
    · rw [emitTaskCompleted_inFlightTasks]
      exact h1
    · rw [emitTaskCompleted_processedEntries, emitTaskCompleted_dataArr]
      exact h2

/-- The initial configuration satisfies the all-success invariant. -/
theorem inv3_init (P : Params ε ρ) (data : List α) :
    Inv3 data.length (initConf P data : Conf α ε ρ) := by
  unfold initConf
  split
  · rename_i h0
    refine ⟨?_, ?_, rfl, ?_⟩
    · intro j o hmem
      simp at hmem
    · intro j o hmem
      simp at hmem
    · have hz : finishedCount ([] : List TaskState) = 0 := rfl
      show some Settle.resolvedArr
        = if finishedCount ([] : List TaskState) = data.length
          then some Settle.resolvedArr else none
      rw [hz, if_pos h0.symm]
  · rename_i h0
    split
    · refine ⟨?_, ?_, rfl, ?_⟩
      · intro j o hmem
        simp at hmem
      · intro j o hmem
        simp at hmem
      · have hz : finishedCount ([] : List TaskState) = 0 := rfl
        show (none : Option (Settle ε))
          = if finishedCount ([] : List TaskState) = data.length
            then some Settle.resolvedArr else none
        rw [hz, if_neg (fun hh => h0 hh.symm)]
    · refine ⟨?_, ?_, rfl, ?_⟩
      · intro j o hmem
        simp at hmem
      · intro j o hmem
        simp at hmem
      · have hz : finishedCount ([] : List TaskState) = 0 := rfl
        show (none : Option (Settle ε))
          = if finishedCount ([] : List TaskState) = data.length
            then some Settle.resolvedArr else none
        rw [hz, if_neg (fun hh => h0 hh.symm)]

/-- Any single step of an all-success run preserves the all-success
invariant. -/
theorem inv3_step {P : Params ε ρ} {data : List α} {c c' : Conf α ε ρ}
    (hok : ∀ i a, ∃ r, (P.beh i a).2 = Except.ok r)
    (hIA : InvA P data c) (hI2 : Inv2 P c) (hI3 : Inv3 data.length c)
    (hs : step P c = some c') : Inv3 data.length c' := by
  rcases step_cases hs with ⟨m, rest, hm, hc'⟩ | ⟨hnil, x, hpick, hmem, hc'⟩
  · subst hc'
    cases m with
    | drvLaunch i =>
        show Inv3 data.length (launchStep P { c with micro := rest } i)
        have hmic2 : (launchStep P { c with micro := rest } i).micro
              = rest ++ launchMicro P c.tasks.length i ∨
            (launchStep P { c with micro := rest } i).micro
              = rest ++ launchMicro P c.tasks.length i
                ++ [Micro.drvLaunch (i + 1)] :=
          launchStep_micro P _ i
        have hmemLM : ∀ m', m' ∈ (launchStep P { c with micro := rest } i).micro →
            m' ∈ rest ∨ m' ∈ launchMicro P c.tasks.length i ∨
              m' = Micro.drvLaunch (i + 1) := by
          intro m' hm'
          rcases hmic2 with h | h
          · rw [h] at hm'
            rcases List.mem_append.1 hm' with h1 | h1
            · exact Or.inl h1
            · exact Or.inr (Or.inl h1)
          · rw [h] at hm'
            rcases List.mem_append.1 hm' with h1 | h1
            · rcases List.mem_append.1 h1 with h2 | h2
              · exact Or.inl h2
              · exact Or.inr (Or.inl h2)
            · refine Or.inr (Or.inr ?_)
              simpa using h1
        refine ⟨?_, ?_, ?_, ?_⟩
        · intro j o hmem'
          rcases hmemLM _ hmem' with h1 | h1 | h1
          · exact hI3.rr_ok j o (by rw [hm]; exact List.mem_cons_of_mem _ h1)
          · revert h1
            unfold launchMicro
            split
            · intro h1; simp at h1
            · split
              · intro h1; simp at h1
              · intro h1
                simp at h1
                obtain ⟨hj, ho⟩ := h1
                obtain ⟨r, hr⟩ := hok i 0
                refine ⟨r, ?_⟩
                rw [ho, hr]
                rfl
          · cases h1
        · intro j o hmem'
          rcases hmemLM _ hmem' with h1 | h1 | h1
          · exact hI3.tc_ok j o (by rw [hm]; exact List.mem_cons_of_mem _ h1)
          · revert h1
            unfold launchMicro
            split
            · intro h1; simp at h1
            · split
              · intro h1; simp at h1
              · intro h1; simp at h1
          · cases h1
        · rw [launchStep_results, launchStep_tasks, finishedCount_append]
          show c.results.length
            = finishedCount c.tasks + finishedCount [launchTask P c.time i]
          rw [show finishedCount [launchTask P c.time i] = 0 from rfl,
            Nat.add_zero]
          exact hI3.results_len
        · rw [launchStep_settled, launchStep_tasks, finishedCount_append]
          show c.settled = if finishedCount c.tasks
              + finishedCount [launchTask P c.time i] = data.length
            then some Settle.resolvedArr else none
          rw [show finishedCount [launchTask P c.time i] = 0 from rfl,
            Nat.add_zero]
          exact hI3.settled_spec
    | retryLoop tid out =>
        obtain ⟨r, hr⟩ := hI2.rl_ok tid out
          (by rw [hm]; exact List.mem_cons_self _ _)
        subst hr
        show Inv3 data.length (pushMicro { c with micro := rest }
          [Micro.raceReact tid (Except.ok r)])
        refine ⟨?_, ?_, hI3.results_len, hI3.settled_spec⟩
        · intro j o hmem'
          have hmem2 : Micro.raceReact j o
              ∈ rest ++ [Micro.raceReact tid (Except.ok r)] := hmem'
          rcases List.mem_append.1 hmem2 with h1 | h1
          · exact hI3.rr_ok j o (by rw [hm]; exact List.mem_cons_of_mem _ h1)
          · simp at h1
            exact ⟨r, h1.2⟩
        · intro j o hmem'
          have hmem2 : Micro.taskCont j o
              ∈ rest ++ [Micro.raceReact tid (Except.ok r)] := hmem'
          rcases List.mem_append.1 hmem2 with h1 | h1
          · exact hI3.tc_ok j o (by rw [hm]; exact List.mem_cons_of_mem _ h1)
          · simp at h1
    | raceReact tid out =>
        show Inv3 data.length (raceReactStep { c with micro := rest } tid out)
        obtain ⟨r, hr⟩ := hI3.rr_ok tid out
          (by rw [hm]; exact List.mem_cons_self _ _)
        unfold raceReactStep
        split
        · exact ⟨fun j o hmem' =>
              hI3.rr_ok j o (by rw [hm]; exact List.mem_cons_of_mem _ hmem'),
            fun j o hmem' =>
              hI3.tc_ok j o (by rw [hm]; exact List.mem_cons_of_mem _ hmem'),
            hI3.results_len, hI3.settled_spec⟩
        · have hfcs : finishedCount (c.tasks.set tid
              ({ c.tasks.getD tid default with raceSettled := true }))
              = finishedCount c.tasks := finishedCount_set_eq rfl
          refine ⟨?_, ?_, ?_, ?_⟩
          · intro j o hmem'
            have hmem2 : Micro.raceReact j o
                ∈ rest ++ [Micro.taskCont tid out] := hmem'
            rcases List.mem_append.1 hmem2 with h1 | h1
            · exact hI3.rr_ok j o (by rw [hm]; exact List.mem_cons_of_mem _ h1)
            · simp at h1
          · intro j o hmem'
            have hmem2 : Micro.taskCont j o
                ∈ rest ++ [Micro.taskCont tid out] := hmem'
            rcases List.mem_append.1 hmem2 with h1 | h1
            · exact hI3.tc_ok j o (by rw [hm]; exact List.mem_cons_of_mem _ h1)
            · simp at h1
              obtain ⟨hj, ho⟩ := h1
              exact ⟨r, by rw [ho, hr]⟩
          · show c.results.length = finishedCount (c.tasks.set tid
              ({ c.tasks.getD tid default with raceSettled := true }))
            rw [hfcs]
            exact hI3.results_len
          · show c.settled = if finishedCount (c.tasks.set tid
                ({ c.tasks.getD tid default with raceSettled := true }))
                = data.length
              then some Settle.resolvedArr else none
            rw [hfcs]
            exact hI3.settled_spec
    | taskCont tid out =>
        obtain ⟨r, hr⟩ := hI3.tc_ok tid out
          (by rw [hm]; exact List.mem_cons_self _ _)
        subst hr
        show Inv3 data.length
          (taskContStep { c with micro := rest } tid (Except.ok r))
        have htid : tid < c.tasks.length :=
          hIA.micro_tid (Micro.taskCont tid (Except.ok r))
            (by rw [hm]; exact List.mem_cons_self _ _) tid rfl
        have hTCt : isTCfor tid
            (Micro.taskCont tid (Except.ok r) : Micro ε ρ) = true := by
          rw [show isTCfor tid (Micro.taskCont tid (Except.ok r) : Micro ε ρ)
            = (tid == tid) from rfl]
          exact beq_self_eq_true tid
        have h2 := hIA.tc_linear tid
        rw [hm, cntTC_cons, hTCt, if_true_nat] at h2
        have hrs : (c.tasks.getD tid default).raceSettled = true := by
          by_contra hh
          rw [Bool.not_eq_true] at hh
          rw [hh, if_false_nat] at h2
          omega
        have hfin : (c.tasks.getD tid default).finished = false := by
          by_contra hh
          rw [Bool.not_eq_false] at hh
          rw [hrs, if_true_nat, hh, if_true_nat] at h2
          omega
        have hset : finishedCount (c.tasks.set tid
            ({ c.tasks.getD tid default with finished := true }))
            = finishedCount c.tasks + 1 := by
          have hset0 := countP_set (fun t => t.finished) c.tasks tid
            ({ c.tasks.getD tid default with finished := true }) default htid
          have hXtrue : ((fun (t : TaskState) => t.finished)
              ({ c.tasks.getD tid default with finished := true })) = true := rfl
          have hXold : ((fun (t : TaskState) => t.finished)
              (c.tasks.getD tid default)) = false := hfin
          rw [hXtrue, hXold, if_false_nat, if_true_nat] at hset0
          unfold finishedCount
          omega
        have hFlt : finishedCount c.tasks + 1 ≤ c.tasks.length := by
          have h5 : List.countP (fun t => t.finished) (c.tasks.set tid
              ({ c.tasks.getD tid default with finished := true }))
              ≤ (c.tasks.set tid
                ({ c.tasks.getD tid default with finished := true })).length :=
            List.countP_le_length _
          rw [List.length_set] at h5
          have h6 : finishedCount (c.tasks.set tid
              ({ c.tasks.getD tid default with finished := true }))
              ≤ c.tasks.length := h5
          omega
        have hsetd : c.settled = none := by
          rw [hI3.settled_spec, if_neg]
          have := hIA.len_le
          omega
        have rtasks : (taskContStep { c with micro := rest } tid
            (Except.ok r)).tasks
            = c.tasks.set tid
              ({ c.tasks.getD tid default with finished := true }) :=
          taskContStep_tasks _ _ _
        have rmicro : ∃ ms, (taskContStep { c with micro := rest } tid
            (Except.ok r)).micro
            = rest ++ ms ∧ (ms = [] ∨ ∃ i, ms = [Micro.drvLaunch i]) := by
          cases hw : c.drvWaiting with
          | none =>
              refine ⟨[], ?_, Or.inl rfl⟩
              rw [List.append_nil]
              exact taskContStep_micro_none rfl
          | some i =>
              exact ⟨[Micro.drvLaunch i], taskContStep_micro_some rfl,
                Or.inr ⟨i, rfl⟩⟩
        obtain ⟨ms, hms, hmscase⟩ := rmicro
        refine ⟨?_, ?_, ?_, ?_⟩
        · intro j o hmem'
          rw [hms] at hmem'
          rcases List.mem_append.1 hmem' with h1 | h1
          · exact hI3.rr_ok j o (by rw [hm]; exact List.mem_cons_of_mem _ h1)
          · rcases hmscase with hq1 | ⟨ii, hq1⟩ <;> rw [hq1] at h1 <;> simp at h1
        · intro j o hmem'
          rw [hms] at hmem'
          rcases List.mem_append.1 hmem' with h1 | h1
          · exact hI3.tc_ok j o (by rw [hm]; exact List.mem_cons_of_mem _ h1)
          · rcases hmscase with hq1 | ⟨ii, hq1⟩ <;> rw [hq1] at h1 <;> simp at h1
        · have rres : (taskContStep { c with micro := rest } tid
              (Except.ok r)).results = c.results ++ [r] :=
            taskContStep_results_ok _ _ _
          rw [rres, rtasks, List.length_append, hset]
          simp only [List.length_cons, List.length_nil]
          have hrl := hI3.results_len
          omega
        · by_cases hFN : finishedCount c.tasks + 1 = data.length
          · have hlenN : c.tasks.length = data.length := by
              have := hIA.len_le
              omega
            have hwat : c.watchers = true := hIA.watchers_iff.2 hlenN
            have hflight : c.inFlightTasks - 1 = 0 := by
              have hfe := hIA.flight_eq
              omega
            have hproc : c.processedEntries + 1 = c.dataArr.length := by
              rw [hIA.data_pres, hIA.processed_eq]
              omega
            have hfin2 := taskContStep_settled_ok_finish
              ({ c with micro := rest } : Conf α ε ρ) tid r hflight hproc
              hwat hsetd
            rw [rtasks, hset, hfin2, if_pos hFN]
          · have hcondf : ¬(c.inFlightTasks - 1 = 0
                ∧ c.processedEntries + 1 = c.dataArr.length) := by
              intro hh
              have hp := hh.2
              rw [hIA.data_pres, hIA.processed_eq] at hp
              exact hFN hp
            have hfin2 := taskContStep_settled_ok_noFinish
              ({ c with micro := rest } : Conf α ε ρ) tid r hcondf
            rw [rtasks, hset, hfin2, if_neg hFN, hsetd]
  · subst hc'
    have hxt := @mem_externalsFrom x 0 c.tasks hmem
    have htid : x.1 < c.tasks.length := by
      have := hxt.2.1
      simpa using this
    cases hb : x.2.1 with
    | true =>
        have htp : (c.tasks.getD x.1 default).timerPending = true := by
          have := (hxt.2.2.2 hb).1
          simpa using this
        have h0 := hI2.no_timer x.1
        rw [h0] at htp
        exact Bool.noConfusion htp
    | false =>
        unfold fireExternal
        split
        · rename_i hT
          rw [hb] at hT
          exact Bool.noConfusion hT
        · simp only []
          have hfcs : finishedCount (c.tasks.set x.1
              ({ c.tasks.getD x.1 default with procPending := false }))
              = finishedCount c.tasks := finishedCount_set_eq rfl
          split
          · refine ⟨?_, ?_, ?_, ?_⟩
            · intro j o hmem'
              have hmem2 : Micro.raceReact j o ∈ c.micro
                  ++ [Micro.retryLoop x.1
                      ((P.beh (c.tasks.getD x.1 default).itemIdx
                        (c.tasks.getD x.1 default).attempts).2)] := hmem'
              rw [hnil] at hmem2
              simp at hmem2
            · intro j o hmem'
              have hmem2 : Micro.taskCont j o ∈ c.micro
                  ++ [Micro.retryLoop x.1
                      ((P.beh (c.tasks.getD x.1 default).itemIdx
                        (c.tasks.getD x.1 default).attempts).2)] := hmem'
              rw [hnil] at hmem2
              simp at hmem2
            · show c.results.length = finishedCount (c.tasks.set x.1
                ({ c.tasks.getD x.1 default with procPending := false }))
              rw [hfcs]
              exact hI3.results_len
            · show c.settled = if finishedCount (c.tasks.set x.1
                  ({ c.tasks.getD x.1 default with procPending := false }))
                  = data.length
                then some Settle.resolvedArr else none
              rw [hfcs]
              exact hI3.settled_spec
          · refine ⟨?_, ?_, ?_, ?_⟩
            · intro j o hmem'
              have hmem2 : Micro.raceReact j o ∈ c.micro
                  ++ [Micro.raceReact x.1
                      ((P.beh (c.tasks.getD x.1 default).itemIdx
                        (c.tasks.getD x.1 default).attempts).2.mapError
                        JsErr.procErr)] := hmem'
              rw [hnil, List.nil_append] at hmem2
              have heq := List.eq_of_mem_singleton hmem2
              rw [Micro.raceReact.injEq] at heq
              obtain ⟨hj, ho⟩ := heq
              obtain ⟨r, hr⟩ := hok (c.tasks.getD x.1 default).itemIdx
                (c.tasks.getD x.1 default).attempts
              refine ⟨r, ?_⟩
              rw [ho, hr]
              rfl
            · intro j o hmem'
              have hmem2 : Micro.taskCont j o ∈ c.micro
                  ++ [Micro.raceReact x.1
                      ((P.beh (c.tasks.getD x.1 default).itemIdx
                        (c.tasks.getD x.1 default).attempts).2.mapError
                        JsErr.procErr)] := hmem'
              rw [hnil] at hmem2
              simp at hmem2
            · show c.results.length = finishedCount (c.tasks.set x.1
                ({ c.tasks.getD x.1 default with procPending := false }))
              rw [hfcs]
              exact hI3.results_len
            · show c.settled = if finishedCount (c.tasks.set x.1
                  ({ c.tasks.getD x.1 default with procPending := false }))
                  = data.length
                then some Settle.resolvedArr else none
              rw [hfcs]
              exact hI3.settled_spec

/-- Within `muM` steps, an all-success run reaches quiescence with all three
invariants intact. -/
theorem exists_quiescent_ok {P : Params ε ρ} {data : List α}
    (ht0 : P.timeout = 0)
    (hok : ∀ i a, ∃ r, (P.beh i a).2 = Except.ok r) :
    ∀ (k : Nat) (c : Conf α ε ρ), muM data c ≤ k →
      InvA P data c → Inv2 P c → Inv3 data.length c →
      ∃ n, step P (runPool P c n) = none ∧ InvA P data (runPool P c n) ∧
        Inv2 P (runPool P c n) ∧ Inv3 data.length (runPool P c n)
  | 0, c, hmu, hIA, hI2, hI3 => by
      cases hs : step P c with
      | none => exact ⟨0, hs, hIA, hI2, hI3⟩
      | some c' =>
          have := muM_decreases hIA hI2 hs
          omega
  | k + 1, c, hmu, hIA, hI2, hI3 => by
      cases hs : step P c with
      | none => exact ⟨0, hs, hIA, hI2, hI3⟩
      | some c' =>
          have hlt := muM_decreases hIA hI2 hs
          obtain ⟨n, hn, hA, h2, h3⟩ := exists_quiescent_ok ht0 hok k c'
            (by omega)
            (invA_step hIA (noAbort_of_inv2 hI2) hs)
            (inv2_step ht0 (Or.inr hok) hIA hI2 hs)
            (inv3_step hok hIA hI2 hI3 hs)
          refine ⟨n + 1, ?_, ?_, ?_, ?_⟩ <;> rw [runPool_succ_of_step hs]
          · exact hn
          · exact hA
          · exact h2
          · exact h3

/-! ## Claim C2 — all-success runs settle with `N` results -/

/-- Claim C2: for every input sequence of length `N ≥ 0` and every
concurrency `C ≥ 1`, with no timeout configured (the builder's default) and
a processor that succeeds on every input — immediately-resolving promises
included, and regardless of the per-item settle delays, which determine the
completion order — `mapAsync` reaches quiescence with the batch promise
resolved and exactly `N` entries in the results collection. -/
theorem c2_all_success_yields_full_results :
    ∀ (α ε ρ : Type) (P : Params ε ρ) (data : List α),
      1 ≤ P.concurrency → P.timeout = 0 →
      (∀ i a, ∃ r, (P.beh i a).2 = Except.ok r) →
      ∃ n, Quiescent P (runPool P (initConf P data) n) ∧
        (runPool P (initConf P data) n).settled = some Settle.resolvedArr ∧
        (runPool P (initConf P data) n).results.length = data.length := by
  intro α ε ρ P data hC ht0 hok
  by_cases hd : data = []
  · subst hd
    exact ⟨0, rfl, rfl, rfl⟩
  · obtain ⟨n, hq, hA, h2, h3⟩ := exists_quiescent_ok ht0 hok
      (muM data (initConf P data)) (initConf P data) (Nat.le_refl _)
      (invA_init hC hd) (inv2_init P data) (inv3_init P data)
    obtain ⟨hlen, hfc, hproc, hflight, hfin⟩ :=
      quiescent_all_finished hA h2 hC hq
    refine ⟨n, hq, ?_, ?_⟩
    · rw [h3.settled_spec, if_pos hfc]
    · rw [h3.results_len, hfc]

/-- Witness for C2: a concrete always-successful three-item run at
concurrency 2. -/
theorem c2_all_success_yields_full_results_witness :
    (1 : Int) ≤ prmAllOk.concurrency ∧ prmAllOk.timeout = 0 ∧
    ∃ n, Quiescent prmAllOk (runPool prmAllOk (initConf prmAllOk [1, 2, 3]) n) ∧
      (runPool prmAllOk (initConf prmAllOk [1, 2, 3]) n).settled
        = some Settle.resolvedArr ∧
      (runPool prmAllOk (initConf prmAllOk [1, 2, 3]) n).results.length
        = ([1, 2, 3] : List Nat).length :=
  ⟨by decide, rfl,
    c2_all_success_yields_full_results Nat Nat Nat prmAllOk [1, 2, 3]
      (by decide) rfl (fun i a => ⟨i + 40, rfl⟩)⟩

/-! ## Claim C3 — amended: no-stop error propagation -/

/-- Claim C3 amended: with stop-on-failure disabled (and no timeout), every
task still runs to its own terminal outcome — the run reaches quiescence
with every input processed and every task's `finally` block executed,
regardless of other tasks' failures.  However, the batch's outcome on
failure is *not* the last recorded terminal error: the promise rejects with
the error held in `this.error` at the moment the first post-registration
ERROR emission fires, while later failures only overwrite `this.error`.
Concretely, with item 0 failing with error 3 at 1 ms and item 1 failing
with error 4 at 2 ms, the batch rejects with error 3 even though
`this.error` ends up holding error 4.  (The claim's success-only-if-no-
failure direction also fails: see the counterexample, where a
pre-registration failure is swallowed and the batch resolves.) -/
theorem c3_amended_no_stop_outcomes :
    ((runPool prmTwoFail (initConf prmTwoFail [8, 9]) 10).settled
        = some (Settle.rejectedWith (some (JsErr.procErr 3))) ∧
      (runPool prmTwoFail (initConf prmTwoFail [8, 9]) 10).errSlot
        = some (JsErr.procErr 4)) ∧
    (∀ (α ε ρ : Type) (P : Params ε ρ) (data : List α),
      P.allowStopOnFailure = false → P.timeout = 0 → 1 ≤ P.concurrency →
      ∃ n, Quiescent P (runPool P (initConf P data) n) ∧
        (runPool P (initConf P data) n).processedEntries = data.length ∧
        ∀ tid, tid < data.length →
          ((runPool P (initConf P data) n).tasks.getD tid default).finished
            = true) := by
  constructor
  · exact ⟨by decide, by decide⟩
  · intro α ε ρ P data hstop ht0 hC
    by_cases hd : data = []
    · subst hd
      refine ⟨0, rfl, rfl, ?_⟩
      intro tid htid
      simp at htid
    · obtain ⟨n, hq, hA, h2⟩ := exists_quiescent ht0 (Or.inl hstop)
        (muM data (initConf P data)) (initConf P data) (Nat.le_refl _)
        (invA_init hC hd) (inv2_init P data)
      obtain ⟨hlen, hfc, hproc, hflight, hfin⟩ :=
        quiescent_all_finished hA h2 hC hq
      exact ⟨n, hq, hproc, hfin⟩

/-- Witness for the amended C3: the two-failure run itself satisfies the
universal part's hypotheses. -/
theorem c3_amended_no_stop_outcomes_witness :
    prmTwoFail.allowStopOnFailure = false ∧ prmTwoFail.timeout = 0 ∧
    (1 : Int) ≤ prmTwoFail.concurrency ∧
    ∃ n, Quiescent prmTwoFail (runPool prmTwoFail
        (initConf prmTwoFail [8, 9]) n) ∧
      (runPool prmTwoFail (initConf prmTwoFail [8, 9]) n).processedEntries
        = ([8, 9] : List Nat).length ∧
      ∀ tid, tid < ([8, 9] : List Nat).length →
        ((runPool prmTwoFail (initConf prmTwoFail [8, 9]) n).tasks.getD tid
          default).finished = true :=
  ⟨rfl, rfl, by decide,
    c3_amended_no_stop_outcomes.2 Nat Nat Nat prmTwoFail [8, 9] rfl rfl
      (by decide)⟩

/-! ## Claim C8 — the timeout race -/

/-- Claim C8: with a timeout `D > 0` configured, each task races the
processor's promise against a `D` ms timer (`prmTimeout d out D` runs one
item whose processor settles after `d` ms with outcome `out`).  If the
processor settles first (`d < D`) its outcome is used: a success is pushed
into the results and the batch resolves, a failure becomes the batch's
rejection; the timer's later firing is ignored.  If the timer fires first
(`D < d`) the task's outcome is the synthetic timeout error — and the
processor invocation is not cancelled: at the point where the batch is
already rejected with the timeout error the processor promise is still
pending, and its eventual success is ignored, never entering the results. -/
theorem c8_timeout_race (d D v e : Nat) :
    (0 < d → d < D →
      (runPool (prmTimeout d (Except.ok v) D)
          (initConf (prmTimeout d (Except.ok v) D) [7]) 6).settled
          = some Settle.resolvedArr ∧
      (runPool (prmTimeout d (Except.ok v) D)
          (initConf (prmTimeout d (Except.ok v) D) [7]) 6).results = [v] ∧
      Quiescent (prmTimeout d (Except.ok v) D)
        (runPool (prmTimeout d (Except.ok v) D)
          (initConf (prmTimeout d (Except.ok v) D) [7]) 6)) ∧
    (0 < d → d < D →
      (runPool (prmTimeout d (Except.error e) D)
          (initConf (prmTimeout d (Except.error e) D) [7]) 6).settled
          = some (Settle.rejectedWith (some (JsErr.procErr e))) ∧
      (runPool (prmTimeout d (Except.error e) D)
          (initConf (prmTimeout d (Except.error e) D) [7]) 6).results = [] ∧
      Quiescent (prmTimeout d (Except.error e) D)
        (runPool (prmTimeout d (Except.error e) D)
          (initConf (prmTimeout d (Except.error e) D) [7]) 6)) ∧
    (0 < D → D < d →
      (runPool (prmTimeout d (Except.ok v) D)
          (initConf (prmTimeout d (Except.ok v) D) [7]) 6).settled
          = some (Settle.rejectedWith (some JsErr.timeoutErr)) ∧
      (runPool (prmTimeout d (Except.ok v) D)
          (initConf (prmTimeout d (Except.ok v) D) [7]) 6).results = [] ∧
      Quiescent (prmTimeout d (Except.ok v) D)
        (runPool (prmTimeout d (Except.ok v) D)
          (initConf (prmTimeout d (Except.ok v) D) [7]) 6) ∧
      (runPool (prmTimeout d (Except.ok v) D)
          (initConf (prmTimeout d (Except.ok v) D) [7]) 4).settled
          = some (Settle.rejectedWith (some JsErr.timeoutErr)) ∧
      ((runPool (prmTimeout d (Except.ok v) D)
          (initConf (prmTimeout d (Except.ok v) D) [7]) 4).tasks.getD 0
        default).procPending = true) := by
  refine ⟨?_, ?_, ?_⟩
  · -- processor first, success
    intro hd hdD
    have hDi : (0 : Int) < (D : Int) := by exact_mod_cast Nat.lt_trans hd hdD
    have h1 : step (prmTimeout d (Except.ok v) D)
        (initConf (prmTimeout d (Except.ok v) D) [7])
      = some { dataArr := [7], results := [], inFlightTasks := 1,
               processedEntries := 0, errSlot := none, settled := none,
               watchers := true, drvWaiting := none,
               tasks := [{ itemIdx := 0, attempts := 0, procPending := true,
                           procAt := d, raceSettled := false,
                           timerPending := true, timerAt := D,
                           finished := false }],
               micro := [], time := 0 } := by
      simp [step, runMicro, launchStep, pushMicro, launchMicro, launchTask,
        initConf, prmTimeout, behOne, hd, hDi]
    have h2 : step (prmTimeout d (Except.ok v) D)
        { dataArr := [7], results := [], inFlightTasks := 1,
          processedEntries := 0, errSlot := none, settled := none,
          watchers := true, drvWaiting := none,
          tasks := [{ itemIdx := 0, attempts := 0, procPending := true,
                      procAt := d, raceSettled := false,
                      timerPending := true, timerAt := D,
                      finished := false }],
          micro := [], time := 0 }
      = some { dataArr := [7], results := [], inFlightTasks := 1,
               processedEntries := 0, errSlot := none, settled := none,
               watchers := true, drvWaiting := none,
               tasks := [{ itemIdx := 0, attempts := 0, procPending := false,
                           procAt := d, raceSettled := false,
                           timerPending := true, timerAt := D,
                           finished := false }],
               micro := [Micro.raceReact 0 (Except.ok v)], time := d } := by
      simp [step, externals, externalsFrom, pickMin, fireExternal, pushMicro,
        updTask, prmTimeout, behOne, Nat.le_of_lt hdD, Except.mapError]
    have h3 : step (prmTimeout d (Except.ok v) D)
        { dataArr := [7], results := [], inFlightTasks := 1,
          processedEntries := 0, errSlot := none, settled := none,
          watchers := true, drvWaiting := none,
          tasks := [{ itemIdx := 0, attempts := 0, procPending := false,
                      procAt := d, raceSettled := false,
                      timerPending := true, timerAt := D,
                      finished := false }],
          micro := [Micro.raceReact 0 (Except.ok v)], time := d }
      = some { dataArr := [7], results := [], inFlightTasks := 1,
               processedEntries := 0, errSlot := none, settled := none,
               watchers := true, drvWaiting := none,
               tasks := [{ itemIdx := 0, attempts := 0, procPending := false,
                           procAt := d, raceSettled := true,
                           timerPending := true, timerAt := D,
                           finished := false }],
               micro := [Micro.taskCont 0 (Except.ok v)], time := d } := by
      simp [step, runMicro, raceReactStep, pushMicro, updTask]
    have h4 : step (prmTimeout d (Except.ok v) D)
        { dataArr := [7], results := [], inFlightTasks := 1,
          processedEntries := 0, errSlot := none, settled := none,
          watchers := true, drvWaiting := none,
          tasks := [{ itemIdx := 0, attempts := 0, procPending := false,
                      procAt := d, raceSettled := true,
                      timerPending := true, timerAt := D,
                      finished := false }],
          micro := [Micro.taskCont 0 (Except.ok v)], time := d }
      = some { dataArr := [7], results := [v], inFlightTasks := 0,
               processedEntries := 1, errSlot := none,
               settled := some Settle.resolvedArr,
               watchers := true, drvWaiting := none,
               tasks := [{ itemIdx := 0, attempts := 0, procPending := false,
                           procAt := d, raceSettled := true,
                           timerPending := true, timerAt := D,
                           finished := true }],
               micro := [], time := d } := by
      simp [step, runMicro, taskContStep, updTask, emitError,
        emitTaskCompleted, emitFinish]
    have h5 : step (prmTimeout d (Except.ok v) D)
        { dataArr := [7], results := [v], inFlightTasks := 0,
          processedEntries := 1, errSlot := none,
          settled := some Settle.resolvedArr,
          watchers := true, drvWaiting := none,
          tasks := [{ itemIdx := 0, attempts := 0, procPending := false,
                      procAt := d, raceSettled := true,
                      timerPending := true, timerAt := D,
                      finished := true }],
          micro := [], time := d }
      = some { dataArr := [7], results := [v], inFlightTasks := 0,
               processedEntries := 1, errSlot := none,
               settled := some Settle.resolvedArr,
               watchers := true, drvWaiting := none,
               tasks := [{ itemIdx := 0, attempts := 0, procPending := false,
                           procAt := d, raceSettled := true,
                           timerPending := false, timerAt := D,
                           finished := true }],
               micro := [Micro.raceReact 0 (Except.error JsErr.timeoutErr)],
               time := D } := by
      simp [step, externals, externalsFrom, pickMin, fireExternal, pushMicro,
        updTask]
    have h6 : step (prmTimeout d (Except.ok v) D)
        { dataArr := [7], results := [v], inFlightTasks := 0,
          processedEntries := 1, errSlot := none,
          settled := some Settle.resolvedArr,
          watchers := true, drvWaiting := none,
          tasks := [{ itemIdx := 0, attempts := 0, procPending := false,
                      procAt := d, raceSettled := true,
                      timerPending := false, timerAt := D,
                      finished := true }],
          micro := [Micro.raceReact 0 (Except.error JsErr.timeoutErr)],
          time := D }
      = some { dataArr := [7], results := [v], inFlightTasks := 0,
               processedEntries := 1, errSlot := none,
               settled := some Settle.resolvedArr,
               watchers := true, drvWaiting := none,
               tasks := [{ itemIdx := 0, attempts := 0, procPending := false,
                           procAt := d, raceSettled := true,
                           timerPending := false, timerAt := D,
                           finished := true }],
               micro := [], time := D } := by
      simp [step, runMicro, raceReactStep]
    have h7 : step (prmTimeout d (Except.ok v) D)
        { dataArr := [7], results := [v], inFlightTasks := 0,
          processedEntries := 1, errSlot := none,
          settled := some Settle.resolvedArr,
          watchers := true, drvWaiting := none,
          tasks := [{ itemIdx := 0, attempts := 0, procPending := false,
                      procAt := d, raceSettled := true,
                      timerPending := false, timerAt := D,
                      finished := true }],
          micro := [], time := D } = none := by
      simp [step, externals, externalsFrom, pickMin]
    have hrun : runPool (prmTimeout d (Except.ok v) D)
        (initConf (prmTimeout d (Except.ok v) D) [7]) 6
        = { dataArr := [7], results := [v], inFlightTasks := 0,
            processedEntries := 1, errSlot := none,
            settled := some Settle.resolvedArr,
            watchers := true, drvWaiting := none,
            tasks := [{ itemIdx := 0, attempts := 0, procPending := false,
                        procAt := d, raceSettled := true,
                        timerPending := false, timerAt := D,
                        finished := true }],
            micro := [], time := D } := by
      rw [runPool_succ_of_step h1, runPool_succ_of_step h2,
        runPool_succ_of_step h3, runPool_succ_of_step h4,
        runPool_succ_of_step h5, runPool_succ_of_step h6, runPool_zero]
    rw [hrun]
    exact ⟨rfl, rfl, h7⟩
  · -- processor first, failure
    intro hd hdD
    have hDi : (0 : Int) < (D : Int) := by exact_mod_cast Nat.lt_trans hd hdD
    have h1 : step (prmTimeout d (Except.error e) D)
        (initConf (prmTimeout d (Except.error e) D) [7])
      = some { dataArr := [7], results := [], inFlightTasks := 1,
               processedEntries := 0, errSlot := none, settled := none,
               watchers := true, drvWaiting := none,
               tasks := [{ itemIdx := 0, attempts := 0, procPending := true,
                           procAt := d, raceSettled := false,
                           timerPending := true, timerAt := D,
                           finished := false }],
               micro := [], time := 0 } := by
      simp [step, runMicro, launchStep, pushMicro, launchMicro, launchTask,
        initConf, prmTimeout, behOne, hd, hDi]
    have h2 : step (prmTimeout d (Except.error e) D)
        { dataArr := [7], results := [], inFlightTasks := 1,
          processedEntries := 0, errSlot := none, settled := none,
          watchers := true, drvWaiting := none,
          tasks := [{ itemIdx := 0, attempts := 0, procPending := true,
                      procAt := d, raceSettled := false,
                      timerPending := true, timerAt := D,
                      finished := false }],
          micro := [], time := 0 }
      = some { dataArr := [7], results := [], inFlightTasks := 1,
               processedEntries := 0, errSlot := none, settled := none,
               watchers := true, drvWaiting := none,
               tasks := [{ itemIdx := 0, attempts := 0, procPending := false,
                           procAt := d, raceSettled := false,
                           timerPending := true, timerAt := D,
                           finished := false }],
               micro := [Micro.raceReact 0 (Except.error (JsErr.procErr e))],
               time := d } := by
      simp [step, externals, externalsFrom, pickMin, fireExternal, pushMicro,
        updTask, prmTimeout, behOne, Nat.le_of_lt hdD, Except.mapError]
    have h3 : step (prmTimeout d (Except.error e) D)
        { dataArr := [7], results := [], inFlightTasks := 1,
          processedEntries := 0, errSlot := none, settled := none,
          watchers := true, drvWaiting := none,
          tasks := [{ itemIdx := 0, attempts := 0, procPending := false,
                      procAt := d, raceSettled := false,
                      timerPending := true, timerAt := D,
                      finished := false }],
          micro := [Micro.raceReact 0 (Except.error (JsErr.procErr e))],
          time := d }
      = some { dataArr := [7], results := [], inFlightTasks := 1,
               processedEntries := 0, errSlot := none, settled := none,
               watchers := true, drvWaiting := none,
               tasks := [{ itemIdx := 0, attempts := 0, procPending := false,
                           procAt := d, raceSettled := true,
                           timerPending := true, timerAt := D,
                           finished := false }],
               micro := [Micro.taskCont 0 (Except.error (JsErr.procErr e))],
               time := d } := by
      simp [step, runMicro, raceReactStep, pushMicro, updTask]
    have h4 : step (prmTimeout d (Except.error e) D)
        { dataArr := [7], results := [], inFlightTasks := 1,
          processedEntries := 0, errSlot := none, settled := none,
          watchers := true, drvWaiting := none,
          tasks := [{ itemIdx := 0, attempts := 0, procPending := false,
                      procAt := d, raceSettled := true,
                      timerPending := true, timerAt := D,
                      finished := false }],
          micro := [Micro.taskCont 0 (Except.error (JsErr.procErr e))],
          time := d }
      = some { dataArr := [7], results := [], inFlightTasks := 0,
               processedEntries := 1, errSlot := some (JsErr.procErr e),
               settled := some (Settle.rejectedWith (some (JsErr.procErr e))),
               watchers := true, drvWaiting := none,
               tasks := [{ itemIdx := 0, attempts := 0, procPending := false,
                           procAt := d, raceSettled := true,
                           timerPending := true, timerAt := D,
                           finished := true }],
               micro := [], time := d } := by
      simp [step, runMicro, taskContStep, updTask, emitError,
        emitTaskCompleted, emitFinish]
    have h5 : step (prmTimeout d (Except.error e) D)
        { dataArr := [7], results := [], inFlightTasks := 0,
          processedEntries := 1, errSlot := some (JsErr.procErr e),
          settled := some (Settle.rejectedWith (some (JsErr.procErr e))),
          watchers := true, drvWaiting := none,
          tasks := [{ itemIdx := 0, attempts := 0, procPending := false,
                      procAt := d, raceSettled := true,
                      timerPending := true, timerAt := D,
                      finished := true }],
          micro := [], time := d }
      = some { dataArr := [7], results := [], inFlightTasks := 0,
               processedEntries := 1, errSlot := some (JsErr.procErr e),
               settled := some (Settle.rejectedWith (some (JsErr.procErr e))),
               watchers := true, drvWaiting := none,
               tasks := [{ itemIdx := 0, attempts := 0, procPending := false,
                           procAt := d, raceSettled := true,
                           timerPending := false, timerAt := D,
                           finished := true }],
               micro := [Micro.raceReact 0 (Except.error JsErr.timeoutErr)],
               time := D } := by
      simp [step, externals, externalsFrom, pickMin, fireExternal, pushMicro,
        updTask]
    have h6 : step (prmTimeout d (Except.error e) D)
        { dataArr := [7], results := [], inFlightTasks := 0,
          processedEntries := 1, errSlot := some (JsErr.procErr e),
          settled := some (Settle.rejectedWith (some (JsErr.procErr e))),
          watchers := true, drvWaiting := none,
          tasks := [{ itemIdx := 0, attempts := 0, procPending := false,
                      procAt := d, raceSettled := true,
                      timerPending := false, timerAt := D,
                      finished := true }],
          micro := [Micro.raceReact 0 (Except.error JsErr.timeoutErr)],
          time := D }
      = some { dataArr := [7], results := [], inFlightTasks := 0,
               processedEntries := 1, errSlot := some (JsErr.procErr e),
               settled := some (Settle.rejectedWith (some (JsErr.procErr e))),
               watchers := true, drvWaiting := none,
               tasks := [{ itemIdx := 0, attempts := 0, procPending := false,
                           procAt := d, raceSettled := true,
                           timerPending := false, timerAt := D,
                           finished := true }],
               micro := [], time := D } := by
      simp [step, runMicro, raceReactStep]
    have h7 : step (prmTimeout d (Except.error e) D)
        { dataArr := [7], results := [], inFlightTasks := 0,
          processedEntries := 1, errSlot := some (JsErr.procErr e),
          settled := some (Settle.rejectedWith (some (JsErr.procErr e))),
          watchers := true, drvWaiting := none,
          tasks := [{ itemIdx := 0, attempts := 0, procPending := false,
                      procAt := d, raceSettled := true,
                      timerPending := false, timerAt := D,
                      finished := true }],
          micro := [], time := D } = none := by
      simp [step, externals, externalsFrom, pickMin]
    have hrun : runPool (prmTimeout d (Except.error e) D)
        (initConf (prmTimeout d (Except.error e) D) [7]) 6
        = { dataArr := [7], results := [], inFlightTasks := 0,
            processedEntries := 1, errSlot := some (JsErr.procErr e),
            settled := some (Settle.rejectedWith (some (JsErr.procErr e))),
            watchers := true, drvWaiting := none,
            tasks := [{ itemIdx := 0, attempts := 0, procPending := false,
                        procAt := d, raceSettled := true,
                        timerPending := false, timerAt := D,
                        finished := true }],
            micro := [], time := D } := by
      rw [runPool_succ_of_step h1, runPool_succ_of_step h2,
        runPool_succ_of_step h3, runPool_succ_of_step h4,
        runPool_succ_of_step h5, runPool_succ_of_step h6, runPool_zero]
    rw [hrun]
    exact ⟨rfl, rfl, h7⟩
  · -- timer first
    intro hD0 hDd
    have hd : 0 < d := Nat.lt_trans hD0 hDd
    have hDi : (0 : Int) < (D : Int) := by exact_mod_cast hD0
    have hnle : ¬ d ≤ D := Nat.not_le.mpr hDd
    have h1 : step (prmTimeout d (Except.ok v) D)
        (initConf (prmTimeout d (Except.ok v) D) [7])
      = some { dataArr := [7], results := [], inFlightTasks := 1,
               processedEntries := 0, errSlot := none, settled := none,
               watchers := true, drvWaiting := none,
               tasks := [{ itemIdx := 0, attempts := 0, procPending := true,
                           procAt := d, raceSettled := false,
                           timerPending := true, timerAt := D,
                           finished := false }],
               micro := [], time := 0 } := by
      simp [step, runMicro, launchStep, pushMicro, launchMicro, launchTask,
        initConf, prmTimeout, behOne, hd, hDi]
    have h2 : step (prmTimeout d (Except.ok v) D)
        { dataArr := [7], results := [], inFlightTasks := 1,
          processedEntries := 0, errSlot := none, settled := none,
          watchers := true, drvWaiting := none,
          tasks := [{ itemIdx := 0, attempts := 0, procPending := true,
                      procAt := d, raceSettled := false,
                      timerPending := true, timerAt := D,
                      finished := false }],
          micro := [], time := 0 }
      = some { dataArr := [7], results := [], inFlightTasks := 1,
               processedEntries := 0, errSlot := none, settled := none,
               watchers := true, drvWaiting := none,
               tasks := [{ itemIdx := 0, attempts := 0, procPending := true,
                           procAt := d, raceSettled := false,
                           timerPending := false, timerAt := D,
                           finished := false }],
               micro := [Micro.raceReact 0 (Except.error JsErr.timeoutErr)],
               time := D } := by
      simp [step, externals, externalsFrom, pickMin, fireExternal, pushMicro,
        updTask, hnle]
    have h3 : step (prmTimeout d (Except.ok v) D)
        { dataArr := [7], results := [], inFlightTasks := 1,
          processedEntries := 0, errSlot := none, settled := none,
          watchers := true, drvWaiting := none,
          tasks := [{ itemIdx := 0, attempts := 0, procPending := true,
                      procAt := d, raceSettled := false,
                      timerPending := false, timerAt := D,
                      finished := false }],
          micro := [Micro.raceReact 0 (Except.error JsErr.timeoutErr)],
          time := D }
      = some { dataArr := [7], results := [], inFlightTasks := 1,
               processedEntries := 0, errSlot := none, settled := none,
               watchers := true, drvWaiting := none,
               tasks := [{ itemIdx := 0, attempts := 0, procPending := true,
                           procAt := d, raceSettled := true,
                           timerPending := false, timerAt := D,
                           finished := false }],
               micro := [Micro.taskCont 0 (Except.error JsErr.timeoutErr)],
               time := D } := by
      simp [step, runMicro, raceReactStep, pushMicro, updTask]
    have h4 : step (prmTimeout d (Except.ok v) D)
        { dataArr := [7], results := [], inFlightTasks := 1,
          processedEntries := 0, errSlot := none, settled := none,
          watchers := true, drvWaiting := none,
          tasks := [{ itemIdx := 0, attempts := 0, procPending := true,
                      procAt := d, raceSettled := true,
                      timerPending := false, timerAt := D,
                      finished := false }],
          micro := [Micro.taskCont 0 (Except.error JsErr.timeoutErr)],
          time := D }
      = some { dataArr := [7], results := [], inFlightTasks := 0,
               processedEntries := 1, errSlot := some JsErr.timeoutErr,
               settled := some (Settle.rejectedWith (some JsErr.timeoutErr)),
               watchers := true, drvWaiting := none,
               tasks := [{ itemIdx := 0, attempts := 0, procPending := true,
                           procAt := d, raceSettled := true,
                           timerPending := false, timerAt := D,
                           finished := true }],
               micro := [], time := D } := by
      simp [step, runMicro, taskContStep, updTask, emitError,
        emitTaskCompleted, emitFinish]
    have h5 : step (prmTimeout d (Except.ok v) D)
        { dataArr := [7], results := [], inFlightTasks := 0,
          processedEntries := 1, errSlot := some JsErr.timeoutErr,
          settled := some (Settle.rejectedWith (some JsErr.timeoutErr)),
          watchers := true, drvWaiting := none,
          tasks := [{ itemIdx := 0, attempts := 0, procPending := true,
                      procAt := d, raceSettled := true,
                      timerPending := false, timerAt := D,
                      finished := true }],
          micro := [], time := D }
      = some { dataArr := [7], results := [], inFlightTasks := 0,
               processedEntries := 1, errSlot := some JsErr.timeoutErr,
               settled := some (Settle.rejectedWith (some JsErr.timeoutErr)),
               watchers := true, drvWaiting := none,
               tasks := [{ itemIdx := 0, attempts := 0, procPending := false,
                           procAt := d, raceSettled := true,
                           timerPending := false, timerAt := D,
                           finished := true }],
               micro := [Micro.raceReact 0 (Except.ok v)], time := d } := by
      simp [step, externals, externalsFrom, pickMin, fireExternal, pushMicro,
        updTask, prmTimeout, behOne, Except.mapError]
    have h6 : step (prmTimeout d (Except.ok v) D)
        { dataArr := [7], results := [], inFlightTasks := 0,
          processedEntries := 1, errSlot := some JsErr.timeoutErr,
          settled := some (Settle.rejectedWith (some JsErr.timeoutErr)),
          watchers := true, drvWaiting := none,
          tasks := [{ itemIdx := 0, attempts := 0, procPending := false,
                      procAt := d, raceSettled := true,
                      timerPending := false, timerAt := D,
                      finished := true }],
          micro := [Micro.raceReact 0 (Except.ok v)], time := d }
      = some { dataArr := [7], results := [], inFlightTasks := 0,
               processedEntries := 1, errSlot := some JsErr.timeoutErr,
               settled := some (Settle.rejectedWith (some JsErr.timeoutErr)),
               watchers := true, drvWaiting := none,
               tasks := [{ itemIdx := 0, attempts := 0, procPending := false,
                           procAt := d, raceSettled := true,
                           timerPending := false, timerAt := D,
                           finished := true }],
               micro := [], time := d } := by
      simp [step, runMicro, raceReactStep]
    have h7 : step (prmTimeout d (Except.ok v) D)
        { dataArr := [7], results := [], inFlightTasks := 0,
          processedEntries := 1, errSlot := some JsErr.timeoutErr,
          settled := some (Settle.rejectedWith (some JsErr.timeoutErr)),
          watchers := true, drvWaiting := none,
          tasks := [{ itemIdx := 0, attempts := 0, procPending := false,
                      procAt := d, raceSettled := true,
                      timerPending := false, timerAt := D,
                      finished := true }],
          micro := [], time := d } = none := by
      simp [step, externals, externalsFrom, pickMin]
    have hrun4 : runPool (prmTimeout d (Except.ok v) D)
        (initConf (prmTimeout d (Except.ok v) D) [7]) 4
        = { dataArr := [7], results := [], inFlightTasks := 0,
            processedEntries := 1, errSlot := some JsErr.timeoutErr,
            settled := some (Settle.rejectedWith (some JsErr.timeoutErr)),
            watchers := true, drvWaiting := none,
            tasks := [{ itemIdx := 0, attempts := 0, procPending := true,
                        procAt := d, raceSettled := true,
                        timerPending := false, timerAt := D,
                        finished := true }],
            micro := [], time := D } := by
      rw [runPool_succ_of_step h1, runPool_succ_of_step h2,
        runPool_succ_of_step h3, runPool_succ_of_step h4, runPool_zero]
    have hrun : runPool (prmTimeout d (Except.ok v) D)
        (initConf (prmTimeout d (Except.ok v) D) [7]) 6
        = { dataArr := [7], results := [], inFlightTasks := 0,
            processedEntries := 1, errSlot := some JsErr.timeoutErr,
            settled := some (Settle.rejectedWith (some JsErr.timeoutErr)),
            watchers := true, drvWaiting := none,
            tasks := [{ itemIdx := 0, attempts := 0, procPending := false,
                        procAt := d, raceSettled := true,
                        timerPending := false, timerAt := D,
                        finished := true }],
            micro := [], time := d } := by
      rw [runPool_succ_of_step h1, runPool_succ_of_step h2,
        runPool_succ_of_step h3, runPool_succ_of_step h4,
        runPool_succ_of_step h5, runPool_succ_of_step h6, runPool_zero]
    rw [hrun, hrun4]
    exact ⟨rfl, rfl, h7, rfl, rfl⟩

/-- Witness for C8: a 1 ms processor against a 5 ms timer (processor wins,
both polarities) and a 7 ms processor against a 2 ms timer (timer wins). -/
theorem c8_timeout_race_witness :
    ((runPool (prmTimeout 1 (Except.ok 55) 5)
        (initConf (prmTimeout 1 (Except.ok 55) 5) [7]) 6).settled
        = some Settle.resolvedArr ∧
      (runPool (prmTimeout 1 (Except.ok 55) 5)
        (initConf (prmTimeout 1 (Except.ok 55) 5) [7]) 6).results = [55] ∧
      Quiescent (prmTimeout 1 (Except.ok 55) 5)
        (runPool (prmTimeout 1 (Except.ok 55) 5)
          (initConf (prmTimeout 1 (Except.ok 55) 5) [7]) 6)) ∧
    ((runPool (prmTimeout 7 (Except.ok 55) 2)
        (initConf (prmTimeout 7 (Except.ok 55) 2) [7]) 6).settled
        = some (Settle.rejectedWith (some JsErr.timeoutErr)) ∧
      (runPool (prmTimeout 7 (Except.ok 55) 2)
        (initConf (prmTimeout 7 (Except.ok 55) 2) [7]) 6).results = [] ∧
      Quiescent (prmTimeout 7 (Except.ok 55) 2)
        (runPool (prmTimeout 7 (Except.ok 55) 2)
          (initConf (prmTimeout 7 (Except.ok 55) 2) [7]) 6) ∧
      (runPool (prmTimeout 7 (Except.ok 55) 2)
        (initConf (prmTimeout 7 (Except.ok 55) 2) [7]) 4).settled
        = some (Settle.rejectedWith (some JsErr.timeoutErr)) ∧
      ((runPool (prmTimeout 7 (Except.ok 55) 2)
        (initConf (prmTimeout 7 (Except.ok 55) 2) [7]) 4).tasks.getD 0
        default).procPending = true) :=
  ⟨(c8_timeout_race 1 5 55 0).1 (by decide) (by decide),
    (c8_timeout_race 7 2 55 0).2.2 (by decide) (by decide)⟩

end Arehs
